import Mathlib

/-!
# STP2X3D: the STEP reader (STEP_Reader.cpp, StrTool.h)

A shallow embedding of `STEP_Reader` and of the text helpers of `StrTool`.

* The geometry kernel is external.  A shape handle (`TopoDS_Shape`) is a finite tree
  `Shape`: a node carries the identity of the underlying kernel object (`tag`), its
  `TopAbs_ShapeEnum` and its immediate sub-shapes in the order of `TopoDS_Iterator`.
* The label graph of the XCAF document is a finite tree `Label`; a shape that is shared
  by several references occurs once under each of them, with the same handle.
* `Component` objects live in a heap (`Memory.heap`), addressed by allocation order, so
  that pointers (`Component*`) and the back-reference "original" are addresses.
* Helpers of the repository that the reader calls but that are defined in other files
  (`OCCUtil`, `STEP_Data`, `IShape`, `Component`, `Model`) are either fields of `Env`
  and `STEP_Data`, so that every theorem holds for all of them, or are modelled from the
  specification and marked so.
* The C library is external too.  The conversion `mbstowcs` under the locale of the process
  is a field of `Env`; `StrTool::s2ws` is translated on top of it.
-/

namespace STP2X3D

/-! ## Kernel shapes -/

/-- The enumeration `TopAbs_ShapeEnum`, most complex first. -/
inductive ShapeEnum
  | COMPOUND | COMPSOLID | SOLID | SHELL | FACE | WIRE | EDGE | VERTEX | SHAPE
  deriving DecidableEq, Repr

/-- Position of a shape type in `TopAbs_ShapeEnum` (0 is `COMPOUND`). -/
def ShapeEnum.rank : ShapeEnum → Nat
  | .COMPOUND => 0
  | .COMPSOLID => 1
  | .SOLID => 2
  | .SHELL => 3
  | .FACE => 4
  | .WIRE => 5
  | .EDGE => 6
  | .VERTEX => 7
  | .SHAPE => 8

/-- A shape handle `TopoDS_Shape`: null, or a kernel object with its identity, type and
immediate sub-shapes. -/
inductive Shape
  | null
  | mk (tag : Nat) (ty : ShapeEnum) (kids : List Shape)
  deriving Repr

mutual
/-- Decision procedure for equality of shape handles. -/
def Shape.decEq : (a b : Shape) → Decidable (a = b)
  | .null, .null => isTrue rfl
  | .null, .mk _ _ _ => isFalse (by intro h; cases h)
  | .mk _ _ _, .null => isFalse (by intro h; cases h)
  | .mk t1 y1 k1, .mk t2 y2 k2 =>
    if ht : t1 = t2 then
      if hy : y1 = y2 then
        match Shape.decEqList k1 k2 with
        | isTrue hk => isTrue (by rw [ht, hy, hk])
        | isFalse hk => isFalse (by intro h; cases h; exact hk rfl)
      else isFalse (by intro h; cases h; exact hy rfl)
    else isFalse (by intro h; cases h; exact ht rfl)
/-- Decision procedure for equality of lists of shape handles. -/
def Shape.decEqList : (a b : List Shape) → Decidable (a = b)
  | [], [] => isTrue rfl
  | [], _ :: _ => isFalse (by intro h; cases h)
  | _ :: _, [] => isFalse (by intro h; cases h)
  | a :: as, b :: bs =>
    match Shape.decEq a b with
    | isTrue h1 =>
      match Shape.decEqList as bs with
      | isTrue h2 => isTrue (by rw [h1, h2])
      | isFalse h2 => isFalse (by intro h; cases h; exact h2 rfl)
    | isFalse h1 => isFalse (by intro h; cases h; exact h1 rfl)
end

instance : DecidableEq Shape := Shape.decEq

/-- The test `shape.IsNull()`. -/
def Shape.IsNull : Shape → Bool
  | .null => true
  | .mk _ _ _ => false

/-- The immediate sub-shapes, in the order `TopoDS_Iterator` yields them. -/
def Shape.kids : Shape → List Shape
  | .null => []
  | .mk _ _ ks => ks

mutual
/-- The kernel's `TopExp_Explorer(shape, toFind, toAvoid)`: the sub-shapes of type `toFind`
in visiting order.  A shape of the wanted type is reported and not entered; a shape of the
avoided type, or one that is not more complex than `toFind`, is skipped; any other shape
is entered.  `toAvoid = SHAPE` avoids nothing, `toFind = SHAPE` finds nothing. -/
def explore (toFind toAvoid : ShapeEnum) : Shape → List Shape
  | .null => []
  | .mk tag ty kids =>
    if toFind = .SHAPE then []
    else if ty = toFind then [.mk tag ty kids]
    else if ty.rank < toFind.rank ∧ ¬ (toAvoid ≠ .SHAPE ∧ toAvoid = ty) then
      exploreList toFind toAvoid kids
    else []
/-- The explorer over a sequence of sibling shapes. -/
def exploreList (toFind toAvoid : ShapeEnum) : List Shape → List Shape
  | [] => []
  | s :: ss => explore toFind toAvoid s ++ exploreList toFind toAvoid ss
end

/-! ## Options and the helpers defined outside the reader -/

/-- The conversion options `S2X_Option` the reader consults. -/
structure S2X_Option where
  Sketch : Bool
  Color : Bool
  deriving DecidableEq, Repr

/-- The helpers of `OCCUtil` and `IShape` that the reader calls and that are defined in
other files of the repository, and the text conversion of the C library.  They are
parameters of the embedding. -/
structure Env where
  /-- The helper `OCCUtil::IsFreeEdge`. -/
  IsFreeEdge : Shape → Bool
  /-- The helper `OCCUtil::HasEdge`. -/
  HasEdge : Shape → Bool
  /-- The helper `OCCUtil::HasFace`. -/
  HasFace : Shape → Bool
  /-- The helper `OCCUtil::GetID`, the shape identity used for duplicate detection. -/
  GetID : Shape → Int
  /-- The classification tag an `IShape` gets for its shape (`IShape::IsFaceSet`). -/
  IsFaceSet : Shape → Bool
  /-- The conversion `mbstowcs` of the C library under the locale that `setlocale(LC_ALL, "")`
  sets for the process: the wide characters of a multibyte text, `none` when the text holds
  an invalid multibyte sequence (the call returns `(size_t)-1`). -/
  mbstowcs : List Char → Option (List Char)

/-- The queries of `STEP_Data` (built from the STEP file that is being read) that the
reader calls.  They are parameters of the embedding. -/
structure STEP_Data where
  /-- The query `STEP_Data::IsSolidModel`. -/
  IsSolidModel : Shape → Bool
  /-- The query `STEP_Data::IsSurfaceModel`. -/
  IsSurfaceModel : Shape → Bool
  /-- The query `STEP_Data::IsMappedItem`. -/
  IsMappedItem : Shape → Bool

/-- Modelled from the spec: `OCCUtil::HasFace`, "the shape has faces": the explorer finds
a face in it. -/
def OCCUtil.HasFace (s : Shape) : Bool := !(explore .FACE .SHAPE s).isEmpty

/-- Modelled from the spec: `OCCUtil::HasEdge`, "the shape has edges": the explorer finds
an edge in it. -/
def OCCUtil.HasEdge (s : Shape) : Bool := !(explore .EDGE .SHAPE s).isEmpty

/-- Modelled from the spec: `OCCUtil::IsFreeEdge`, a free wire/edge group "contains only
wires/edges, no faces". -/
def OCCUtil.IsFreeEdge (s : Shape) : Bool := OCCUtil.HasEdge s && !OCCUtil.HasFace s

/-- Modelled from the spec: `OCCUtil::GetID`, "a kernel-provided stable id for a shape
handle": the identity of the kernel object; the null handle has id 0. -/
def OCCUtil.GetID : Shape → Int
  | .null => 0
  | .mk tag _ _ => (tag : Int) + 1

/-- Modelled from the spec: the `OCCUtil` helpers as the specification describes them; a
unit is a face set when it has a face; every character of a name is converted to itself, as
an ASCII text is under any locale. -/
def Env.plain : Env where
  IsFreeEdge := OCCUtil.IsFreeEdge
  HasEdge := OCCUtil.HasEdge
  HasFace := OCCUtil.HasFace
  GetID := OCCUtil.GetID
  IsFaceSet := OCCUtil.HasFace
  mbstowcs := fun s => some s

/-- The STEP data of a file none of whose representation items is a solid model, a surface
model or a mapped item. -/
def STEP_Data.plain : STEP_Data where
  IsSolidModel := fun _ => false
  IsSurfaceModel := fun _ => false
  IsMappedItem := fun _ => false

/-! ## Shape classifier: `STEP_Reader::GetSubShapes` and `STEP_Reader::IsEmpty` -/

mutual
/-- The method `STEP_Reader::GetSubShapes(shape, subShapes)`: the output vector is passed
in and returned.  A null handle is never passed (callers test `IsEmpty` first, and the
iterator yields no null shape); it contributes nothing. -/
def GetSubShapes (env : Env) (sd : STEP_Data) (opt : S2X_Option) : Shape → List Shape → List Shape
  | .null, subShapes => subShapes
  | .mk tag ty kids, subShapes =>
    if ty = .COMPOUND then
      -- Free wires or edges
      if env.IsFreeEdge (.mk tag ty kids) then
        if opt.Sketch then subShapes ++ [.mk tag ty kids] else subShapes
      -- Solid or surface models in STEP
      else if sd.IsSolidModel (.mk tag ty kids) || sd.IsSurfaceModel (.mk tag ty kids) then
        subShapes ++ [.mk tag ty kids]
      -- Mapped_item in STEP
      else if sd.IsMappedItem (.mk tag ty kids) then subShapes
      -- Traverse the compound shape
      else GetSubShapesKids env sd opt kids subShapes
    else if ty = .COMPSOLID ∨ ty = .SOLID ∨ ty = .SHELL then
      subShapes ++ [.mk tag ty kids]
    else subShapes
/-- The loop `for (TopoDS_Iterator exp(shape); exp.More(); exp.Next())` of `GetSubShapes`. -/
def GetSubShapesKids (env : Env) (sd : STEP_Data) (opt : S2X_Option) : List Shape → List Shape → List Shape
  | [], subShapes => subShapes
  | s :: ss, subShapes => GetSubShapesKids env sd opt ss (GetSubShapes env sd opt s subShapes)
end

/-- The method `STEP_Reader::IsEmpty`. -/
def IsEmpty (env : Env) (opt : S2X_Option) (shape : Shape) : Bool :=
  shape.IsNull
    || (opt.Sketch && !env.HasEdge shape)
    || (!opt.Sketch && !env.HasFace shape)

/-- The type of a shape is `COMPOUND` (`shape.ShapeType() == TopAbs_COMPOUND`). -/
def Shape.IsCompound : Shape → Bool
  | .null => false
  | .mk _ ty _ => decide (ty = .COMPOUND)

/-! ## Colors: `IShape` and `STEP_Reader::AddColors` -/

/-- A color `Quantity_ColorRGBA`.  Colors are only stored and compared, never computed
with; the four components are kept in thousandths (0.55 is 550). -/
structure Quantity_ColorRGBA where
  r : Nat
  g : Nat
  b : Nat
  a : Nat
  deriving DecidableEq, Repr

/-- The color roles `XCAFDoc_ColorType`. -/
inductive XCAFDoc_ColorType
  | ColorGen | ColorSurf | ColorCurv
  deriving DecidableEq, Repr

/-- The kernel's color tool `XCAFDoc_ColorTool` of a document: `GetColor(shape, type, c)`
returns a color or fails, `GetColors` lists `colorCount` color labels. -/
structure ColorTool where
  GetColor : Shape → XCAFDoc_ColorType → Option Quantity_ColorRGBA
  colorCount : Nat

/-- The default face color set by the constructor of `STEP_Reader` (grey). -/
def m_defaultFaceColor : Quantity_ColorRGBA := ⟨550, 550, 600, 1000⟩

/-- The default wire color set by the constructor of `STEP_Reader` (white). -/
def m_defaultWireColor : Quantity_ColorRGBA := ⟨1000, 1000, 1000, 1000⟩

/-- Modelled from the spec: the exportable unit `IShape` (IShape.h is not part of the
sources at hand): "the underlying shape handle, a classification tag (face-set or
wire-set), and a mapping from contained sub-entity (face or edge, compared by kernel
identity) to an RGBA color".  The mapping is a list of entries, one per sub-entity. -/
structure IShape where
  shape : Shape
  faceSet : Bool
  colors : List (Shape × Quantity_ColorRGBA)
  deriving DecidableEq, Repr

/-- Modelled from the spec: the constructor `IShape(shape)`: the shape, its
classification tag, and an empty color mapping. -/
def IShape.new (env : Env) (shape : Shape) : IShape :=
  { shape := shape, faceSet := env.IsFaceSet shape, colors := [] }

/-- The entry of a color mapping after the color of `k` is set to `c`. -/
def setEntry (k : Shape) (c : Quantity_ColorRGBA) (e : Shape × Quantity_ColorRGBA) :
    Shape × Quantity_ColorRGBA :=
  if e.1 = k then (e.1, c) else e

/-- Modelled from the spec: `IShape::AddColor(entity, color)` on "a mapping from contained
sub-entity to an RGBA color": the entity is mapped to the color; an entity that has no
entry yet gets one, after the existing entries. -/
def IShape.AddColor (sh : IShape) (entity : Shape) (color : Quantity_ColorRGBA) : IShape :=
  if entity ∈ sh.colors.map Prod.fst then
    { sh with colors := sh.colors.map (setEntry entity color) }
  else
    { sh with colors := sh.colors ++ [(entity, color)] }

/-- The color the mapping of a unit holds for a sub-entity, if any. -/
def IShape.GetColor (sh : IShape) (entity : Shape) : Option Quantity_ColorRGBA :=
  (sh.colors.find? (fun e => decide (e.1 = entity))).map Prod.snd

/-- The number of entries the mapping of a unit holds for a sub-entity. -/
def IShape.entryCount (sh : IShape) (entity : Shape) : Nat :=
  (sh.colors.filter (fun e => decide (e.1 = entity))).length

/-- The body of the face loop of `AddColors`: priority face color, solid color, default. -/
def AddColors.face (ct : ColorTool) (solidColor : Option Quantity_ColorRGBA)
    (iShape : IShape) (face : Shape) : IShape :=
  match ct.GetColor face .ColorSurf with
  | some faceColor => iShape.AddColor face faceColor
  | none =>
    match solidColor with
    | some c => iShape.AddColor face c
    | none => iShape.AddColor face m_defaultFaceColor

/-- The body of the edge loop inside a wire: priority edge color, wire color, default. -/
def AddColors.wireEdge (ct : ColorTool) (wireColor : Option Quantity_ColorRGBA)
    (iShape : IShape) (edge : Shape) : IShape :=
  match ct.GetColor edge .ColorCurv with
  | some edgeColor => iShape.AddColor edge edgeColor
  | none =>
    match wireColor with
    | some c => iShape.AddColor edge c
    | none => iShape.AddColor edge m_defaultWireColor

/-- The body of the wire loop: the wire color is looked up, then every edge of the wire is
colored. -/
def AddColors.wire (ct : ColorTool) (iShape : IShape) (wire : Shape) : IShape :=
  (explore .EDGE .SHAPE wire).foldl (AddColors.wireEdge ct (ct.GetColor wire .ColorCurv)) iShape

/-- The body of the free-edge loop: priority edge color, default. -/
def AddColors.freeEdge (ct : ColorTool) (iShape : IShape) (edge : Shape) : IShape :=
  match ct.GetColor edge .ColorCurv with
  | some edgeColor => iShape.AddColor edge edgeColor
  | none => iShape.AddColor edge m_defaultWireColor

/-- The method `STEP_Reader::AddColors(iShape)`; `ct` is the color tool `m_colorTool`. -/
def AddColors (opt : S2X_Option) (ct : ColorTool) (iShape : IShape) : IShape :=
  if !opt.Color then iShape
  else if iShape.faceSet then
    -- Face set (Solids, Shells)
    (explore .FACE .SHAPE iShape.shape).foldl
      (AddColors.face ct (ct.GetColor iShape.shape .ColorSurf)) iShape
  else
    -- Wire set: free wires, then free edges
    (explore .EDGE .WIRE iShape.shape).foldl (AddColors.freeEdge ct)
      ((explore .WIRE .SHAPE iShape.shape).foldl (AddColors.wire ct) iShape)

/-! ## Text helpers: `StrTool` and `STEP_Reader::GetName` -/

/-- A wide string `std::wstring`, as its sequence of characters. -/
abbrev WString := List Char

/-- The constant `npos` of `std::basic_string`, the largest `size_t`. -/
def npos : Nat := 2 ^ 64 - 1

/-- The search of `std::basic_string::find` over the suffix `s` that starts at index `i`:
the lowest index at which `frm` occurs, `npos` when there is none. -/
def findAux (frm : WString) : WString → Nat → Nat
  | [], i => if frm = [] then i else npos
  | c :: s, i => if frm.isPrefixOf (c :: s) then i else findAux frm s (i + 1)

/-- The call `str.find(frm, pos)` of `std::basic_string`. -/
def find (str frm : WString) (pos : Nat) : Nat :=
  if pos > str.length then npos else findAux frm (str.drop pos) pos

/-- The call `str.replace(loc, n, to)` of `std::basic_string`, for `loc` within `str`. -/
def replace (str : WString) (loc n : Nat) (to_ : WString) : WString :=
  str.take loc ++ to_ ++ str.drop (loc + n)

/-- The loop of `StrTool::ReplaceCharacter` with the current `str` and `loc`; every
iteration uses one unit of `fuel`, and `none` means the fuel ran out before the loop ended. -/
def ReplaceCharacter.loop (frm to_ : WString) : Nat → WString → Nat → Option WString
  | fuel, str, loc =>
    if loc = npos then some str
    else
      match fuel with
      | 0 => none
      | fuel + 1 =>
        ReplaceCharacter.loop frm to_ fuel (replace str loc frm.length to_)
          (find (replace str loc frm.length to_) frm ((loc + to_.length) % 2 ^ 64))

/-- The helper `StrTool::ReplaceCharacter(str, from, to)`, run for at most `fuel`
replacements. -/
def ReplaceCharacter (fuel : Nat) (str frm to_ : WString) : Option WString :=
  ReplaceCharacter.loop frm to_ fuel str (find str frm 0)

/-- The helper `StrTool::RemoveCharacter(str, target)`.  The fuel `str.length` is at least
the number of occurrences of a target that is not empty; the reader only removes the
one-character targets carriage return and line feed. -/
def RemoveCharacter (str target : WString) : WString :=
  (ReplaceCharacter str.length str target []).getD str

/-- The helper `StrTool::s2ws(s)`: the size `_Dsize` is the count `mbstowcs(NULL, s, 0)`
plus one, in `size_t` arithmetic, and `mbstowcs(_Dest, s, _Dsize)` converts at most that many
wide characters into the zeroed array, which is read back as a string.  When `mbstowcs`
reports an invalid multibyte sequence the count is `(size_t)-1`, the size is 0, nothing is
converted, and the string read back is taken to be empty.  `setlocale(LC_ALL, "")` is taken
to return the name of a locale: `Env` describes a process that has one. -/
def s2ws (env : Env) (s : List Char) : WString :=
  let dsize := ((match env.mbstowcs s with | some w => w.length | none => npos) + 1) % 2 ^ 64
  match env.mbstowcs s with
  | some w => w.take dsize
  | none => []

/-- The method `STEP_Reader::GetName` as a function of the text of the name attribute of the
label (empty when the label has none): the text is written to a stream followed by `endl`,
converted to a wide string by `StrTool::s2ws`, stripped of carriage returns and line feeds,
and cleared when it is a bare type word or a placeholder. -/
def GetName (env : Env) (nameText : List Char) : WString :=
  let s := nameText ++ ['\n']
  let name := RemoveCharacter (RemoveCharacter (s2ws env s) ['\r']) ['\n']
  if name = ['C', 'O', 'M', 'P', 'O', 'U', 'N', 'D']
      ∨ name = ['C', 'O', 'M', 'P', 'S', 'O', 'L', 'I', 'D']
      ∨ name = ['S', 'O', 'L', 'I', 'D']
      ∨ name = ['S', 'H', 'E', 'L', 'L']
      ∨ (find name ['=', '>', '['] 0 = 0
          ∧ find name [']'] 0 = (name.length + 2 ^ 64 - 1) % 2 ^ 64) then []
  else name

/-! ## Assembly tree: labels, components, `IsCopy` and `AddSubComponents` -/

/-- A placement `gp_Trsf`.  Placements are only stored; a value stands for one transform,
0 for the identity. -/
structure gp_Trsf where
  code : Nat
  deriving DecidableEq, Repr

/-- A label of the XCAF document as the shape tool classifies it, with the text of its
name attribute (the characters that `ss << nameText` writes to the stream, none when the
label has no name attribute) and its shape (`GetShape`): an assembly with its component labels
(`GetComponents`), a reference with its placement (`GetLocation`) and referred label
(`GetReferredShape`), a simple shape, or a label of no such kind. -/
inductive Label
  | assembly (nameText : WString) (shape : Shape) (comps : List Label)
  | reference (nameText : WString) (shape : Shape) (trsf : gp_Trsf) (referred : Label)
  | simpleShape (nameText : WString) (shape : Shape)
  | other (nameText : WString) (shape : Shape)

/-- The shape of a label, `m_shapeTool->GetShape(label)`. -/
def Label.shape : Label → Shape
  | .assembly _ s _ => s
  | .reference _ s _ _ => s
  | .simpleShape _ s => s
  | .other _ s => s

/-- The text of the name attribute of a label. -/
def Label.nameText : Label → WString
  | .assembly n _ _ => n
  | .reference n _ _ _ => n
  | .simpleShape n _ => n
  | .other n _ => n

/-- Modelled from the spec: a node `Component` of the output tree (Component.h is not part
of the sources at hand): "display name, a reference to a shape handle, a local transform,
an ordered sequence of owned child Components, an ordered sequence of owned exportable-unit
wrappers, and an optional back-reference to an original Component".  Children and the
back-reference are addresses in the heap of the reader. -/
structure Component where
  shape : Shape
  uniqueName : WString
  trsf : gp_Trsf
  subComponents : List Nat
  iShapes : List IShape
  originalComponent : Option Nat
  deriving DecidableEq, Repr

/-- Modelled from the spec: the constructor `Component(shape)`: no name, the identity
placement, no children, no units, no original. -/
def Component.new (shape : Shape) : Component :=
  { shape := shape, uniqueName := [], trsf := ⟨0⟩, subComponents := [], iShapes := [],
    originalComponent := none }

/-- The memory the tree builder works on: the `Component` objects allocated so far (the
address of an object is its position) and the duplicate-instance index
`m_idComponentMap`, from shape identity to the address of a component. -/
structure Memory where
  heap : List Component
  idComponentMap : List (Int × Nat)
  deriving DecidableEq, Repr

/-- The value `std::map::find` yields for a key of `m_idComponentMap`, if any. -/
def mapFind (m : List (Int × Nat)) (k : Int) : Option Nat :=
  (m.find? (fun e => decide (e.1 = k))).map Prod.snd

/-- The object at an address after `f` is applied to it. -/
def modifyAt (heap : List Component) (a : Nat) (f : Component → Component) : List Component :=
  match heap[a]? with
  | some c => heap.set a (f c)
  | none => heap

/-- The expression `new Component(shape)`: the object is placed at the next address,
which is returned. -/
def Memory.alloc (r : Memory) (c : Component) : Nat × Memory :=
  (r.heap.length, { r with heap := r.heap ++ [c] })

/-- The shape of the component at an address, `comp->GetShape()`. -/
def Memory.GetShape (r : Memory) (comp : Nat) : Shape :=
  match r.heap[comp]? with
  | some c => c.shape
  | none => .null

/-- Modelled from the spec: `comp->SetUniqueName(name)` sets the display name. -/
def Memory.SetUniqueName (r : Memory) (comp : Nat) (name : WString) : Memory :=
  { r with heap := modifyAt r.heap comp (fun c => { c with uniqueName := name }) }

/-- Modelled from the spec: `comp->SetTransformation(trsf)` sets the local transform. -/
def Memory.SetTransformation (r : Memory) (comp : Nat) (trsf : gp_Trsf) : Memory :=
  { r with heap := modifyAt r.heap comp (fun c => { c with trsf := trsf }) }

/-- Modelled from the spec: `comp->AddSubComponent(subComp)` appends a child ("insertion
order = traversal order"). -/
def Memory.AddSubComponent (r : Memory) (comp subComp : Nat) : Memory :=
  { r with
    heap := modifyAt r.heap comp (fun c => { c with subComponents := c.subComponents ++ [subComp] }) }

/-- Modelled from the spec: `comp->AddIShape(iShape)` appends a unit. -/
def Memory.AddIShape (r : Memory) (comp : Nat) (iShape : IShape) : Memory :=
  { r with heap := modifyAt r.heap comp (fun c => { c with iShapes := c.iShapes ++ [iShape] }) }

/-- Modelled from the spec: `comp->SetOriginalComponent(originalComp)` sets the
back-reference. -/
def Memory.SetOriginalComponent (r : Memory) (comp originalComp : Nat) : Memory :=
  { r with
    heap := modifyAt r.heap comp (fun c => { c with originalComponent := some originalComp }) }

/-- The method `STEP_Reader::IsCopy(comp)`: the returned flag and the memory afterwards. -/
def IsCopy (env : Env) (r : Memory) (comp : Nat) : Bool × Memory :=
  let shapeID := env.GetID (r.GetShape comp)
  -- Check if there's a component with the same id in the map
  match mapFind r.idComponentMap shapeID with
  | none => (false, { r with idComponentMap := r.idComponentMap ++ [(shapeID, comp)] })
  | some originalComp => (true, r.SetOriginalComponent comp originalComp)

/-- The loop `for (const auto& subShape : subShapes)` of `AddSubComponents`: every sub shape
is wrapped in a new `IShape`, which is added to the component and colored.  The component
holds the unit by pointer, so that the unit it holds is the colored one. -/
def AddIShapes (env : Env) (opt : S2X_Option) (ct : ColorTool) (r : Memory) (comp : Nat)
    (subShapes : List Shape) : Memory :=
  subShapes.foldl (fun r subShape => r.AddIShape comp (AddColors opt ct (IShape.new env subShape))) r

mutual
/-- The method `STEP_Reader::AddSubComponents(comp, label)`: the memory afterwards. -/
def AddSubComponents (env : Env) (sd : STEP_Data) (opt : S2X_Option) (ct : ColorTool) :
    Memory → Nat → Label → Memory
  | r, comp, .assembly nameText _ comps =>
    -- Assembly or sub-assembly component: set the component's name, then the components
    AddSubComponentsSeq env sd opt ct (r.SetUniqueName comp (GetName env nameText)) comp comps
  | r, comp, .reference _ _ trsf label_ref =>
    -- Reference (part or assembly)
    if IsEmpty env opt label_ref.shape then r
    else
      let subComp := (r.alloc (Component.new label_ref.shape)).1
      let r1 := (r.alloc (Component.new label_ref.shape)).2
      let r2 := r1.SetUniqueName subComp (GetName env label_ref.nameText)
      let r3 := r2.SetTransformation subComp trsf
      let r4 := r3.AddSubComponent comp subComp
      -- Skip if the subcomp is a copy
      if (IsCopy env r4 subComp).1 then (IsCopy env r4 subComp).2
      else AddSubComponents env sd opt ct (IsCopy env r4 subComp).2 subComp label_ref
  | r, comp, .simpleShape _ shape =>
    -- Part component or just shape
    if IsEmpty env opt shape then r
    else AddIShapes env opt ct r comp (GetSubShapes env sd opt shape [])
  | r, _, .other _ _ => r
/-- The loop over the component labels of an assembly, in order. -/
def AddSubComponentsSeq (env : Env) (sd : STEP_Data) (opt : S2X_Option) (ct : ColorTool) :
    Memory → Nat → List Label → Memory
  | r, _, [] => r
  | r, comp, label_comp :: rest =>
    AddSubComponentsSeq env sd opt ct (AddSubComponents env sd opt ct r comp label_comp) comp rest
end

/-! ## Read orchestrator: `STEP_Reader::ReadSTEP` -/

/-- The status `IFSelect_ReturnStatus` of a read call of the kernel. -/
inductive IFSelect_ReturnStatus
  | RetVoid | RetDone | RetError | RetFail | RetStop
  deriving DecidableEq, Repr

/-- The exceptions `ReadSTEP` distinguishes: `Standard_NumericError`, and any other one. -/
inductive Fault
  | NumericError | Unknown
  deriving DecidableEq, Repr

/-- Modelled from the spec: the root container `Model` (Model.h is not part of the sources
at hand): "owns an ordered sequence of root Components", here their addresses. -/
structure Model where
  roots : List Nat
  deriving DecidableEq, Repr

/-- Modelled from the spec: `model->Clear()` "releases all owned Components". -/
def Model.Clear (_ : Model) : Model := { roots := [] }

/-- Modelled from the spec: `model->AddRootComponent(rootComp)` appends a root. -/
def Model.AddRootComponent (m : Model) (rootComp : Nat) : Model :=
  { roots := m.roots ++ [rootComp] }

/-- Modelled from the spec: `model->Update()` "finalizes derived state after population";
the roots, the components and their units are not derived state and stay as they are. -/
def Model.Update (m : Model) : Model := m

/-- The members of a `STEP_Reader` object that `ReadSTEP` reads or writes, with the option
object `m_opt` points to: `m_colorTool` and `m_stepData` are `none` while they are null. -/
structure STEP_Reader where
  opt : S2X_Option
  colorTool : Option ColorTool
  stepData : Option STEP_Data
  mem : Memory

/-- The state a read works on: the reader, the model it fills and the lines printed. -/
structure ReadState where
  rd : STEP_Reader
  model : Model
  out : List String

/-- The XCAF document a successful `cafReader.Transfer(doc)` yields: the STEP data of the
file, the color tool and the free shapes (`GetFreeShapes`). -/
structure Document where
  stepData : STEP_Data
  colorTool : ColorTool
  freeShapes : List Label

/-- What the kernel does on the primary path of one read: the result of
`cafReader.ReadFile` and of `cafReader.Transfer` (a status or flag, or an exception), and
`treeFault = some (i, f)` when a kernel call raises `f` while free shape number `i`
(from 0) is processed, after its root component was attached and before
`AddSubComponents` changed anything. -/
structure CafRead where
  readFile : Except Fault IFSelect_ReturnStatus
  transfer : Except Fault (Option Document)
  treeFault : Option (Nat × Fault)

/-- What the kernel does on the degraded path: the status of the plain
`reader.ReadFile`, the flag of `reader.TransferRoot()` and the shape `reader.Shape()`. -/
structure PlainRead where
  readFile : IFSelect_ReturnStatus
  transferRoot : Bool
  shape : Shape

/-- How a block of `ReadSTEP` ends: it runs to its end, it returns a value, or it raises. -/
inductive Outcome
  | completed (st : ReadState)
  | returned (ret : Bool) (st : ReadState)
  | raised (f : Fault) (st : ReadState)

/-- The method `STEP_Reader::CheckReturnStatus`: the flag and the line it prints, if any. -/
def CheckReturnStatus (status : IFSelect_ReturnStatus) : Bool × List String :=
  if status = .RetDone then (true, [])
  else
    match status with
    | .RetError => (false, ["Not a valid STEP file."])
    | .RetFail => (false, ["Reading has failed."])
    | .RetVoid => (false, ["Nothing to translate."])
    | .RetStop => (false, ["Reading has stopped."])
    | .RetDone => (false, [])

/-- The method `STEP_Reader::UpdateColorOption`. -/
def UpdateColorOption (rd : STEP_Reader) : STEP_Reader :=
  if !rd.opt.Color then rd
  else
    match rd.colorTool with
    | none => { rd with opt := { rd.opt with Color := false } }
    | some ct =>
      -- Check the number of colors defined in the model
      if ct.colorCount = 0 then { rd with opt := { rd.opt with Color := false } } else rd

/-- The loop of `ReadSTEP` over the free shapes, from free shape number `i` on. -/
def ReadSTEP.freeShapes (env : Env) (doc : Document) (treeFault : Option (Nat × Fault)) :
    Nat → List Label → ReadState → Outcome
  | _, [], st => .completed st
  | i, label_shape :: rest, st =>
    let rootComp := (st.rd.mem.alloc (Component.new label_shape.shape)).1
    let mem1 := ((st.rd.mem.alloc (Component.new label_shape.shape)).2).SetUniqueName rootComp
      (GetName env label_shape.nameText)
    let model1 := st.model.AddRootComponent rootComp
    match treeFault with
    | some (j, f) =>
      if j = i then .raised f { st with rd := { st.rd with mem := mem1 }, model := model1 }
      else
        ReadSTEP.freeShapes env doc treeFault (i + 1) rest
          { st with
            rd := { st.rd with
              mem := AddSubComponents env doc.stepData st.rd.opt doc.colorTool mem1 rootComp
                label_shape },
            model := model1 }
    | none =>
      ReadSTEP.freeShapes env doc treeFault (i + 1) rest
        { st with
          rd := { st.rd with
            mem := AddSubComponents env doc.stepData st.rd.opt doc.colorTool mem1 rootComp
              label_shape },
          model := model1 }

/-- The `try` block of `ReadSTEP` (the primary, color-aware path). -/
def ReadSTEP.tryBlock (env : Env) (caf : CafRead) (st : ReadState) : Outcome :=
  match caf.readFile with
  | .error f => .raised f st
  | .ok status =>
    if !(CheckReturnStatus status).1 then
      .returned false { st with out := st.out ++ (CheckReturnStatus status).2 }
    else
      match caf.transfer with
      | .error f => .raised f st
      | .ok none => .completed st
      | .ok (some doc) =>
        -- the members are set, then the color option is updated if there is no color
        let rd1 := UpdateColorOption
          { st.rd with stepData := some doc.stepData, colorTool := some doc.colorTool }
        ReadSTEP.freeShapes env doc caf.treeFault 0 doc.freeShapes { st with rd := rd1 }

/-- The handler `catch (Standard_NumericError&)` of `ReadSTEP` (the degraded path). -/
def ReadSTEP.catchNumericError (env : Env) (plain : PlainRead) (st : ReadState) : Outcome :=
  let model1 := st.model.Clear
  let rd1 := UpdateColorOption st.rd
  let out1 := st.out ++ ["Standard_NumericError occured.", "Color will not be supported."]
  if !(CheckReturnStatus plain.readFile).1 then
    .returned false
      { rd := rd1, model := model1, out := out1 ++ (CheckReturnStatus plain.readFile).2 }
  else if plain.transferRoot then
    let iShape := IShape.new env plain.shape
    let rootComp := (rd1.mem.alloc (Component.new plain.shape)).1
    let mem1 := ((rd1.mem.alloc (Component.new plain.shape)).2).AddIShape rootComp iShape
    .completed
      { rd := { rd1 with mem := mem1 }, model := model1.AddRootComponent rootComp, out := out1 }
  else .completed { rd := rd1, model := model1, out := out1 }

/-- The end of `ReadSTEP`, after the `try` statement: the model is updated, and an empty
model ends the read with the status `RetVoid`. -/
def ReadSTEP.finish (modelIsEmpty : List Component → Model → Bool) (st : ReadState) :
    Bool × ReadState :=
  let model1 := st.model.Update
  if modelIsEmpty st.rd.mem.heap model1 then
    ((CheckReturnStatus .RetVoid).1,
      { st with model := model1, out := st.out ++ (CheckReturnStatus .RetVoid).2 })
  else (true, { st with model := model1 })

/-- The result of an outcome of the `try` statement of `ReadSTEP`. -/
def ReadSTEP.after (modelIsEmpty : List Component → Model → Bool) : Outcome → Bool × ReadState
  | .completed st => ReadSTEP.finish modelIsEmpty st
  | .returned ret st => (ret, st)
  | .raised _ st =>
    -- only reached for an unknown failure
    ((CheckReturnStatus .RetFail).1, { st with out := st.out ++ (CheckReturnStatus .RetFail).2 })

/-- The method `STEP_Reader::ReadSTEP(model)`: the returned flag and the state afterwards.
`modelIsEmpty` is `Model::IsEmpty`, which is defined outside the reader, as a function of
the components and the model.  The degraded path is taken to raise no exception. -/
def ReadSTEP (env : Env) (modelIsEmpty : List Component → Model → Bool) (caf : CafRead)
    (plain : PlainRead) (st : ReadState) : Bool × ReadState :=
  match ReadSTEP.tryBlock env caf st with
  | .raised .NumericError st1 =>
    ReadSTEP.after modelIsEmpty (ReadSTEP.catchNumericError env plain st1)
  | o => ReadSTEP.after modelIsEmpty o

/-! ## Notions used to state and prove the properties -/

/-- The sub-entities that have an entry in the color mapping of a unit, in order. -/
def IShape.keys (sh : IShape) : List Shape := sh.colors.map Prod.fst

/-- A sequence of `AddColor` calls applied to a unit, in order. -/
def applyWrites (sh : IShape) (ws : List (Shape × Quantity_ColorRGBA)) : IShape :=
  ws.foldl (fun s w => s.AddColor w.1 w.2) sh

/-- An entry of a color mapping after a sequence of `AddColor` calls on a mapping that
already has an entry for every entity the calls name. -/
def foldEntry (ws : List (Shape × Quantity_ColorRGBA)) (e : Shape × Quantity_ColorRGBA) :
    Shape × Quantity_ColorRGBA :=
  ws.foldl (fun e w => setEntry w.1 w.2 e) e

/-- The color `AddColors` passes to `AddColor` for a face: face color, solid color, default. -/
def faceColorOf (ct : ColorTool) (solidColor : Option Quantity_ColorRGBA) (face : Shape) :
    Quantity_ColorRGBA :=
  match ct.GetColor face .ColorSurf with
  | some faceColor => faceColor
  | none =>
    match solidColor with
    | some c => c
    | none => m_defaultFaceColor

/-- The color `AddColors` passes to `AddColor` for an edge of a wire: edge color, wire
color, default. -/
def wireEdgeColorOf (ct : ColorTool) (wireColor : Option Quantity_ColorRGBA) (edge : Shape) :
    Quantity_ColorRGBA :=
  match ct.GetColor edge .ColorCurv with
  | some edgeColor => edgeColor
  | none =>
    match wireColor with
    | some c => c
    | none => m_defaultWireColor

/-- The color `AddColors` passes to `AddColor` for a free edge: edge color, default. -/
def freeEdgeColorOf (ct : ColorTool) (edge : Shape) : Quantity_ColorRGBA :=
  match ct.GetColor edge .ColorCurv with
  | some edgeColor => edgeColor
  | none => m_defaultWireColor

/-- The `AddColor` calls of the wire loop of `AddColors` for one wire. -/
def wireWrites (ct : ColorTool) (wire : Shape) : List (Shape × Quantity_ColorRGBA) :=
  (explore .EDGE .SHAPE wire).map
    (fun edge => (edge, wireEdgeColorOf ct (ct.GetColor wire .ColorCurv) edge))

/-- The `AddColor` calls `AddColors` makes for a unit with the given shape and tag, in
order. -/
def colorWrites (opt : S2X_Option) (ct : ColorTool) (shape : Shape) (faceSet : Bool) :
    List (Shape × Quantity_ColorRGBA) :=
  if !opt.Color then []
  else if faceSet then
    (explore .FACE .SHAPE shape).map
      (fun face => (face, faceColorOf ct (ct.GetColor shape .ColorSurf) face))
  else
    ((explore .WIRE .SHAPE shape).map (wireWrites ct)).flatten
      ++ (explore .EDGE .WIRE shape).map (fun edge => (edge, freeEdgeColorOf ct edge))

/-! ## Sample inputs -/

/-- A face with the given identity. -/
def sampleFace (n : Nat) : Shape := .mk n .FACE []

/-- An edge with the given identity. -/
def sampleEdge (n : Nat) : Shape := .mk n .EDGE []

/-- A shell with two faces. -/
def sampleShell : Shape := .mk 10 .SHELL [sampleFace 1, sampleFace 2]

/-- A shell without any face. -/
def sampleEmptyShell : Shape := .mk 11 .SHELL []

/-- A solid made of the sample shell. -/
def sampleSolid : Shape := .mk 12 .SOLID [sampleShell]

/-- A compound of two shells, one of which has no face. -/
def sampleCompound : Shape := .mk 20 .COMPOUND [sampleShell, sampleEmptyShell]

/-- A compound of two wires that share the edge 32, and of the free edge 34. -/
def sampleWires : Shape :=
  .mk 30 .COMPOUND
    [.mk 21 .WIRE [sampleEdge 31, sampleEdge 32], .mk 22 .WIRE [sampleEdge 32, sampleEdge 33],
      sampleEdge 34]

/-- STEP data that takes every shape for a solid model and for a mapped item. -/
def sampleModelData : STEP_Data where
  IsSolidModel := fun _ => true
  IsSurfaceModel := fun _ => false
  IsMappedItem := fun _ => true

/-- A color tool with four colors: face 1 is red and the sample solid blue (surface
colors), edge 31 is green and wire 21 yellow (curve colors). -/
def sampleColorTool : ColorTool where
  GetColor := fun s t =>
    if s = sampleFace 1 ∧ t = .ColorSurf then some ⟨1000, 0, 0, 1000⟩
    else if s = sampleSolid ∧ t = .ColorSurf then some ⟨0, 0, 1000, 1000⟩
    else if s = sampleEdge 31 ∧ t = .ColorCurv then some ⟨0, 1000, 0, 1000⟩
    else if s = .mk 21 .WIRE [sampleEdge 31, sampleEdge 32] ∧ t = .ColorCurv then
      some ⟨1000, 1000, 0, 1000⟩
    else none
  colorCount := 4

/-- A part: a simple shape whose shape is the sample compound. -/
def samplePart : Label := .simpleShape ['p', 'a', 'r', 't'] sampleCompound

/-- An assembly of three placements of the sample part. -/
def sampleAssembly : Label :=
  .assembly ['a', 's', 'm'] sampleCompound
    [.reference [] sampleCompound ⟨1⟩ samplePart, .reference [] sampleCompound ⟨2⟩ samplePart,
      .reference [] sampleCompound ⟨3⟩ samplePart]

/-- A memory that holds one root component and an empty duplicate-instance index. -/
def sampleMemory : Memory := { heap := [Component.new sampleCompound], idComponentMap := [] }

/-- A document with four colors whose only free shape is the sample part. -/
def sampleDocument : Document :=
  { stepData := STEP_Data.plain, colorTool := sampleColorTool, freeShapes := [samplePart] }

/-- A primary path on which the file is read and transferred, and a kernel call raises
`Standard_NumericError` while the first free shape is processed. -/
def sampleFaultInTree : CafRead :=
  { readFile := .ok .RetDone, transfer := .ok (some sampleDocument),
    treeFault := some (0, .NumericError) }

/-- A primary path on which `cafReader.Transfer` raises `Standard_NumericError`. -/
def sampleFaultInTransfer : CafRead :=
  { readFile := .ok .RetDone, transfer := .error .NumericError, treeFault := none }

/-- A degraded path on which the plain reader reads the file and transfers its root. -/
def samplePlainRead : PlainRead :=
  { readFile := .RetDone, transferRoot := true, shape := sampleCompound }

/-- A new reader with the color option on, and an empty model. -/
def sampleNewReader : ReadState :=
  { rd := { opt := ⟨false, true⟩, colorTool := none, stepData := none, mem := ⟨[], []⟩ },
    model := ⟨[]⟩, out := [] }

/-- A reader that has read the sample document before (its color tool is still set), with
the color option on, and an empty model. -/
def sampleUsedReader : ReadState :=
  { rd :=
      { opt := ⟨false, true⟩
        colorTool := some sampleColorTool
        stepData := some STEP_Data.plain
        mem := ⟨[], []⟩ }
    model := ⟨[]⟩
    out := [] }

/-! ## Notions used to state and prove the properties of the tree builder -/

/-- The units `AddSubComponents` attaches for the sub shapes of a simple shape. -/
def newUnits (env : Env) (opt : S2X_Option) (ct : ColorTool) (subShapes : List Shape) :
    List IShape :=
  subShapes.map (fun subShape => AddColors opt ct (IShape.new env subShape))

/-- The memory after the first steps of `AddSubComponents` for a reference whose referred
shape is not empty: the new component is allocated, named, placed and attached to the
parent; `IsCopy` has not run yet. -/
def refPrep (env : Env) (r : Memory) (comp : Nat) (trsf : gp_Trsf) (label_ref : Label) : Memory :=
  ((((r.alloc (Component.new label_ref.shape)).2).SetUniqueName r.heap.length
    (GetName env label_ref.nameText)).SetTransformation r.heap.length trsf).AddSubComponent comp
      r.heap.length

/-- The component a reference creates, before `IsCopy` runs. -/
def refComponent (env : Env) (trsf : gp_Trsf) (label_ref : Label) : Component :=
  { shape := label_ref.shape, uniqueName := GetName env label_ref.nameText, trsf := trsf,
    subComponents := [], iShapes := [], originalComponent := none }

/-- Every entry of the duplicate-instance index is the address of an allocated component. -/
def Memory.MapValid (r : Memory) : Prop :=
  ∀ k a, mapFind r.idComponentMap k = some a → a < r.heap.length

/-- What a run of `AddSubComponents` on the component `comp` leaves untouched: no component
is freed, the components allocated before, other than `comp`, are unchanged, and `comp`
keeps its shape, placement and back-reference and only gains children and units. -/
structure Frame (comp : Nat) (r r' : Memory) : Prop where
  len_le : r.heap.length ≤ r'.heap.length
  frame : ∀ a, a < r.heap.length → a ≠ comp → r'.heap[a]? = r.heap[a]?
  parent : ∀ c, r.heap[comp]? = some c → ∃ c', r'.heap[comp]? = some c'
    ∧ c'.shape = c.shape ∧ c'.trsf = c.trsf ∧ c'.originalComponent = c.originalComponent
    ∧ (∃ subs, c'.subComponents = c.subComponents ++ subs)
    ∧ (∃ units, c'.iShapes = c.iShapes ++ units)

/-- What a run of `AddSubComponents` does to the duplicate-instance index and to the
components it allocates: entries are kept; a new entry for an identity is the first
component allocated in the run with that identity; every component allocated in the run
either is the entry of its identity and has no back-reference, or has the entry of its
identity, an earlier component, as back-reference and neither children nor units. -/
structure MapPost (env : Env) (r r' : Memory) : Prop where
  map_mono : ∀ k a, mapFind r.idComponentMap k = some a → mapFind r'.idComponentMap k = some a
  map_new : ∀ k a, mapFind r.idComponentMap k = none → mapFind r'.idComponentMap k = some a →
    r.heap.length ≤ a ∧ a < r'.heap.length ∧ env.GetID (r'.GetShape a) = k
      ∧ ∀ b, r.heap.length ≤ b → b < a → env.GetID (r'.GetShape b) ≠ k
  node_new : ∀ b, r.heap.length ≤ b → b < r'.heap.length → ∃ cb a, r'.heap[b]? = some cb
    ∧ mapFind r'.idComponentMap (env.GetID cb.shape) = some a
    ∧ ((a = b ∧ cb.originalComponent = none)
      ∨ (a < b ∧ cb.originalComponent = some a ∧ cb.subComponents = [] ∧ cb.iShapes = []))
  valid : r'.MapValid

/-- The units of a memory all satisfy `P`. -/
def Memory.AllUnits (P : IShape → Prop) (r : Memory) : Prop :=
  ∀ c ∈ r.heap, ∀ u ∈ c.iShapes, P u

/-- The label is the label `root` or lies below it in the label tree: it is reached from
`root` through component labels of assemblies and referred labels of references, the labels
`AddSubComponents` visits. -/
inductive Label.Below (root : Label) : Label → Prop
  | here : Label.Below root root
  | comp (nameText : WString) (shape : Shape) (comps : List Label) (m : Label) :
      Label.Below root (.assembly nameText shape comps) → m ∈ comps → Label.Below root m
  | ref (nameText : WString) (shape : Shape) (trsf : gp_Trsf) (l : Label) :
      Label.Below root (.reference nameText shape trsf l) → Label.Below root l

/-- The unit comes from a label of the tree under `root` whose whole shape has a face: its
shape is one of the sub shapes `GetSubShapes` yields for the shape of a simple-shape label
that is `root` or lies below it, and that shape has at least one face. -/
def FromFacedLabel (env : Env) (sd : STEP_Data) (opt : S2X_Option) (root : Label)
    (u : IShape) : Prop :=
  ∃ nameText shape, Label.Below root (.simpleShape nameText shape)
    ∧ env.HasFace shape = true ∧ u.shape ∈ GetSubShapes env sd opt shape []
/-! ## Notions used to state the later properties of the classifier -/

/-- The shape `u` is `s` itself or a sub-shape reached from `s` through compounds only. -/
inductive ViaCompounds : Shape → Shape → Prop
  | here (s : Shape) : ViaCompounds s s
  | kid (tag : Nat) (kids : List Shape) (k u : Shape) (hk : k ∈ kids) (hu : ViaCompounds k u) :
    ViaCompounds (.mk tag .COMPOUND kids) u

/-- The shape is a compound, a comp-solid, a solid or a shell. -/
def Shape.IsUnitType : Shape → Bool
  | .null => false
  | .mk _ ty _ => decide (ty = .COMPOUND ∨ ty = .COMPSOLID ∨ ty = .SOLID ∨ ty = .SHELL)

/-- The shape is a face, a wire, an edge or a vertex. -/
def Shape.IsSimpleType : Shape → Bool
  | .null => false
  | .mk _ ty _ => decide (ty = .FACE ∨ ty = .WIRE ∨ ty = .EDGE ∨ ty = .VERTEX)

/-- A bare wire of two edges. -/
def sampleWire : Shape := .mk 21 .WIRE [sampleEdge 31, sampleEdge 32]

/-- A compound that is no free wire/edge group: a solid, a face, and a nested compound of a
shell and an edge. -/
def sampleMixed : Shape :=
  .mk 40 .COMPOUND [sampleSolid, sampleFace 3, .mk 41 .COMPOUND [sampleShell, sampleEdge 35]]

/-- STEP data that takes every shape for a mapped item and none for a model. -/
def sampleMappedData : STEP_Data where
  IsSolidModel := fun _ => false
  IsSurfaceModel := fun _ => false
  IsMappedItem := fun _ => true

/-- The first color that is available among the candidates, in order, and the default when
none of them is. -/
def firstAvailable :
    List (Option Quantity_ColorRGBA) → Quantity_ColorRGBA → Quantity_ColorRGBA
  | [], dflt => dflt
  | some c :: _, _ => c
  | none :: rest, dflt => firstAvailable rest dflt

/-- A color tool with two colors: wire 21 is yellow and wire 22 is cyan (curve colors); no
edge has a color of its own. -/
def sampleWireColors : ColorTool where
  GetColor := fun s t =>
    if s = .mk 21 .WIRE [sampleEdge 31, sampleEdge 32] ∧ t = .ColorCurv then
      some ⟨1000, 1000, 0, 1000⟩
    else if s = .mk 22 .WIRE [sampleEdge 32, sampleEdge 33] ∧ t = .ColorCurv then
      some ⟨0, 1000, 1000, 1000⟩
    else none
  colorCount := 2

/-- A sequence of `IsCopy` calls on the components at the given addresses, in order: the
flags returned so far and the memory, after one more call. -/
def IsCopySeq.step (env : Env) (acc : List Bool × Memory) (comp : Nat) : List Bool × Memory :=
  (acc.1 ++ [(IsCopy env acc.2 comp).1], (IsCopy env acc.2 comp).2)

/-- A sequence of `IsCopy` calls on the components at the given addresses, in order: the
flags the calls return and the memory afterwards. -/
def IsCopySeq (env : Env) (r : Memory) (comps : List Nat) : List Bool × Memory :=
  comps.foldl (IsCopySeq.step env) ([], r)

/-- What a sequence of `IsCopy` calls on distinct new components leaves behind. -/
structure IsCopyInv (env : Env) (r : Memory) (comps : List Nat) (flags : List Bool)
    (r' : Memory) : Prop where
  shape_eq : ∀ x, r'.GetShape x = r.GetShape x
  frame : ∀ x, x ∉ comps → r'.heap[x]? = r.heap[x]?
  entry : ∀ k a, mapFind r'.idComponentMap k = some a →
    (∃ c, r'.heap[a]? = some c ∧ c.originalComponent = none) ∧ env.GetID (r.GetShape a) = k
      ∧ ∃ pre post, comps = pre ++ a :: post ∧ ∀ b ∈ pre, env.GetID (r.GetShape b) ≠ k
  seen : ∀ b ∈ comps, ∃ a, mapFind r'.idComponentMap (env.GetID (r.GetShape b)) = some a
  copy : ∀ b ∈ comps, ∀ cb o, r'.heap[b]? = some cb → cb.originalComponent = some o →
    o ≠ b ∧ mapFind r'.idComponentMap (env.GetID (r.GetShape b)) = some o
  flag : ∀ pre b post, comps = pre ++ b :: post → ∃ f, flags[pre.length]? = some f
    ∧ (f = true ↔ ∃ a, a ∈ pre ∧ env.GetID (r.GetShape a) = env.GetID (r.GetShape b))
  flags_len : flags.length = comps.length

/-- A memory with four new components: the first, the third and the fourth have the same
shape, the second one another; the duplicate-instance index is empty. -/
def sampleFour : Memory :=
  { heap := [Component.new sampleSolid, Component.new sampleShell, Component.new sampleSolid,
      Component.new sampleSolid],
    idComponentMap := [] }

/-- The text with every carriage return and line feed removed. -/
def stripLineEnds (n : WString) : WString :=
  n.filter (fun ch => decide (ch ≠ '\r') && decide (ch ≠ '\n'))

/-- The text is one of the bare type words `COMPOUND`, `COMPSOLID`, `SOLID`, `SHELL`. -/
def IsTypeWord (s : WString) : Prop :=
  s = ['C', 'O', 'M', 'P', 'O', 'U', 'N', 'D'] ∨ s = ['C', 'O', 'M', 'P', 'S', 'O', 'L', 'I', 'D']
    ∨ s = ['S', 'O', 'L', 'I', 'D'] ∨ s = ['S', 'H', 'E', 'L', 'L']

/-- The placeholder pattern as the claim words it: the text begins with `=>[` and ends
with `]`. -/
def BeginsAndEnds (s : WString) : Prop :=
  ['=', '>', '['] <+: s ∧ [']'] <:+ s

/-- The placeholder pattern as the code tests it: the text begins with `=>[` and its first
`]` is its last character. -/
def IsPlaceholder (s : WString) : Prop :=
  ['=', '>', '['] <+: s ∧ ∃ a, s = a ++ [']'] ∧ ']' ∉ a

/-- Modelled from the spec: whether the component at an address is empty, when `fuel` bounds
the depth of the tree under it: it holds no unit and all its children are empty. -/
def Component.IsEmpty (heap : List Component) : Nat → Nat → Bool
  | 0, _ => true
  | fuel + 1, a =>
    match heap[a]? with
    | none => true
    | some c => c.iShapes.isEmpty && c.subComponents.all (Component.IsEmpty heap fuel)

/-- Modelled from the spec: `Model::IsEmpty` (Model.h is not part of the sources at hand):
the model is empty when it has "no roots, or all roots empty". -/
def Model.IsEmpty (heap : List Component) (m : Model) : Bool :=
  m.roots.all (Component.IsEmpty heap heap.length)

/-- A document with four colors and two free shapes, both the sample part. -/
def sampleTwoRoots : Document where
  stepData := STEP_Data.plain
  colorTool := sampleColorTool
  freeShapes := [samplePart, samplePart]

/-- A document whose only free shape is a shell without faces. -/
def sampleEmptyDocument : Document where
  stepData := STEP_Data.plain
  colorTool := sampleColorTool
  freeShapes := [.simpleShape [] sampleEmptyShell]

/-- A primary path on which the file is read and transferred, and a kernel call raises an
exception other than `Standard_NumericError` while the second free shape is processed. -/
def sampleUnknownFault : CafRead where
  readFile := .ok .RetDone
  transfer := .ok (some sampleTwoRoots)
  treeFault := some (1, .Unknown)

/-- A primary path on which `cafReader.ReadFile` returns the status `RetVoid`. -/
def sampleVoidRead : CafRead where
  readFile := .ok .RetVoid
  transfer := .ok (some sampleDocument)
  treeFault := none

/-- A primary path without fault on a document whose only free shape has no geometry. -/
def sampleEmptyRead : CafRead where
  readFile := .ok .RetDone
  transfer := .ok (some sampleEmptyDocument)
  treeFault := none


/-! ## The life of a reader -/

/-- The constructor `STEP_Reader::STEP_Reader(opt)`: the option object is the one given,
`m_stepData` is null, the color tool handle is null, the duplicate-instance index is empty,
and no component exists yet. -/
def STEP_Reader.new (opt : S2X_Option) : STEP_Reader where
  opt := opt
  colorTool := none
  stepData := none
  mem := { heap := [], idComponentMap := [] }

/-- The method `STEP_Reader::Clear`, which the destructor calls: the duplicate-instance
index is emptied and the STEP data object is deleted. -/
def STEP_Reader.Clear (rd : STEP_Reader) : STEP_Reader :=
  { rd with mem := { rd.mem with idComponentMap := [] }, stepData := none }

/-- A component with every address it holds moved up by `k`. -/
def Component.shift (k : Nat) (c : Component) : Component :=
  { c with
    subComponents := c.subComponents.map (fun a => a + k)
    originalComponent := c.originalComponent.map (fun a => a + k) }

/-- The memory `r'` holds the components `H` that existed before and, after them, the
components and the index of `r`, with every address moved up by the number of earlier
components: the tree in `r'` is the tree in `r`, built at later addresses. -/
def Memory.Relocated (H : List Component) (r r' : Memory) : Prop :=
  r'.heap = H ++ r.heap.map (Component.shift H.length)
    ∧ r'.idComponentMap = r.idComponentMap.map (fun e => (e.1, e.2 + H.length))

/-- The state `st'` of a read is the state `st` built after the earlier components `H`. -/
def ReadState.Relocated (H : List Component) (st st' : ReadState) : Prop :=
  Memory.Relocated H st.rd.mem st'.rd.mem
    ∧ st'.model.roots = st.model.roots.map (fun a => a + H.length)

/-- Two outcomes end the same way, with the same returned flag or exception, and the state of
the second is the state of the first built after the earlier components `H`. -/
def Outcome.Relocated (H : List Component) : Outcome → Outcome → Prop
  | .completed st, .completed st' => ReadState.Relocated H st st'
  | .returned ret st, .returned ret' st' => ret = ret' ∧ ReadState.Relocated H st st'
  | .raised f st, .raised f' st' => f = f' ∧ ReadState.Relocated H st st'
  | _, _ => False

/-- A document whose only free shape is the sample assembly. -/
def sampleAssemblyDocument : Document where
  stepData := STEP_Data.plain
  colorTool := sampleColorTool
  freeShapes := [sampleAssembly]

/-- A primary path without fault on the assembly document. -/
def sampleAssemblyRead : CafRead where
  readFile := .ok .RetDone
  transfer := .ok (some sampleAssemblyDocument)
  treeFault := none

/-- The first read of a new reader, on the assembly document. -/
def sampleFirstRead : Bool × ReadState :=
  ReadSTEP Env.plain Model.IsEmpty sampleAssemblyRead samplePlainRead sampleNewReader

/-- The second read of the same reader, on the same document and into a new empty model. -/
def sampleSecondRead : Bool × ReadState :=
  ReadSTEP Env.plain Model.IsEmpty sampleAssemblyRead samplePlainRead
    { rd := sampleFirstRead.2.rd, model := { roots := [] }, out := [] }

/-- The state in which a read starts when the reader of the first read was cleared. -/
def sampleClearedReader : ReadState where
  rd := STEP_Reader.Clear sampleFirstRead.2.rd
  model := { roots := [] }
  out := []

/-- A process in the "C" locale: `mbstowcs` converts a text of ASCII characters to itself and
reports any other text as invalid. -/
def sampleCLocale : Env :=
  { Env.plain with
    mbstowcs := fun s => if s.all (fun ch => decide (ch.toNat < 128)) then some s else none }

/-- The state in which a block of `ReadSTEP` ends. -/
def Outcome.state : Outcome → ReadState
  | .completed st => st
  | .returned _ st => st
  | .raised _ st => st

/-- What the traversal of a read (the loop of `ReadSTEP` over the free shapes) does to the
duplicate-instance index and to the components it allocates, `R` being the root components,
which the loop creates itself, and every other new component being created by
`AddSubComponents` for a reference: entries are kept; a new entry for an identity is the
first reference component of the read with that identity; every reference component of the
read either is the entry of its identity and has no back-reference, or has the entry of its
identity, an earlier reference component, as back-reference and neither children nor
units. -/
structure ReadPost (env : Env) (R : List Nat) (r r' : Memory) : Prop where
  len_le : r.heap.length ≤ r'.heap.length
  roots : ∀ x, x ∈ R → r.heap.length ≤ x ∧ x < r'.heap.length
  map_mono : ∀ k a, mapFind r.idComponentMap k = some a → mapFind r'.idComponentMap k = some a
  map_new : ∀ k a, mapFind r.idComponentMap k = none → mapFind r'.idComponentMap k = some a →
    r.heap.length ≤ a ∧ a < r'.heap.length ∧ a ∉ R ∧ env.GetID (r'.GetShape a) = k
      ∧ ∀ b, r.heap.length ≤ b → b < a → b ∉ R → env.GetID (r'.GetShape b) ≠ k
  node_new : ∀ b, r.heap.length ≤ b → b < r'.heap.length → b ∉ R →
    ∃ cb a, r'.heap[b]? = some cb
      ∧ mapFind r'.idComponentMap (env.GetID cb.shape) = some a
      ∧ ((a = b ∧ cb.originalComponent = none)
        ∨ (a < b ∧ cb.originalComponent = some a ∧ cb.subComponents = [] ∧ cb.iShapes = []))
  valid : r'.MapValid

/-- A document with two free shapes, both the sample assembly. -/
def sampleTwoAssemblies : Document where
  stepData := STEP_Data.plain
  colorTool := sampleColorTool
  freeShapes := [sampleAssembly, sampleAssembly]

/-- A primary path without fault on the document with two assemblies. -/
def sampleTwoAssembliesRead : CafRead where
  readFile := .ok .RetDone
  transfer := .ok (some sampleTwoAssemblies)
  treeFault := none

/-- A memory with two components, the second of which has the first as back-reference
already; the index is empty. -/
def sampleMarked : Memory :=
  { heap := [Component.new sampleShell,
      { Component.new sampleSolid with originalComponent := some 0 }],
    idComponentMap := [] }
/-! ## Properties of the shape classifier -/

/-- The branch of `GetSubShapes` for a compound. -/
theorem GetSubShapes_compound (env : Env) (sd : STEP_Data) (opt : S2X_Option) (tag : Nat)
    (kids out : List Shape) :
    GetSubShapes env sd opt (.mk tag .COMPOUND kids) out =
      if env.IsFreeEdge (.mk tag .COMPOUND kids) then
        (if opt.Sketch then out ++ [.mk tag .COMPOUND kids] else out)
      else if sd.IsSolidModel (.mk tag .COMPOUND kids)
          || sd.IsSurfaceModel (.mk tag .COMPOUND kids) then
        out ++ [.mk tag .COMPOUND kids]
      else if sd.IsMappedItem (.mk tag .COMPOUND kids) then out
      else GetSubShapesKids env sd opt kids out := by
  rw [GetSubShapes]
  simp

/-- C2 (classification precedence): a compound that is not a free wire/edge group and that
the STEP data recognizes as a solid model or a surface model makes `GetSubShapes` append
exactly one unit, the compound itself, whatever its children are and whether or not it is
also a mapped item. -/
theorem C2_model_compound_is_one_unit (env : Env) (sd : STEP_Data) (opt : S2X_Option)
    (tag : Nat) (kids out : List Shape)
    (hfree : env.IsFreeEdge (.mk tag .COMPOUND kids) = false)
    (hmodel : sd.IsSolidModel (.mk tag .COMPOUND kids) = true
      ∨ sd.IsSurfaceModel (.mk tag .COMPOUND kids) = true) :
    GetSubShapes env sd opt (.mk tag .COMPOUND kids) out = out ++ [.mk tag .COMPOUND kids] := by
  rw [GetSubShapes_compound, hfree]
  rcases hmodel with h | h <;> simp [h]

/-- C8 (free wire/edge rule): a compound that is a free wire/edge group makes
`GetSubShapes` append the compound itself when sketch mode is on and nothing when it is
off, whatever its children are and whether or not it is a solid/surface model or a mapped
item. -/
theorem C8_free_edge_compound (env : Env) (sd : STEP_Data) (opt : S2X_Option)
    (tag : Nat) (kids out : List Shape)
    (hfree : env.IsFreeEdge (.mk tag .COMPOUND kids) = true) :
    (opt.Sketch = true →
        GetSubShapes env sd opt (.mk tag .COMPOUND kids) out = out ++ [.mk tag .COMPOUND kids])
      ∧ (opt.Sketch = false → GetSubShapes env sd opt (.mk tag .COMPOUND kids) out = out) := by
  rw [GetSubShapes_compound, hfree]
  constructor <;> intro h <;> simp [h]

/-- C2 at a sample input: a compound of two shells that is a solid model and a mapped
item. -/
theorem C2_model_compound_is_one_unit_witness :
    GetSubShapes Env.plain sampleModelData ⟨false, true⟩ sampleCompound [] = [sampleCompound] :=
  C2_model_compound_is_one_unit Env.plain sampleModelData ⟨false, true⟩ 20
    [sampleShell, sampleEmptyShell] [] (by decide) (Or.inl rfl)

/-- C8 at a sample input: a compound of two wires and an edge, with sketch mode on and
off. -/
theorem C8_free_edge_compound_witness :
    GetSubShapes Env.plain sampleModelData ⟨true, true⟩ sampleWires [] = [sampleWires]
      ∧ GetSubShapes Env.plain sampleModelData ⟨false, true⟩ sampleWires [] = [] :=
  ⟨(C8_free_edge_compound Env.plain sampleModelData ⟨true, true⟩ 30 _ [] (by decide)).1 rfl,
    (C8_free_edge_compound Env.plain sampleModelData ⟨false, true⟩ 30 _ [] (by decide)).2 rfl⟩

/-! ## Properties of the color mapping and of `AddColors` -/

theorem IShape_ext3 {a b : IShape} (h1 : a.shape = b.shape) (h2 : a.faceSet = b.faceSet)
    (h3 : a.colors = b.colors) : a = b := by
  cases a; cases b; simp_all

@[simp] theorem setEntry_fst (k : Shape) (c : Quantity_ColorRGBA) (e : Shape × Quantity_ColorRGBA) :
    (setEntry k c e).1 = e.1 := by
  unfold setEntry; split <;> rfl

theorem map_setEntry_keys (k : Shape) (c : Quantity_ColorRGBA)
    (cs : List (Shape × Quantity_ColorRGBA)) :
    (cs.map (setEntry k c)).map Prod.fst = cs.map Prod.fst := by
  simp [List.map_map, Function.comp_def]

@[simp] theorem AddColor_shape (sh : IShape) (k : Shape) (c : Quantity_ColorRGBA) :
    (sh.AddColor k c).shape = sh.shape := by
  unfold IShape.AddColor; split <;> rfl

@[simp] theorem AddColor_faceSet (sh : IShape) (k : Shape) (c : Quantity_ColorRGBA) :
    (sh.AddColor k c).faceSet = sh.faceSet := by
  unfold IShape.AddColor; split <;> rfl

theorem AddColor_keys (sh : IShape) (k : Shape) (c : Quantity_ColorRGBA) :
    (sh.AddColor k c).keys = if k ∈ sh.keys then sh.keys else sh.keys ++ [k] := by
  unfold IShape.AddColor IShape.keys
  split
  · simp [map_setEntry_keys]
  · simp

theorem AddColor_keys_mono (sh : IShape) (k k' : Shape) (c : Quantity_ColorRGBA)
    (h : k' ∈ sh.keys) : k' ∈ (sh.AddColor k c).keys := by
  rw [AddColor_keys]; split <;> simp [h]

theorem AddColor_keys_self (sh : IShape) (k : Shape) (c : Quantity_ColorRGBA) :
    k ∈ (sh.AddColor k c).keys := by
  rw [AddColor_keys]; split <;> simp [*]

theorem AddColor_keys_nodup (sh : IShape) (k : Shape) (c : Quantity_ColorRGBA)
    (h : sh.keys.Nodup) : (sh.AddColor k c).keys.Nodup := by
  rw [AddColor_keys]
  split
  · exact h
  · rename_i hk
    exact List.Nodup.append h (List.nodup_singleton k) (by simpa using hk)

theorem find_map_setEntry (k k' : Shape) (c : Quantity_ColorRGBA)
    (cs : List (Shape × Quantity_ColorRGBA)) :
    ((cs.map (setEntry k c)).find? (fun e => decide (e.1 = k'))).map Prod.snd =
      if k' = k then ((cs.find? (fun e => decide (e.1 = k'))).map (fun _ => c))
      else (cs.find? (fun e => decide (e.1 = k'))).map Prod.snd := by
  induction cs with
  | nil => simp
  | cons e cs ih =>
    simp only [List.map_cons, List.find?_cons]
    by_cases h1 : e.1 = k'
    · simp only [setEntry_fst, h1, decide_True]
      by_cases h2 : k' = k
      · subst h2; simp [setEntry, h1]
      · have : e.1 ≠ k := by rw [h1]; exact h2
        simp [setEntry, this, h2]
    · simp only [setEntry_fst, h1, decide_False]
      exact ih

theorem GetColor_isSome_iff (sh : IShape) (k : Shape) : (sh.GetColor k).isSome ↔ k ∈ sh.keys := by
  unfold IShape.GetColor IShape.keys
  simp [List.find?_isSome]

theorem AddColor_GetColor (sh : IShape) (k k' : Shape) (c : Quantity_ColorRGBA) :
    (sh.AddColor k c).GetColor k' = if k' = k then some c else sh.GetColor k' := by
  unfold IShape.AddColor
  split
  · rename_i hk
    unfold IShape.GetColor
    simp only [find_map_setEntry]
    split
    · rename_i h; subst h
      have := (GetColor_isSome_iff sh k').2 hk
      unfold IShape.GetColor at this
      cases hf : List.find? (fun e => decide (e.1 = k')) sh.colors with
      | none => simp [hf] at this
      | some v => simp
    · rfl
  · rename_i hk
    unfold IShape.GetColor
    simp only [List.find?_append]
    by_cases h : k' = k
    · subst h
      have : List.find? (fun e => decide (e.1 = k')) sh.colors = none := by
        rw [List.find?_eq_none]
        intro x hx
        simp only [decide_eq_true_eq]
        intro h; apply hk; rw [← h]; exact List.mem_map_of_mem _ hx
      simp [this]
    · have hne : ¬ k = k' := fun h' => h h'.symm
      simp [h, hne]

theorem applyWrites_nil (sh : IShape) : applyWrites sh [] = sh := rfl

theorem applyWrites_cons (sh : IShape) (w : Shape × Quantity_ColorRGBA)
    (ws : List (Shape × Quantity_ColorRGBA)) :
    applyWrites sh (w :: ws) = applyWrites (sh.AddColor w.1 w.2) ws := rfl

theorem applyWrites_append (sh : IShape) (ws ws' : List (Shape × Quantity_ColorRGBA)) :
    applyWrites sh (ws ++ ws') = applyWrites (applyWrites sh ws) ws' := by
  unfold applyWrites; rw [List.foldl_append]

theorem applyWrites_shape (sh : IShape) (ws : List (Shape × Quantity_ColorRGBA)) :
    (applyWrites sh ws).shape = sh.shape := by
  induction ws generalizing sh with
  | nil => rfl
  | cons w ws ih => rw [applyWrites_cons, ih, AddColor_shape]

theorem applyWrites_faceSet (sh : IShape) (ws : List (Shape × Quantity_ColorRGBA)) :
    (applyWrites sh ws).faceSet = sh.faceSet := by
  induction ws generalizing sh with
  | nil => rfl
  | cons w ws ih => rw [applyWrites_cons, ih, AddColor_faceSet]

theorem applyWrites_keys_mono (sh : IShape) (ws : List (Shape × Quantity_ColorRGBA)) (k : Shape)
    (h : k ∈ sh.keys) : k ∈ (applyWrites sh ws).keys := by
  induction ws generalizing sh with
  | nil => exact h
  | cons w ws ih => rw [applyWrites_cons]; exact ih _ (AddColor_keys_mono sh _ k _ h)

theorem applyWrites_keys_written (sh : IShape) (ws : List (Shape × Quantity_ColorRGBA))
    (w : Shape × Quantity_ColorRGBA) (h : w ∈ ws) : w.1 ∈ (applyWrites sh ws).keys := by
  induction ws generalizing sh with
  | nil => cases h
  | cons w' ws ih =>
    rw [applyWrites_cons]
    rcases List.mem_cons.1 h with h | h
    · subst h; exact applyWrites_keys_mono _ _ _ (AddColor_keys_self sh _ _)
    · exact ih _ h

theorem applyWrites_keys_nodup (sh : IShape) (ws : List (Shape × Quantity_ColorRGBA))
    (h : sh.keys.Nodup) : (applyWrites sh ws).keys.Nodup := by
  induction ws generalizing sh with
  | nil => exact h
  | cons w ws ih => rw [applyWrites_cons]; exact ih _ (AddColor_keys_nodup sh _ _ h)

/-- After a sequence of calls all of which give the entity `k` the color `c`, and one of
which names `k`, the mapping holds `c` for `k`. -/
theorem applyWrites_GetColor (ws : List (Shape × Quantity_ColorRGBA)) (sh : IShape) (k : Shape)
    (c : Quantity_ColorRGBA) (hall : ∀ w ∈ ws, w.1 = k → w.2 = c)
    (hex : (∃ w ∈ ws, w.1 = k) ∨ sh.GetColor k = some c) :
    (applyWrites sh ws).GetColor k = some c := by
  induction ws generalizing sh with
  | nil =>
    rcases hex with ⟨w, hw, _⟩ | h
    · cases hw
    · exact h
  | cons w ws ih =>
    rw [applyWrites_cons]
    apply ih
    · intro w' hw'; exact hall w' (List.mem_cons_of_mem _ hw')
    · by_cases hk : w.1 = k
      · right
        rw [AddColor_GetColor, ← hk, hall w (List.mem_cons_self _ _) hk]; simp
      · rcases hex with ⟨w', hw', hk'⟩ | h
        · rcases List.mem_cons.1 hw' with h1 | h1
          · subst h1; exact absurd hk' hk
          · left; exact ⟨w', h1, hk'⟩
        · right
          rw [AddColor_GetColor]
          have : ¬ k = w.1 := fun h' => hk h'.symm
          simp [this, h]

theorem foldEntry_fst (ws : List (Shape × Quantity_ColorRGBA)) (e : Shape × Quantity_ColorRGBA) :
    (foldEntry ws e).1 = e.1 := by
  induction ws generalizing e with
  | nil => rfl
  | cons w ws ih =>
    show (foldEntry ws (setEntry w.1 w.2 e)).1 = e.1
    rw [ih, setEntry_fst]

theorem foldEntry_append (ws ws' : List (Shape × Quantity_ColorRGBA))
    (e : Shape × Quantity_ColorRGBA) :
    foldEntry (ws ++ ws') e = foldEntry ws' (foldEntry ws e) := by
  unfold foldEntry; rw [List.foldl_append]

theorem applyWrites_colors_of_keys (ws : List (Shape × Quantity_ColorRGBA)) (sh : IShape)
    (h : ∀ w ∈ ws, w.1 ∈ sh.keys) :
    (applyWrites sh ws).colors = sh.colors.map (foldEntry ws) := by
  induction ws generalizing sh with
  | nil =>
    have : foldEntry [] = id := by funext e; rfl
    rw [this, List.map_id]; rfl
  | cons w ws ih =>
    have hw : w.1 ∈ sh.keys := h w (List.mem_cons_self _ _)
    have hc : (sh.AddColor w.1 w.2).colors = sh.colors.map (setEntry w.1 w.2) := by
      unfold IShape.AddColor
      unfold IShape.keys at hw
      rw [if_pos hw]
    rw [applyWrites_cons, ih, hc, List.map_map]
    · rfl
    · intro w' hw'
      exact AddColor_keys_mono sh _ _ _ (h w' (List.mem_cons_of_mem _ hw'))

theorem foldEntry_fixed (ws : List (Shape × Quantity_ColorRGBA)) :
    ∀ (sh : IShape) (e : Shape × Quantity_ColorRGBA), e ∈ (applyWrites sh ws).colors →
      foldEntry ws e = e := by
  induction ws using List.reverseRecOn with
  | nil => intro sh e _; rfl
  | append_singleton ws w ih =>
    intro sh e he
    rw [applyWrites_append] at he
    rw [foldEntry_append]
    change e ∈ ((applyWrites sh ws).AddColor w.1 w.2).colors at he
    show setEntry w.1 w.2 (foldEntry ws e) = e
    unfold IShape.AddColor at he
    split at he
    · simp only [List.mem_map] at he
      obtain ⟨e0, he0, rfl⟩ := he
      by_cases hk : e0.1 = w.1
      · have h1 : setEntry w.1 w.2 e0 = (e0.1, w.2) := by simp [setEntry, hk]
        rw [h1]
        have h2 := foldEntry_fst ws (e0.1, w.2)
        unfold setEntry
        rw [if_pos (by rw [h2]; exact hk), h2]
      · have h1 : setEntry w.1 w.2 e0 = e0 := by simp [setEntry, hk]
        rw [h1, ih sh e0 he0, h1]
    · rename_i hk
      simp only [List.mem_append, List.mem_singleton] at he
      rcases he with he | he
      · rw [ih sh e he]
        have : e.1 ≠ w.1 := by
          intro h; apply hk; rw [← h]; exact List.mem_map_of_mem _ he
        simp [setEntry, this]
      · subst he
        have h2 := foldEntry_fst ws (w.1, w.2)
        unfold setEntry
        rw [if_pos h2, h2]

/-- Applying a sequence of `AddColor` calls a second time changes nothing. -/
theorem applyWrites_idem (sh : IShape) (ws : List (Shape × Quantity_ColorRGBA)) :
    applyWrites (applyWrites sh ws) ws = applyWrites sh ws := by
  apply IShape_ext3
  · rw [applyWrites_shape]
  · rw [applyWrites_faceSet]
  · rw [applyWrites_colors_of_keys ws _ (fun w hw => applyWrites_keys_written sh ws w hw)]
    conv_rhs => rw [← List.map_id (applyWrites sh ws).colors]
    apply List.map_congr_left
    intro e he
    exact foldEntry_fixed ws sh e he

theorem entryCount_eq_count (sh : IShape) (k : Shape) : sh.entryCount k = sh.keys.count k := by
  unfold IShape.entryCount IShape.keys
  induction sh.colors with
  | nil => rfl
  | cons e cs ih =>
    by_cases h : e.1 = k
    · simp [List.filter_cons, h, ← ih]
    · simp [List.filter_cons, h, List.count_cons, ← ih]

theorem entryCount_eq_one (sh : IShape) (k : Shape) (hn : sh.keys.Nodup) (hk : k ∈ sh.keys) :
    sh.entryCount k = 1 := by
  rw [entryCount_eq_count]
  exact List.count_eq_one_of_mem hn hk

theorem AddColors_face_eq (ct : ColorTool) (sc : Option Quantity_ColorRGBA) (sh : IShape)
    (face : Shape) : AddColors.face ct sc sh face = sh.AddColor face (faceColorOf ct sc face) := by
  unfold AddColors.face faceColorOf
  cases ct.GetColor face .ColorSurf <;> cases sc <;> rfl

theorem AddColors_wireEdge_eq (ct : ColorTool) (wc : Option Quantity_ColorRGBA) (sh : IShape)
    (edge : Shape) :
    AddColors.wireEdge ct wc sh edge = sh.AddColor edge (wireEdgeColorOf ct wc edge) := by
  unfold AddColors.wireEdge wireEdgeColorOf
  cases ct.GetColor edge .ColorCurv <;> cases wc <;> rfl

theorem AddColors_freeEdge_eq (ct : ColorTool) (sh : IShape) (edge : Shape) :
    AddColors.freeEdge ct sh edge = sh.AddColor edge (freeEdgeColorOf ct edge) := by
  unfold AddColors.freeEdge freeEdgeColorOf
  cases ct.GetColor edge .ColorCurv <;> rfl

theorem foldl_AddColor_map (g : Shape → Quantity_ColorRGBA) (l : List Shape) (sh : IShape) :
    l.foldl (fun s x => s.AddColor x (g x)) sh = applyWrites sh (l.map (fun x => (x, g x))) := by
  unfold applyWrites
  rw [List.foldl_map]

theorem AddColors_wire_eq (ct : ColorTool) (sh : IShape) (wire : Shape) :
    AddColors.wire ct sh wire = applyWrites sh (wireWrites ct wire) := by
  unfold AddColors.wire wireWrites
  rw [← foldl_AddColor_map]
  congr 1
  funext s x
  exact AddColors_wireEdge_eq ct _ s x

theorem foldl_wire_eq (ct : ColorTool) (wires : List Shape) (sh : IShape) :
    wires.foldl (AddColors.wire ct) sh = applyWrites sh ((wires.map (wireWrites ct)).flatten) := by
  induction wires generalizing sh with
  | nil => rfl
  | cons w ws ih =>
    rw [List.foldl_cons, ih, AddColors_wire_eq, List.map_cons, List.flatten_cons,
      applyWrites_append]

/-- The method `AddColors` makes the calls `colorWrites` lists, in order. -/
theorem AddColors_eq_applyWrites (opt : S2X_Option) (ct : ColorTool) (sh : IShape) :
    AddColors opt ct sh = applyWrites sh (colorWrites opt ct sh.shape sh.faceSet) := by
  unfold AddColors colorWrites
  by_cases hc : opt.Color = true
  · by_cases hf : sh.faceSet = true
    · simp only [hc, hf, Bool.not_true, Bool.false_eq_true, if_false, if_true]
      rw [← foldl_AddColor_map]
      congr 1
      funext s x
      exact AddColors_face_eq ct _ s x
    · simp only [hc, hf, Bool.not_true, Bool.false_eq_true, if_false]
      rw [applyWrites_append, ← foldl_wire_eq, ← foldl_AddColor_map]
      congr 1
      funext s x
      exact AddColors_freeEdge_eq ct s x
  · simp [hc, applyWrites]

theorem AddColors_shape (opt : S2X_Option) (ct : ColorTool) (sh : IShape) :
    (AddColors opt ct sh).shape = sh.shape := by
  rw [AddColors_eq_applyWrites, applyWrites_shape]

theorem AddColors_faceSet (opt : S2X_Option) (ct : ColorTool) (sh : IShape) :
    (AddColors opt ct sh).faceSet = sh.faceSet := by
  rw [AddColors_eq_applyWrites, applyWrites_faceSet]

theorem rank_EDGE : ShapeEnum.rank .EDGE = 6 := rfl

theorem rank_WIRE : ShapeEnum.rank .WIRE = 5 := rfl

theorem rank_FACE : ShapeEnum.rank .FACE = 4 := rfl

mutual
/-- Every edge the explorer finds in a shape is found inside a wire of the shape or as a
free edge (an edge outside every wire). -/
theorem explore_edge_cover (e : Shape) : ∀ s : Shape, e ∈ explore .EDGE .SHAPE s →
    (∃ w ∈ explore .WIRE .SHAPE s, e ∈ explore .EDGE .SHAPE w) ∨ e ∈ explore .EDGE .WIRE s
  | .null, h => by simp [explore] at h
  | .mk tag ty kids, h => by
    by_cases hE : ty = .EDGE
    · subst hE
      right
      simp only [explore] at h ⊢
      simpa using h
    · by_cases hW : ty = .WIRE
      · subst hW
        left
        refine ⟨.mk tag .WIRE kids, ?_, h⟩
        simp [explore]
      · by_cases hr : ty.rank < 6
        · have hr5 : ty.rank < 5 := by
            cases ty <;> simp_all [ShapeEnum.rank]
          have h' : e ∈ exploreList .EDGE .SHAPE kids := by
            rw [explore] at h
            simpa [hE, rank_EDGE, hr] using h
          rcases explore_edge_cover_list e kids h' with ⟨w, hw, hew⟩ | hfree
          · left
            refine ⟨w, ?_, hew⟩
            rw [explore]
            simp [hW, rank_WIRE, hr5, hw]
          · right
            rw [explore]
            have : ¬ (ShapeEnum.WIRE = ty) := fun h => hW h.symm
            simp [hE, rank_EDGE, hr, this, hfree]
        · rw [explore] at h
          simp [hE, rank_EDGE, hr] at h
/-- The same for a sequence of sibling shapes. -/
theorem explore_edge_cover_list (e : Shape) : ∀ ss : List Shape,
    e ∈ exploreList .EDGE .SHAPE ss →
    (∃ w ∈ exploreList .WIRE .SHAPE ss, e ∈ explore .EDGE .SHAPE w)
      ∨ e ∈ exploreList .EDGE .WIRE ss
  | [], h => by simp [exploreList] at h
  | s :: ss, h => by
    rw [exploreList, List.mem_append] at h
    rcases h with h | h
    · rcases explore_edge_cover e s h with ⟨w, hw, hew⟩ | hfree
      · left; exact ⟨w, by rw [exploreList]; exact List.mem_append_left _ hw, hew⟩
      · right; rw [exploreList]; exact List.mem_append_left _ hfree
    · rcases explore_edge_cover_list e ss h with ⟨w, hw, hew⟩ | hfree
      · left; exact ⟨w, by rw [exploreList]; exact List.mem_append_right _ hw, hew⟩
      · right; rw [exploreList]; exact List.mem_append_right _ hfree
end

theorem colorWrites_face_mem (opt : S2X_Option) (ct : ColorTool) (shape face : Shape)
    (hcolor : opt.Color = true) (h : face ∈ explore .FACE .SHAPE shape) :
    ∃ w ∈ colorWrites opt ct shape true, w.1 = face := by
  refine ⟨(face, faceColorOf ct (ct.GetColor shape .ColorSurf) face), ?_, rfl⟩
  unfold colorWrites
  simp only [hcolor, Bool.not_true, Bool.false_eq_true, if_false, if_true]
  exact List.mem_map_of_mem _ h

theorem colorWrites_face_own (opt : S2X_Option) (ct : ColorTool) (shape face : Shape)
    (c : Quantity_ColorRGBA) (hown : ct.GetColor face .ColorSurf = some c) :
    ∀ w ∈ colorWrites opt ct shape true, w.1 = face → w.2 = c := by
  intro w hw hk
  unfold colorWrites at hw
  split at hw
  · cases hw
  · simp only [if_true, List.mem_map] at hw
    obtain ⟨f, _, rfl⟩ := hw
    simp only at hk
    subst hk
    simp [faceColorOf, hown]

theorem colorWrites_wire_mem (opt : S2X_Option) (ct : ColorTool) (shape wire edge : Shape)
    (hcolor : opt.Color = true) (hw : wire ∈ explore .WIRE .SHAPE shape)
    (he : edge ∈ explore .EDGE .SHAPE wire) :
    ∃ w ∈ colorWrites opt ct shape false, w.1 = edge := by
  refine ⟨(edge, wireEdgeColorOf ct (ct.GetColor wire .ColorCurv) edge), ?_, rfl⟩
  unfold colorWrites
  simp only [hcolor, Bool.not_true, Bool.false_eq_true, if_false]
  apply List.mem_append_left
  rw [List.mem_flatten]
  exact ⟨wireWrites ct wire, List.mem_map_of_mem _ hw, List.mem_map_of_mem _ he⟩

theorem colorWrites_free_mem (opt : S2X_Option) (ct : ColorTool) (shape edge : Shape)
    (hcolor : opt.Color = true) (he : edge ∈ explore .EDGE .WIRE shape) :
    ∃ w ∈ colorWrites opt ct shape false, w.1 = edge := by
  refine ⟨(edge, freeEdgeColorOf ct edge), ?_, rfl⟩
  unfold colorWrites
  simp only [hcolor, Bool.not_true, Bool.false_eq_true, if_false]
  apply List.mem_append_right
  exact List.mem_map_of_mem _ he

theorem colorWrites_edge_own (opt : S2X_Option) (ct : ColorTool) (shape edge : Shape)
    (c : Quantity_ColorRGBA) (hown : ct.GetColor edge .ColorCurv = some c) :
    ∀ w ∈ colorWrites opt ct shape false, w.1 = edge → w.2 = c := by
  intro w hw hk
  unfold colorWrites at hw
  split at hw
  · cases hw
  · simp only [Bool.false_eq_true, if_false, List.mem_append, List.mem_flatten,
      List.mem_map] at hw
    rcases hw with ⟨l, ⟨wire, _, rfl⟩, hwl⟩ | ⟨e, _, rfl⟩
    · unfold wireWrites at hwl
      simp only [List.mem_map] at hwl
      obtain ⟨e, _, rfl⟩ := hwl
      simp only at hk
      subst hk
      simp [wireEdgeColorOf, hown]
    · simp only at hk
      subst hk
      simp [freeEdgeColorOf, hown]

/-- C3 (priority law): with color enabled, a face of a face-set unit that has a surface
color of its own, while the unit has a surface color too, is recorded with its own color:
`AddColors` calls `AddColor` for it, every such call passes the color of the face, and the
mapping of the unit ends with that color for the face.  The same holds, with curve colors,
for an edge inside a wire of a wire-set unit, while the wire has a curve color too.  (The
calls of `AddColors` are the list `colorWrites`, see `AddColors_eq_applyWrites`.) -/
theorem C3_specific_color_wins (opt : S2X_Option) (ct : ColorTool) (sh : IShape)
    (hcolor : opt.Color = true) :
    (sh.faceSet = true → ∀ face faceColor solidColor,
        face ∈ explore .FACE .SHAPE sh.shape →
        ct.GetColor face .ColorSurf = some faceColor →
        ct.GetColor sh.shape .ColorSurf = some solidColor →
        (∃ w ∈ colorWrites opt ct sh.shape sh.faceSet, w.1 = face)
          ∧ (∀ w ∈ colorWrites opt ct sh.shape sh.faceSet, w.1 = face → w.2 = faceColor)
          ∧ (AddColors opt ct sh).GetColor face = some faceColor)
      ∧ (sh.faceSet = false → ∀ wire edge edgeColor wireColor,
        wire ∈ explore .WIRE .SHAPE sh.shape →
        edge ∈ explore .EDGE .SHAPE wire →
        ct.GetColor edge .ColorCurv = some edgeColor →
        ct.GetColor wire .ColorCurv = some wireColor →
        (∃ w ∈ colorWrites opt ct sh.shape sh.faceSet, w.1 = edge)
          ∧ (∀ w ∈ colorWrites opt ct sh.shape sh.faceSet, w.1 = edge → w.2 = edgeColor)
          ∧ (AddColors opt ct sh).GetColor edge = some edgeColor) := by
  constructor
  · intro hf face faceColor _ hmem hown _
    rw [AddColors_eq_applyWrites, hf]
    have h1 := colorWrites_face_mem opt ct sh.shape face hcolor hmem
    have h2 := colorWrites_face_own opt ct sh.shape face faceColor hown
    exact ⟨h1, h2, applyWrites_GetColor _ sh face faceColor h2 (Or.inl h1)⟩
  · intro hf wire edge edgeColor _ hw he hown _
    rw [AddColors_eq_applyWrites, hf]
    have h1 := colorWrites_wire_mem opt ct sh.shape wire edge hcolor hw he
    have h2 := colorWrites_edge_own opt ct sh.shape edge edgeColor hown
    exact ⟨h1, h2, applyWrites_GetColor _ sh edge edgeColor h2 (Or.inl h1)⟩

/-- C3 at sample inputs: face 1 of the sample solid is red while the solid is blue, and
edge 31 is green while its wire is yellow. -/
theorem C3_specific_color_wins_witness :
    (AddColors ⟨false, true⟩ sampleColorTool (IShape.new Env.plain sampleSolid)).GetColor
        (sampleFace 1) = some ⟨1000, 0, 0, 1000⟩
      ∧ (AddColors ⟨true, true⟩ sampleColorTool (IShape.new Env.plain sampleWires)).GetColor
        (sampleEdge 31) = some ⟨0, 1000, 0, 1000⟩ :=
  ⟨((C3_specific_color_wins ⟨false, true⟩ sampleColorTool (IShape.new Env.plain sampleSolid)
      rfl).1 (by decide) (sampleFace 1) ⟨1000, 0, 0, 1000⟩ ⟨0, 0, 1000, 1000⟩ (by decide)
      (by decide) (by decide)).2.2,
    ((C3_specific_color_wins ⟨true, true⟩ sampleColorTool (IShape.new Env.plain sampleWires)
      rfl).2 (by decide) (.mk 21 .WIRE [sampleEdge 31, sampleEdge 32]) (sampleEdge 31)
      ⟨0, 1000, 0, 1000⟩ ⟨1000, 1000, 0, 1000⟩ (by decide) (by decide) (by decide)
      (by decide)).2.2⟩

/-- C5 (idempotence of the color resolver): for every unit and every color table, running
`AddColors` a second time leaves the unit as the first run left it: the same entries, with
the same colors, in the same order, none added. -/
theorem C5_AddColors_idempotent (opt : S2X_Option) (ct : ColorTool) (sh : IShape) :
    AddColors opt ct (AddColors opt ct sh) = AddColors opt ct sh := by
  rw [AddColors_eq_applyWrites opt ct (AddColors opt ct sh), AddColors_shape, AddColors_faceSet,
    AddColors_eq_applyWrites opt ct sh]
  exact applyWrites_idem sh _

/-- C6 (complete coloring): with color enabled, after `AddColors` on a unit whose mapping
had at most one entry per entity (a new unit has none), every face of a face-set unit has
exactly one entry, with a color, and so has every edge of a wire-set unit: the edges the
explorer finds in the unit, the edges of its wires and its free edges. -/
theorem C6_complete_coloring (opt : S2X_Option) (ct : ColorTool) (sh : IShape)
    (hcolor : opt.Color = true) (hwf : sh.keys.Nodup) :
    (sh.faceSet = true → ∀ face, face ∈ explore .FACE .SHAPE sh.shape →
        (AddColors opt ct sh).entryCount face = 1
          ∧ ((AddColors opt ct sh).GetColor face).isSome = true)
      ∧ (sh.faceSet = false → ∀ edge,
        (edge ∈ explore .EDGE .SHAPE sh.shape
          ∨ (∃ wire, wire ∈ explore .WIRE .SHAPE sh.shape ∧ edge ∈ explore .EDGE .SHAPE wire)
          ∨ edge ∈ explore .EDGE .WIRE sh.shape) →
        (AddColors opt ct sh).entryCount edge = 1
          ∧ ((AddColors opt ct sh).GetColor edge).isSome = true) := by
  have key : ∀ k, (∃ w ∈ colorWrites opt ct sh.shape sh.faceSet, w.1 = k) →
      (AddColors opt ct sh).entryCount k = 1
        ∧ ((AddColors opt ct sh).GetColor k).isSome = true := by
    intro k ⟨w, hw, hk⟩
    have hmem : k ∈ (AddColors opt ct sh).keys := by
      rw [AddColors_eq_applyWrites, ← hk]
      exact applyWrites_keys_written sh _ w hw
    have hnd : (AddColors opt ct sh).keys.Nodup := by
      rw [AddColors_eq_applyWrites]
      exact applyWrites_keys_nodup sh _ hwf
    exact ⟨entryCount_eq_one _ k hnd hmem, (GetColor_isSome_iff _ k).2 hmem⟩
  constructor
  · intro hf face hmem
    apply key
    rw [hf]
    exact colorWrites_face_mem opt ct sh.shape face hcolor hmem
  · intro hf edge hmem
    apply key
    rw [hf]
    have hcases : (∃ wire, wire ∈ explore .WIRE .SHAPE sh.shape ∧ edge ∈ explore .EDGE .SHAPE wire)
        ∨ edge ∈ explore .EDGE .WIRE sh.shape := by
      rcases hmem with h | h | h
      · rcases explore_edge_cover edge sh.shape h with ⟨w, hw, he⟩ | h'
        · exact Or.inl ⟨w, hw, he⟩
        · exact Or.inr h'
      · exact Or.inl h
      · exact Or.inr h
    rcases hcases with ⟨wire, hw, he⟩ | h
    · exact colorWrites_wire_mem opt ct sh.shape wire edge hcolor hw he
    · exact colorWrites_free_mem opt ct sh.shape edge hcolor h

/-- C6 at sample inputs: face 2 of the sample solid, and edge 32, which two wires share. -/
theorem C6_complete_coloring_witness :
    ((AddColors ⟨false, true⟩ sampleColorTool (IShape.new Env.plain sampleSolid)).entryCount
          (sampleFace 2) = 1
        ∧ ((AddColors ⟨false, true⟩ sampleColorTool (IShape.new Env.plain sampleSolid)).GetColor
          (sampleFace 2)).isSome = true)
      ∧ ((AddColors ⟨true, true⟩ sampleColorTool (IShape.new Env.plain sampleWires)).entryCount
          (sampleEdge 32) = 1
        ∧ ((AddColors ⟨true, true⟩ sampleColorTool (IShape.new Env.plain sampleWires)).GetColor
          (sampleEdge 32)).isSome = true) :=
  ⟨(C6_complete_coloring ⟨false, true⟩ sampleColorTool (IShape.new Env.plain sampleSolid) rfl
      (by decide)).1 (by decide) (sampleFace 2) (by decide),
    (C6_complete_coloring ⟨true, true⟩ sampleColorTool (IShape.new Env.plain sampleWires) rfl
      (by decide)).2 (by decide) (sampleEdge 32) (Or.inl (by decide))⟩

/-! ## Properties of the component memory -/

theorem modifyAt_length (h : List Component) (a : Nat) (f : Component → Component) :
    (modifyAt h a f).length = h.length := by
  unfold modifyAt
  split <;> simp

theorem modifyAt_getElem? (h : List Component) (a b : Nat) (f : Component → Component) :
    (modifyAt h a f)[b]? = if b = a then (h[a]?).map f else h[b]? := by
  unfold modifyAt
  cases ha : h[a]? with
  | none =>
    simp only [Option.map_none']
    split
    · rename_i hb; rw [hb, ha]
    · rfl
  | some c =>
    simp only [Option.map_some']
    have hlt : a < h.length := by
      rcases Nat.lt_or_ge a h.length with h1 | h1
      · exact h1
      · rw [List.getElem?_eq_none h1] at ha; cases ha
    by_cases hb : b = a
    · subst hb; simp [List.getElem?_set_self hlt]
    · have : a ≠ b := fun h' => hb h'.symm
      simp [hb, List.getElem?_set_ne this]

theorem mapFind_append (m : List (Int × Nat)) (k k' : Int) (a : Nat) :
    mapFind (m ++ [(k, a)]) k' =
      match mapFind m k' with
      | some v => some v
      | none => if k = k' then some a else none := by
  unfold mapFind
  rw [List.find?_append]
  cases h : List.find? (fun e => decide (e.1 = k')) m with
  | some v => simp
  | none =>
    by_cases hk : k = k'
    · simp [hk]
    · simp [hk]

theorem modifyAt_modifyAt (h : List Component) (a : Nat) (f g : Component → Component) :
    modifyAt (modifyAt h a f) a g = modifyAt h a (fun c => g (f c)) := by
  apply List.ext_getElem?
  intro b
  simp only [modifyAt_getElem?]
  split
  · simp [Option.map_map, Function.comp_def]
  · rfl

theorem modifyAt_id (h : List Component) (a : Nat) (f : Component → Component)
    (hf : ∀ c, f c = c) : modifyAt h a f = h := by
  apply List.ext_getElem?
  intro b
  rw [modifyAt_getElem?]
  split
  · rename_i hb
    subst hb
    cases h[b]? <;> simp [hf]
  · rfl

theorem AddIShapes_eq (env : Env) (opt : S2X_Option) (ct : ColorTool) (comp : Nat)
    (subShapes : List Shape) (r : Memory) :
    AddIShapes env opt ct r comp subShapes =
      { r with
        heap := modifyAt r.heap comp
          (fun c => { c with iShapes := c.iShapes ++ newUnits env opt ct subShapes }) } := by
  induction subShapes generalizing r with
  | nil =>
    unfold AddIShapes newUnits
    simp only [List.foldl_nil, List.map_nil, List.append_nil]
    rw [modifyAt_id _ _ _ (fun c => rfl)]
  | cons s ss ih =>
    have : AddIShapes env opt ct r comp (s :: ss) =
        AddIShapes env opt ct (r.AddIShape comp (AddColors opt ct (IShape.new env s))) comp ss := rfl
    rw [this, ih]
    unfold Memory.AddIShape newUnits
    simp only [modifyAt_modifyAt, List.map_cons, List.append_assoc, List.singleton_append]

theorem AddSubComponents_assembly (env : Env) (sd : STEP_Data) (opt : S2X_Option) (ct : ColorTool)
    (r : Memory) (comp : Nat) (nameText : WString) (shape : Shape) (comps : List Label) :
    AddSubComponents env sd opt ct r comp (.assembly nameText shape comps) =
      AddSubComponentsSeq env sd opt ct (r.SetUniqueName comp (GetName env nameText)) comp comps := by
  rw [AddSubComponents]

theorem AddSubComponents_reference (env : Env) (sd : STEP_Data) (opt : S2X_Option)
    (ct : ColorTool) (r : Memory) (comp : Nat) (nameText : WString) (shape : Shape)
    (trsf : gp_Trsf) (label_ref : Label) :
    AddSubComponents env sd opt ct r comp (.reference nameText shape trsf label_ref) =
      if IsEmpty env opt label_ref.shape then r
      else if (IsCopy env (refPrep env r comp trsf label_ref) r.heap.length).1 then
        (IsCopy env (refPrep env r comp trsf label_ref) r.heap.length).2
      else AddSubComponents env sd opt ct
        (IsCopy env (refPrep env r comp trsf label_ref) r.heap.length).2 r.heap.length label_ref := by
  rw [AddSubComponents]
  rfl

theorem AddSubComponents_simpleShape (env : Env) (sd : STEP_Data) (opt : S2X_Option)
    (ct : ColorTool) (r : Memory) (comp : Nat) (nameText : WString) (shape : Shape) :
    AddSubComponents env sd opt ct r comp (.simpleShape nameText shape) =
      if IsEmpty env opt shape then r
      else AddIShapes env opt ct r comp (GetSubShapes env sd opt shape []) := by
  rw [AddSubComponents]

theorem AddSubComponents_other (env : Env) (sd : STEP_Data) (opt : S2X_Option) (ct : ColorTool)
    (r : Memory) (comp : Nat) (nameText : WString) (shape : Shape) :
    AddSubComponents env sd opt ct r comp (.other nameText shape) = r := by
  rw [AddSubComponents]

theorem AddSubComponentsSeq_eq_foldl (env : Env) (sd : STEP_Data) (opt : S2X_Option)
    (ct : ColorTool) (comp : Nat) (labels : List Label) (r : Memory) :
    AddSubComponentsSeq env sd opt ct r comp labels =
      labels.foldl (fun r label_comp => AddSubComponents env sd opt ct r comp label_comp) r := by
  induction labels generalizing r with
  | nil => rw [AddSubComponentsSeq]; rfl
  | cons l ls ih => rw [AddSubComponentsSeq, ih]; rfl

theorem refPrep_heap (env : Env) (r : Memory) (comp : Nat) (trsf : gp_Trsf) (label_ref : Label) :
    (refPrep env r comp trsf label_ref).heap =
      modifyAt (r.heap ++ [refComponent env trsf label_ref]) comp
        (fun c => { c with subComponents := c.subComponents ++ [r.heap.length] }) := by
  unfold refPrep Memory.AddSubComponent Memory.SetTransformation Memory.SetUniqueName Memory.alloc
  simp only [modifyAt_modifyAt]
  congr 1
  apply List.ext_getElem?
  intro b
  rw [modifyAt_getElem?]
  split
  · rename_i hb
    subst hb
    simp [refComponent, Component.new]
  · rename_i hb
    rcases Nat.lt_or_ge b r.heap.length with h1 | h1
    · rw [List.getElem?_append_left h1, List.getElem?_append_left h1]
    · have h2 : r.heap.length < b := Nat.lt_of_le_of_ne h1 (fun h => hb h.symm)
      rw [List.getElem?_eq_none (by simp; omega), List.getElem?_eq_none (by simp; omega)]

theorem refPrep_map (env : Env) (r : Memory) (comp : Nat) (trsf : gp_Trsf) (label_ref : Label) :
    (refPrep env r comp trsf label_ref).idComponentMap = r.idComponentMap := rfl

theorem refPrep_length (env : Env) (r : Memory) (comp : Nat) (trsf : gp_Trsf) (label_ref : Label) :
    (refPrep env r comp trsf label_ref).heap.length = r.heap.length + 1 := by
  rw [refPrep_heap, modifyAt_length]; simp

theorem refPrep_old (env : Env) (r : Memory) (comp : Nat) (trsf : gp_Trsf) (label_ref : Label) (a : Nat)
    (ha : a < r.heap.length) (hne : a ≠ comp) :
    (refPrep env r comp trsf label_ref).heap[a]? = r.heap[a]? := by
  rw [refPrep_heap, modifyAt_getElem?, if_neg hne, List.getElem?_append_left ha]

theorem refPrep_parent (env : Env) (r : Memory) (comp : Nat) (trsf : gp_Trsf) (label_ref : Label)
    (c : Component) (hc : r.heap[comp]? = some c) :
    (refPrep env r comp trsf label_ref).heap[comp]? =
      some { c with subComponents := c.subComponents ++ [r.heap.length] } := by
  have hlt : comp < r.heap.length := by
    rcases Nat.lt_or_ge comp r.heap.length with h1 | h1
    · exact h1
    · rw [List.getElem?_eq_none h1] at hc; cases hc
  rw [refPrep_heap, modifyAt_getElem?, if_pos rfl, List.getElem?_append_left hlt, hc]
  rfl

theorem refPrep_new (env : Env) (r : Memory) (comp : Nat) (trsf : gp_Trsf) (label_ref : Label)
    (hcomp : comp < r.heap.length) :
    (refPrep env r comp trsf label_ref).heap[r.heap.length]? = some (refComponent env trsf label_ref) := by
  rw [refPrep_heap, modifyAt_getElem?, if_neg (Nat.ne_of_gt hcomp)]
  simp

theorem getElem?_lt {h : List Component} {a : Nat} {c : Component} (hc : h[a]? = some c) :
    a < h.length := by
  rcases Nat.lt_or_ge a h.length with h1 | h1
  · exact h1
  · rw [List.getElem?_eq_none h1] at hc; cases hc

theorem Frame_refl (comp : Nat) (r : Memory) : Frame comp r r :=
  ⟨Nat.le_refl _, fun _ _ _ => rfl, fun c hc => ⟨c, hc, rfl, rfl, rfl, ⟨[], by simp⟩, ⟨[], by simp⟩⟩⟩

theorem Frame_trans {comp : Nat} {r r1 r2 : Memory} (h1 : Frame comp r r1)
    (h2 : Frame comp r1 r2) : Frame comp r r2 := by
  refine ⟨Nat.le_trans h1.len_le h2.len_le, ?_, ?_⟩
  · intro a ha hne
    rw [h2.frame a (Nat.lt_of_lt_of_le ha h1.len_le) hne, h1.frame a ha hne]
  · intro c hc
    obtain ⟨c1, hc1, hs1, ht1, ho1, ⟨s1, hsub1⟩, ⟨u1, hu1⟩⟩ := h1.parent c hc
    obtain ⟨c2, hc2, hs2, ht2, ho2, ⟨s2, hsub2⟩, ⟨u2, hu2⟩⟩ := h2.parent c1 hc1
    refine ⟨c2, hc2, hs2.trans hs1, ht2.trans ht1, ho2.trans ho1, ⟨s1 ++ s2, ?_⟩, ⟨u1 ++ u2, ?_⟩⟩
    · rw [hsub2, hsub1, List.append_assoc]
    · rw [hu2, hu1, List.append_assoc]

theorem Frame_SetUniqueName (comp : Nat) (r : Memory) (name : WString) :
    Frame comp r (r.SetUniqueName comp name) := by
  unfold Memory.SetUniqueName
  refine ⟨by simp [modifyAt_length], ?_, ?_⟩
  · intro a _ hne
    simp only [modifyAt_getElem?, if_neg hne]
  · intro c hc
    refine ⟨{ c with uniqueName := name }, ?_, rfl, rfl, rfl, ⟨[], by simp⟩, ⟨[], by simp⟩⟩
    simp only [modifyAt_getElem?, if_pos, hc, Option.map_some']

theorem Frame_AddIShapes (env : Env) (opt : S2X_Option) (ct : ColorTool) (comp : Nat)
    (r : Memory) (subShapes : List Shape) :
    Frame comp r (AddIShapes env opt ct r comp subShapes) := by
  rw [AddIShapes_eq]
  refine ⟨by simp [modifyAt_length], ?_, ?_⟩
  · intro a _ hne
    simp only [modifyAt_getElem?, if_neg hne]
  · intro c hc
    refine ⟨{ c with iShapes := c.iShapes ++ newUnits env opt ct subShapes }, ?_, rfl, rfl, rfl,
      ⟨[], by simp⟩, ⟨_, rfl⟩⟩
    simp only [modifyAt_getElem?, if_pos, hc, Option.map_some']

theorem IsCopy_none (env : Env) (r : Memory) (comp : Nat)
    (h : mapFind r.idComponentMap (env.GetID (r.GetShape comp)) = none) :
    IsCopy env r comp =
      (false, { r with
        idComponentMap := r.idComponentMap ++ [(env.GetID (r.GetShape comp), comp)] }) := by
  unfold IsCopy
  simp only [h]

theorem IsCopy_some (env : Env) (r : Memory) (comp o : Nat)
    (h : mapFind r.idComponentMap (env.GetID (r.GetShape comp)) = some o) :
    IsCopy env r comp = (true, r.SetOriginalComponent comp o) := by
  unfold IsCopy
  simp only [h]

theorem IsCopy_length (env : Env) (r : Memory) (comp : Nat) :
    (IsCopy env r comp).2.heap.length = r.heap.length := by
  cases h : mapFind r.idComponentMap (env.GetID (r.GetShape comp)) with
  | none => rw [IsCopy_none env r comp h]
  | some o => rw [IsCopy_some env r comp o h]; simp [Memory.SetOriginalComponent, modifyAt_length]

theorem IsCopy_heap_ne (env : Env) (r : Memory) (comp a : Nat) (hne : a ≠ comp) :
    (IsCopy env r comp).2.heap[a]? = r.heap[a]? := by
  cases h : mapFind r.idComponentMap (env.GetID (r.GetShape comp)) with
  | none => rw [IsCopy_none env r comp h]
  | some o =>
    rw [IsCopy_some env r comp o h]
    simp only [Memory.SetOriginalComponent, modifyAt_getElem?, if_neg hne]

theorem IsCopy_heap_self (env : Env) (r : Memory) (comp : Nat) (c : Component)
    (hc : r.heap[comp]? = some c) :
    ∃ c', (IsCopy env r comp).2.heap[comp]? = some c' ∧ c'.shape = c.shape ∧ c'.trsf = c.trsf
      ∧ c'.subComponents = c.subComponents ∧ c'.iShapes = c.iShapes := by
  cases h : mapFind r.idComponentMap (env.GetID (r.GetShape comp)) with
  | none => rw [IsCopy_none env r comp h]; exact ⟨c, hc, rfl, rfl, rfl, rfl⟩
  | some o =>
    rw [IsCopy_some env r comp o h]
    refine ⟨{ c with originalComponent := some o }, ?_, rfl, rfl, rfl, rfl⟩
    simp only [Memory.SetOriginalComponent, modifyAt_getElem?, if_pos, hc, Option.map_some']

/-- The step of `AddSubComponents` for a reference whose referred shape is not empty, given
what the recursive call (or no call, for a copy) leaves untouched. -/
theorem reference_step (env : Env) (r r' : Memory) (comp : Nat) (trsf : gp_Trsf)
    (label_ref : Label) (hcomp : comp < r.heap.length)
    (hrec : Frame r.heap.length (IsCopy env (refPrep env r comp trsf label_ref) r.heap.length).2 r') :
    Frame comp r r'
      ∧ (∀ c, r.heap[comp]? = some c →
        r'.heap[comp]? = some { c with subComponents := c.subComponents ++ [r.heap.length] })
      ∧ (∃ c', r'.heap[r.heap.length]? = some c' ∧ c'.shape = label_ref.shape ∧ c'.trsf = trsf)
      ∧ r.heap.length < r'.heap.length := by
  have hlen5 : (IsCopy env (refPrep env r comp trsf label_ref) r.heap.length).2.heap.length
      = r.heap.length + 1 := by rw [IsCopy_length, refPrep_length]
  have hne : comp ≠ r.heap.length := Nat.ne_of_lt hcomp
  have hold : ∀ a, a < r.heap.length → a ≠ comp → r'.heap[a]? = r.heap[a]? := by
    intro a ha hac
    have han : a ≠ r.heap.length := Nat.ne_of_lt ha
    rw [hrec.frame a (by rw [hlen5]; omega) han, IsCopy_heap_ne env _ _ a han,
      refPrep_old env r comp trsf label_ref a ha hac]
  have hpar : ∀ c, r.heap[comp]? = some c →
      r'.heap[comp]? = some { c with subComponents := c.subComponents ++ [r.heap.length] } := by
    intro c hc
    rw [hrec.frame comp (by rw [hlen5]; omega) hne, IsCopy_heap_ne env _ _ comp hne,
      refPrep_parent env r comp trsf label_ref c hc]
  have hnew : ∃ c', r'.heap[r.heap.length]? = some c' ∧ c'.shape = label_ref.shape
      ∧ c'.trsf = trsf := by
    obtain ⟨c5, hc5, hs5, ht5, _, _⟩ := IsCopy_heap_self env _ r.heap.length _
      (refPrep_new env r comp trsf label_ref hcomp)
    obtain ⟨c', hc', hs', ht', _, _, _⟩ := hrec.parent c5 hc5
    exact ⟨c', hc', by rw [hs', hs5]; rfl, by rw [ht', ht5]; rfl⟩
  have hlt : r.heap.length < r'.heap.length := by
    have := hrec.len_le
    rw [hlen5] at this
    omega
  refine ⟨⟨Nat.le_of_lt hlt, hold, ?_⟩, hpar, hnew, hlt⟩
  intro c hc
  exact ⟨_, hpar c hc, rfl, rfl, rfl, ⟨[r.heap.length], rfl⟩, ⟨[], by simp⟩⟩

mutual
/-- A run of `AddSubComponents` on a valid component leaves the rest of the memory as it is. -/
theorem AddSubComponents_frame (env : Env) (sd : STEP_Data) (opt : S2X_Option) (ct : ColorTool) :
    ∀ (label : Label) (r : Memory) (comp : Nat), comp < r.heap.length →
      Frame comp r (AddSubComponents env sd opt ct r comp label)
  | .assembly nameText _ comps, r, comp, hcomp => by
    rw [AddSubComponents_assembly]
    exact Frame_trans (Frame_SetUniqueName comp r _)
      (AddSubComponentsSeq_frame env sd opt ct comps _ comp
        (Nat.lt_of_lt_of_le hcomp (Frame_SetUniqueName comp r _).len_le))
  | .reference _ _ trsf label_ref, r, comp, hcomp => by
    rw [AddSubComponents_reference]
    split
    · exact Frame_refl comp r
    · have hlen5 : (IsCopy env (refPrep env r comp trsf label_ref) r.heap.length).2.heap.length
          = r.heap.length + 1 := by rw [IsCopy_length, refPrep_length]
      split
      · exact (reference_step env r _ comp trsf label_ref hcomp (Frame_refl _ _)).1
      · exact (reference_step env r _ comp trsf label_ref hcomp
          (AddSubComponents_frame env sd opt ct label_ref _ _ (by rw [hlen5]; omega))).1
  | .simpleShape _ shape, r, comp, _ => by
    rw [AddSubComponents_simpleShape]
    split
    · exact Frame_refl comp r
    · exact Frame_AddIShapes env opt ct comp r _
  | .other _ _, r, comp, _ => by
    rw [AddSubComponents_other]
    exact Frame_refl comp r
/-- The same for the loop over the component labels of an assembly. -/
theorem AddSubComponentsSeq_frame (env : Env) (sd : STEP_Data) (opt : S2X_Option)
    (ct : ColorTool) :
    ∀ (labels : List Label) (r : Memory) (comp : Nat), comp < r.heap.length →
      Frame comp r (AddSubComponentsSeq env sd opt ct r comp labels)
  | [], r, comp, _ => by
    rw [AddSubComponentsSeq]
    exact Frame_refl comp r
  | label_comp :: rest, r, comp, hcomp => by
    rw [AddSubComponentsSeq]
    have h1 := AddSubComponents_frame env sd opt ct label_comp r comp hcomp
    exact Frame_trans h1 (AddSubComponentsSeq_frame env sd opt ct rest _ comp
      (Nat.lt_of_lt_of_le hcomp h1.len_le))
end

theorem GetShape_of_getElem? (r : Memory) (a : Nat) (c : Component) (h : r.heap[a]? = some c) :
    r.GetShape a = c.shape := by
  unfold Memory.GetShape
  rw [h]

theorem GetShape_congr (r r' : Memory) (a : Nat) (h : r'.heap[a]? = r.heap[a]?) :
    r'.GetShape a = r.GetShape a := by
  unfold Memory.GetShape
  rw [h]

theorem Frame_shape_eq {comp : Nat} {r r' : Memory} (h : Frame comp r r') (a : Nat)
    (ha : a < r.heap.length) : r'.GetShape a = r.GetShape a := by
  by_cases hac : a = comp
  · subst hac
    obtain ⟨c, hc⟩ : ∃ c, r.heap[a]? = some c := ⟨r.heap[a], List.getElem?_eq_getElem ha⟩
    obtain ⟨c', hc', hs, _⟩ := h.parent c hc
    rw [GetShape_of_getElem? r' a c' hc', GetShape_of_getElem? r a c hc, hs]
  · exact GetShape_congr r r' a (h.frame a ha hac)

theorem MapPost_of_same (env : Env) (r r' : Memory)
    (hmap : r'.idComponentMap = r.idComponentMap) (hlen : r'.heap.length = r.heap.length)
    (hv : r.MapValid) : MapPost env r r' := by
  refine ⟨?_, ?_, ?_, ?_⟩
  · intro k a h; rw [hmap]; exact h
  · intro k a h1 h2; rw [hmap, h1] at h2; cases h2
  · intro b h1 h2; rw [hlen] at h2; omega
  · intro k a h; rw [hmap] at h; rw [hlen]; exact hv k a h

theorem MapPost_trans {env : Env} {comp : Nat} {r r1 r2 : Memory}
    (hcomp : comp < r.heap.length) (h1 : MapPost env r r1) (hf1 : Frame comp r r1)
    (h2 : MapPost env r1 r2) (hf2 : Frame comp r1 r2) : MapPost env r r2 := by
  refine ⟨?_, ?_, ?_, h2.valid⟩
  · intro k a h
    exact h2.map_mono k a (h1.map_mono k a h)
  · intro k a hk hk2
    cases hk1 : mapFind r1.idComponentMap k with
    | some a1 =>
      have := h2.map_mono k a1 hk1
      rw [hk2] at this
      cases this
      obtain ⟨hle, hlt, hid, hfirst⟩ := h1.map_new k a hk hk1
      refine ⟨hle, Nat.lt_of_lt_of_le hlt hf2.len_le, ?_, ?_⟩
      · rw [Frame_shape_eq hf2 a hlt]; exact hid
      · intro b hb1 hb2
        rw [Frame_shape_eq hf2 b (Nat.lt_trans hb2 hlt)]
        exact hfirst b hb1 hb2
    | none =>
      obtain ⟨hle, hlt, hid, hfirst⟩ := h2.map_new k a hk1 hk2
      refine ⟨Nat.le_trans hf1.len_le hle, hlt, hid, ?_⟩
      intro b hb1 hb2
      rcases Nat.lt_or_ge b r1.heap.length with hb | hb
      · obtain ⟨cb, a', hcb, hfind, _⟩ := h1.node_new b hb1 hb
        rw [Frame_shape_eq hf2 b hb, GetShape_of_getElem? r1 b cb hcb]
        intro heq
        rw [heq, hk1] at hfind
        cases hfind
      · exact hfirst b hb hb2
  · intro b hb1 hb2
    rcases Nat.lt_or_ge b r1.heap.length with hb | hb
    · obtain ⟨cb, a, hcb, hfind, hcase⟩ := h1.node_new b hb1 hb
      refine ⟨cb, a, ?_, h2.map_mono _ a hfind, hcase⟩
      rw [hf2.frame b hb (by omega)]
      exact hcb
    · exact h2.node_new b hb hb2

theorem MapValid_of_same (r r' : Memory) (hmap : r'.idComponentMap = r.idComponentMap)
    (hlen : r.heap.length ≤ r'.heap.length) (hv : r.MapValid) : r'.MapValid := by
  intro k a h
  rw [hmap] at h
  exact Nat.lt_of_lt_of_le (hv k a h) hlen

/-- The step of `AddSubComponents` for a reference whose referred shape is not empty and
was seen before: the new component becomes a copy. -/
theorem reference_copy_mapPost (env : Env) (r : Memory) (comp o : Nat) (trsf : gp_Trsf)
    (label_ref : Label) (hcomp : comp < r.heap.length) (hv : r.MapValid)
    (ho : mapFind r.idComponentMap (env.GetID label_ref.shape) = some o) :
    IsCopy env (refPrep env r comp trsf label_ref) r.heap.length =
        (true, (refPrep env r comp trsf label_ref).SetOriginalComponent r.heap.length o)
      ∧ MapPost env r ((refPrep env r comp trsf label_ref).SetOriginalComponent r.heap.length o) := by
  have hshape : (refPrep env r comp trsf label_ref).GetShape r.heap.length = label_ref.shape :=
    GetShape_of_getElem? _ _ _ (refPrep_new env r comp trsf label_ref hcomp)
  have hcopy := IsCopy_some env (refPrep env r comp trsf label_ref) r.heap.length o
    (by rw [hshape, refPrep_map]; exact ho)
  refine ⟨hcopy, ?_, ?_, ?_, ?_⟩
  · intro k a h; exact h
  · intro k a h1 h2
    have : mapFind r.idComponentMap k = some a := h2
    rw [h1] at this; cases this
  · intro b hb1 hb2
    have hlen : ((refPrep env r comp trsf label_ref).SetOriginalComponent r.heap.length o).heap.length
        = r.heap.length + 1 := by
      simp [Memory.SetOriginalComponent, modifyAt_length, refPrep_length]
    have hb : b = r.heap.length := by omega
    subst hb
    refine ⟨{ refComponent env trsf label_ref with originalComponent := some o }, o, ?_, ho,
      Or.inr ⟨hv _ o ho, rfl, rfl, rfl⟩⟩
    simp only [Memory.SetOriginalComponent, modifyAt_getElem?, if_pos,
      refPrep_new env r comp trsf label_ref hcomp, Option.map_some']
  · intro k a h
    have h' : mapFind r.idComponentMap k = some a := h
    have := hv k a h'
    simp only [Memory.SetOriginalComponent, modifyAt_length, refPrep_length]
    omega

/-- The step of `AddSubComponents` for a reference whose referred shape is not empty and
was not seen before: the new component is entered in the index and then filled. -/
theorem reference_first_mapPost (env : Env) (r r' : Memory) (comp : Nat) (trsf : gp_Trsf)
    (label_ref : Label) (hcomp : comp < r.heap.length)
    (ho : mapFind r.idComponentMap (env.GetID label_ref.shape) = none)
    (hf : Frame r.heap.length (IsCopy env (refPrep env r comp trsf label_ref) r.heap.length).2 r')
    (hrec : MapPost env (IsCopy env (refPrep env r comp trsf label_ref) r.heap.length).2 r') :
    MapPost env r r' := by
  have hshape : (refPrep env r comp trsf label_ref).GetShape r.heap.length = label_ref.shape :=
    GetShape_of_getElem? _ _ _ (refPrep_new env r comp trsf label_ref hcomp)
  have hcopy := IsCopy_none env (refPrep env r comp trsf label_ref) r.heap.length
    (by rw [hshape, refPrep_map]; exact ho)
  rw [hcopy] at hf hrec
  rw [hshape, refPrep_map] at hf hrec
  simp only at hf hrec
  have hlen5 : (refPrep env r comp trsf label_ref).heap.length = r.heap.length + 1 :=
    refPrep_length env r comp trsf label_ref
  have hfind5 : ∀ k', mapFind (r.idComponentMap ++ [(env.GetID label_ref.shape, r.heap.length)]) k'
      = match mapFind r.idComponentMap k' with
        | some v => some v
        | none => if env.GetID label_ref.shape = k' then some r.heap.length else none :=
    fun k' => mapFind_append _ _ _ _
  have hnewshape : r'.GetShape r.heap.length = label_ref.shape := by
    have := Frame_shape_eq hf r.heap.length (by simp only [hlen5]; omega)
    rw [this]
    exact hshape
  have hlt' : r.heap.length < r'.heap.length := by
    have := hf.len_le
    simp only [hlen5] at this
    omega
  refine ⟨?_, ?_, ?_, hrec.valid⟩
  · intro k a h
    apply hrec.map_mono
    simp only [hfind5, h]
  · intro k a hk hk'
    by_cases hkk : env.GetID label_ref.shape = k
    · have h5 : mapFind (r.idComponentMap ++ [(env.GetID label_ref.shape, r.heap.length)]) k
          = some r.heap.length := by rw [hfind5, hk]; simp [hkk]
      have := hrec.map_mono k _ h5
      rw [hk'] at this
      cases this
      refine ⟨Nat.le_refl _, hlt', by rw [hnewshape]; exact hkk, ?_⟩
      intro b hb1 hb2
      omega
    · have h5 : mapFind (r.idComponentMap ++ [(env.GetID label_ref.shape, r.heap.length)]) k
          = none := by rw [hfind5, hk]; simp [hkk]
      obtain ⟨hle, hlt, hid, hfirst⟩ := hrec.map_new k a h5 hk'
      simp only [hlen5] at hle hfirst
      refine ⟨by omega, hlt, hid, ?_⟩
      intro b hb1 hb2
      rcases Nat.eq_or_lt_of_le hb1 with hb | hb
      · rw [← hb, hnewshape]; exact hkk
      · exact hfirst b hb hb2
  · intro b hb1 hb2
    rcases Nat.eq_or_lt_of_le hb1 with hb | hb
    · subst hb
      obtain ⟨c', hc', hs, _, horig, _, _⟩ := hf.parent (refComponent env trsf label_ref)
        (refPrep_new env r comp trsf label_ref hcomp)
      refine ⟨c', r.heap.length, hc', ?_, Or.inl ⟨rfl, by rw [horig]; rfl⟩⟩
      apply hrec.map_mono
      have : c'.shape = label_ref.shape := by rw [hs]; rfl
      simp only [hfind5, this, ho, if_true]
    · exact hrec.node_new b (by simp only [hlen5]; omega) hb2

theorem IsCopy_valid (env : Env) (r : Memory) (comp : Nat) (hcomp : comp < r.heap.length)
    (hv : r.MapValid) : (IsCopy env r comp).2.MapValid := by
  cases h : mapFind r.idComponentMap (env.GetID (r.GetShape comp)) with
  | none =>
    rw [IsCopy_none env r comp h]
    intro k a hk
    simp only [mapFind_append] at hk
    cases hk0 : mapFind r.idComponentMap k with
    | some v =>
      rw [hk0] at hk
      cases hk
      exact hv k _ hk0
    | none =>
      rw [hk0] at hk
      simp only at hk
      split at hk
      · cases hk; exact hcomp
      · cases hk
  | some o =>
    rw [IsCopy_some env r comp o h]
    exact MapValid_of_same r _ rfl (by simp [Memory.SetOriginalComponent, modifyAt_length]) hv

mutual
/-- A run of `AddSubComponents` on a valid component, from a valid index, keeps the entries
of the index, enters the first component of every new identity, and makes every later
component of an identity a copy of the entry, without children or units. -/
theorem AddSubComponents_mapPost (env : Env) (sd : STEP_Data) (opt : S2X_Option)
    (ct : ColorTool) :
    ∀ (label : Label) (r : Memory) (comp : Nat), comp < r.heap.length → r.MapValid →
      MapPost env r (AddSubComponents env sd opt ct r comp label)
  | .assembly nameText _ comps, r, comp, hcomp, hv => by
    rw [AddSubComponents_assembly]
    have hf0 := Frame_SetUniqueName comp r (GetName env nameText)
    have hv0 : (r.SetUniqueName comp (GetName env nameText)).MapValid :=
      MapValid_of_same r _ rfl hf0.len_le hv
    have hc0 : comp < (r.SetUniqueName comp (GetName env nameText)).heap.length :=
      Nat.lt_of_lt_of_le hcomp hf0.len_le
    exact MapPost_trans hcomp
      (MapPost_of_same env r (r.SetUniqueName comp (GetName env nameText)) rfl
        (by simp [Memory.SetUniqueName, modifyAt_length]) hv) hf0
      (AddSubComponentsSeq_mapPost env sd opt ct comps _ comp hc0 hv0)
      (AddSubComponentsSeq_frame env sd opt ct comps _ comp hc0)
  | .reference _ _ trsf label_ref, r, comp, hcomp, hv => by
    rw [AddSubComponents_reference]
    split
    · exact MapPost_of_same env r r rfl rfl hv
    · have hlen5 : (IsCopy env (refPrep env r comp trsf label_ref) r.heap.length).2.heap.length
          = r.heap.length + 1 := by rw [IsCopy_length, refPrep_length]
      have hshape : (refPrep env r comp trsf label_ref).GetShape r.heap.length = label_ref.shape :=
        GetShape_of_getElem? _ _ _ (refPrep_new env r comp trsf label_ref hcomp)
      cases ho : mapFind r.idComponentMap (env.GetID label_ref.shape) with
      | some o =>
        obtain ⟨hcopy, hpost⟩ := reference_copy_mapPost env r comp o trsf label_ref hcomp hv ho
        rw [hcopy]
        exact hpost
      | none =>
        have hcopy := IsCopy_none env (refPrep env r comp trsf label_ref) r.heap.length
          (by rw [hshape, refPrep_map]; exact ho)
        have h1 : (IsCopy env (refPrep env r comp trsf label_ref) r.heap.length).1 = false := by
          rw [hcopy]
        rw [h1]
        simp only [Bool.false_eq_true, if_false]
        have hc5 : r.heap.length
            < (IsCopy env (refPrep env r comp trsf label_ref) r.heap.length).2.heap.length := by
          rw [hlen5]; omega
        have hv5 : (IsCopy env (refPrep env r comp trsf label_ref) r.heap.length).2.MapValid :=
          IsCopy_valid env _ _ (by rw [refPrep_length]; omega)
            (MapValid_of_same r _ (refPrep_map env r comp trsf label_ref)
              (by rw [refPrep_length]; omega) hv)
        exact reference_first_mapPost env r _ comp trsf label_ref hcomp ho
          (AddSubComponents_frame env sd opt ct label_ref _ _ hc5)
          (AddSubComponents_mapPost env sd opt ct label_ref _ _ hc5 hv5)
  | .simpleShape _ shape, r, comp, _, hv => by
    rw [AddSubComponents_simpleShape]
    split
    · exact MapPost_of_same env r r rfl rfl hv
    · rw [AddIShapes_eq]
      exact MapPost_of_same env r _ rfl (by simp [modifyAt_length]) hv
  | .other _ _, r, comp, _, hv => by
    rw [AddSubComponents_other]
    exact MapPost_of_same env r r rfl rfl hv
/-- The same for the loop over the component labels of an assembly. -/
theorem AddSubComponentsSeq_mapPost (env : Env) (sd : STEP_Data) (opt : S2X_Option)
    (ct : ColorTool) :
    ∀ (labels : List Label) (r : Memory) (comp : Nat), comp < r.heap.length → r.MapValid →
      MapPost env r (AddSubComponentsSeq env sd opt ct r comp labels)
  | [], r, comp, _, hv => by
    rw [AddSubComponentsSeq]
    exact MapPost_of_same env r r rfl rfl hv
  | label_comp :: rest, r, comp, hcomp, hv => by
    rw [AddSubComponentsSeq]
    have hf1 := AddSubComponents_frame env sd opt ct label_comp r comp hcomp
    have h1 := AddSubComponents_mapPost env sd opt ct label_comp r comp hcomp hv
    have hc1 := Nat.lt_of_lt_of_le hcomp hf1.len_le
    exact MapPost_trans hcomp h1 hf1
      (AddSubComponentsSeq_mapPost env sd opt ct rest _ comp hc1 h1.valid)
      (AddSubComponentsSeq_frame env sd opt ct rest _ comp hc1)
end

/-! ## Properties of the assembly tree builder -/

/-- The duplicate law for one run of `AddSubComponents` that starts with an empty
duplicate-instance index: every component the run allocates is the one created for a
reference, in the order the references are met.  For two of them with the same shape
identity, `a` the first one met with that identity and `b` a later one: `a` has no
back-reference, and `b` has `a` as its back-reference and neither children nor units. -/
theorem AddSubComponents_duplicate_law (env : Env) (sd : STEP_Data) (opt : S2X_Option) (ct : ColorTool)
    (r : Memory) (comp : Nat) (label : Label) (a b : Nat)
    (hcomp : comp < r.heap.length) (hempty : r.idComponentMap = [])
    (ha : r.heap.length ≤ a) (hab : a < b)
    (hb : b < (AddSubComponents env sd opt ct r comp label).heap.length)
    (hid : env.GetID ((AddSubComponents env sd opt ct r comp label).GetShape a)
      = env.GetID ((AddSubComponents env sd opt ct r comp label).GetShape b))
    (hfirst : ∀ c, r.heap.length ≤ c → c < a →
      env.GetID ((AddSubComponents env sd opt ct r comp label).GetShape c)
        ≠ env.GetID ((AddSubComponents env sd opt ct r comp label).GetShape a)) :
    (∃ ca, (AddSubComponents env sd opt ct r comp label).heap[a]? = some ca
        ∧ ca.originalComponent = none)
      ∧ ∃ cb, (AddSubComponents env sd opt ct r comp label).heap[b]? = some cb
        ∧ cb.originalComponent = some a ∧ cb.subComponents = [] ∧ cb.iShapes = [] := by
  have hnone : ∀ k, mapFind r.idComponentMap k = none := by
    intro k; rw [hempty]; rfl
  have hv : r.MapValid := by
    intro k x h; rw [hnone k] at h; cases h
  have post := AddSubComponents_mapPost env sd opt ct label r comp hcomp hv
  -- the entry of the identity is the first component with it, which is `a`
  have hentry : ∀ x cx e, r.heap.length ≤ x →
      (AddSubComponents env sd opt ct r comp label).heap[x]? = some cx →
      env.GetID cx.shape
        = env.GetID ((AddSubComponents env sd opt ct r comp label).GetShape a) →
      mapFind (AddSubComponents env sd opt ct r comp label).idComponentMap (env.GetID cx.shape)
        = some e → e = a := by
    intro x cx e _ _ hk he
    obtain ⟨hle, _, hide, hfe⟩ := post.map_new _ e (hnone _) he
    rcases Nat.lt_trichotomy e a with h | h | h
    · exact absurd (hide.trans hk) (hfirst e hle h)
    · exact h
    · exact absurd hk.symm (hfe a ha h)
  constructor
  · obtain ⟨ca, e, hca, hfind, hcase⟩ := post.node_new a ha (Nat.lt_trans hab hb)
    have he : e = a := hentry a ca e ha hca
      (by rw [GetShape_of_getElem? _ a ca hca]) hfind
    subst he
    rcases hcase with ⟨_, horig⟩ | ⟨hlt, _⟩
    · exact ⟨ca, hca, horig⟩
    · exact absurd hlt (Nat.lt_irrefl _)
  · obtain ⟨cb, e, hcb, hfind, hcase⟩ := post.node_new b (Nat.le_of_lt (Nat.lt_of_le_of_lt ha hab)) hb
    have he : e = a := hentry b cb e (Nat.le_of_lt (Nat.lt_of_le_of_lt ha hab)) hcb
      (by rw [hid, GetShape_of_getElem? _ b cb hcb]) hfind
    subst he
    rcases hcase with ⟨heq, _⟩ | ⟨_, horig, hsub, hun⟩
    · omega
    · exact ⟨cb, hcb, horig, hsub, hun⟩

/-- One run at a sample input: an assembly of three placements of one part; the third
component is a copy of the first. -/
theorem AddSubComponents_duplicate_law_sample :
    (∃ ca, (AddSubComponents Env.plain STEP_Data.plain ⟨false, true⟩ sampleColorTool sampleMemory
          0 sampleAssembly).heap[1]? = some ca ∧ ca.originalComponent = none)
      ∧ ∃ cb, (AddSubComponents Env.plain STEP_Data.plain ⟨false, true⟩ sampleColorTool
          sampleMemory 0 sampleAssembly).heap[3]? = some cb
        ∧ cb.originalComponent = some 1 ∧ cb.subComponents = [] ∧ cb.iShapes = [] :=
  AddSubComponents_duplicate_law Env.plain STEP_Data.plain ⟨false, true⟩ sampleColorTool sampleMemory 0
    sampleAssembly 1 3 (by decide) rfl (by decide) (by decide) (by decide) (by decide)
    (fun c h1 h2 => absurd h1 (by
      have : sampleMemory.heap.length = 1 := rfl
      omega))

/-- C9 (an assembly introduces no node): for an assembly label `AddSubComponents` is the
run of `AddSubComponents` on every component label in order, with the same parent, from
the memory in which the parent has got the name of the label; naming allocates no
component, leaves the index and every other component as they are, and changes only the
name of the parent. -/
theorem C9_assembly_no_node (env : Env) (sd : STEP_Data) (opt : S2X_Option) (ct : ColorTool)
    (r : Memory) (comp : Nat) (nameText : WString) (shape : Shape) (comps : List Label) :
    AddSubComponents env sd opt ct r comp (.assembly nameText shape comps) =
        comps.foldl (fun r label_comp => AddSubComponents env sd opt ct r comp label_comp)
          (r.SetUniqueName comp (GetName env nameText))
      ∧ (r.SetUniqueName comp (GetName env nameText)).heap.length = r.heap.length
      ∧ (r.SetUniqueName comp (GetName env nameText)).idComponentMap = r.idComponentMap
      ∧ (∀ a, a ≠ comp → (r.SetUniqueName comp (GetName env nameText)).heap[a]? = r.heap[a]?)
      ∧ (r.SetUniqueName comp (GetName env nameText)).heap[comp]? =
        (r.heap[comp]?).map (fun c => { c with uniqueName := GetName env nameText }) := by
  refine ⟨?_, ?_, rfl, ?_, ?_⟩
  · rw [AddSubComponents_assembly, AddSubComponentsSeq_eq_foldl]
  · simp [Memory.SetUniqueName, modifyAt_length]
  · intro a ha
    simp only [Memory.SetUniqueName, modifyAt_getElem?, if_neg ha]
  · simp only [Memory.SetUniqueName, modifyAt_getElem?, if_pos]

/-- A reference whose referred shape is not empty and whose identity is in the index: the
run allocates the copy and stops. -/
theorem reference_copy_result (env : Env) (sd : STEP_Data) (opt : S2X_Option) (ct : ColorTool)
    (r : Memory) (comp o : Nat) (nameText : WString) (shape : Shape) (trsf : gp_Trsf)
    (label_ref : Label) (hcomp : comp < r.heap.length) (hv : r.MapValid)
    (hne : IsEmpty env opt label_ref.shape = false)
    (ho : mapFind r.idComponentMap (env.GetID label_ref.shape) = some o) :
    AddSubComponents env sd opt ct r comp (.reference nameText shape trsf label_ref) =
      (refPrep env r comp trsf label_ref).SetOriginalComponent r.heap.length o := by
  rw [AddSubComponents_reference, hne]
  simp only [Bool.false_eq_true, if_false]
  rw [(reference_copy_mapPost env r comp o trsf label_ref hcomp hv ho).1]
  simp

/-- A reference whose referred shape is not empty and whose identity is not in the index:
the new component is entered in the index and has no back-reference. -/
theorem reference_first_result (env : Env) (sd : STEP_Data) (opt : S2X_Option) (ct : ColorTool)
    (r : Memory) (comp : Nat) (nameText : WString) (shape : Shape) (trsf : gp_Trsf)
    (label_ref : Label) (hcomp : comp < r.heap.length) (hv : r.MapValid)
    (hne : IsEmpty env opt label_ref.shape = false)
    (ho : mapFind r.idComponentMap (env.GetID label_ref.shape) = none) :
    mapFind (AddSubComponents env sd opt ct r comp
        (.reference nameText shape trsf label_ref)).idComponentMap (env.GetID label_ref.shape)
        = some r.heap.length
      ∧ ∃ c1, (AddSubComponents env sd opt ct r comp
          (.reference nameText shape trsf label_ref)).heap[r.heap.length]? = some c1
        ∧ c1.shape = label_ref.shape ∧ c1.trsf = trsf ∧ c1.originalComponent = none := by
  have post := AddSubComponents_mapPost env sd opt ct (.reference nameText shape trsf label_ref)
    r comp hcomp hv
  have hstep : (∃ c', (AddSubComponents env sd opt ct r comp
        (.reference nameText shape trsf label_ref)).heap[r.heap.length]? = some c'
        ∧ c'.shape = label_ref.shape ∧ c'.trsf = trsf)
      ∧ r.heap.length < (AddSubComponents env sd opt ct r comp
        (.reference nameText shape trsf label_ref)).heap.length := by
    rw [AddSubComponents_reference, hne]
    simp only [Bool.false_eq_true, if_false]
    have hlen5 : (IsCopy env (refPrep env r comp trsf label_ref) r.heap.length).2.heap.length
        = r.heap.length + 1 := by rw [IsCopy_length, refPrep_length]
    split
    · exact (reference_step env r _ comp trsf label_ref hcomp (Frame_refl _ _)).2.2
    · exact (reference_step env r _ comp trsf label_ref hcomp
        (AddSubComponents_frame env sd opt ct label_ref _ _ (by rw [hlen5]; omega))).2.2
  obtain ⟨⟨c', hc', hs', ht'⟩, hlt⟩ := hstep
  obtain ⟨cb, e, hcb, hfind, hcase⟩ := post.node_new r.heap.length (Nat.le_refl _) hlt
  rw [hc'] at hcb
  cases hcb
  rw [hs'] at hfind
  obtain ⟨hle, _⟩ := post.map_new _ e ho hfind
  rcases hcase with ⟨heq, horig⟩ | ⟨hlt', _⟩
  · rw [heq] at hfind
    exact ⟨hfind, c', hc', hs', ht', horig⟩
  · omega

/-- C7 (instances are always attached): for a reference label whose referred shape is not
empty, `AddSubComponents` appends exactly one child to the parent, a component allocated
by the run that carries the referred shape and the placement of the reference, and changes
nothing else of the parent nor any other component allocated before, whether or not the
identity of the referred shape is in the index.  Hence an assembly of two references to
the same part, whose identity is not in the index yet, gives the parent two children in
order, with the two placements, the second one a copy of the first without children or
units. -/
theorem C7_instances_attached (env : Env) (sd : STEP_Data) (opt : S2X_Option) (ct : ColorTool)
    (r : Memory) (comp : Nat) (c : Component) (hc : r.heap[comp]? = some c) :
    (∀ nameText shape trsf label_ref, IsEmpty env opt label_ref.shape = false →
        (AddSubComponents env sd opt ct r comp
            (.reference nameText shape trsf label_ref)).heap[comp]?
          = some { c with subComponents := c.subComponents ++ [r.heap.length] }
        ∧ (∃ c', (AddSubComponents env sd opt ct r comp
              (.reference nameText shape trsf label_ref)).heap[r.heap.length]? = some c'
            ∧ c'.shape = label_ref.shape ∧ c'.trsf = trsf)
        ∧ (∀ a, a < r.heap.length → a ≠ comp →
            (AddSubComponents env sd opt ct r comp
              (.reference nameText shape trsf label_ref)).heap[a]? = r.heap[a]?))
      ∧ (∀ nameText shape n1 s1 t1 n2 s2 t2 part, r.MapValid →
        IsEmpty env opt part.shape = false →
        mapFind r.idComponentMap (env.GetID part.shape) = none →
        ∃ a2 cp c1 c2, r.heap.length < a2
          ∧ (AddSubComponents env sd opt ct r comp (.assembly nameText shape
              [.reference n1 s1 t1 part, .reference n2 s2 t2 part])).heap[comp]? = some cp
          ∧ cp.subComponents = c.subComponents ++ [r.heap.length, a2]
          ∧ (AddSubComponents env sd opt ct r comp (.assembly nameText shape
              [.reference n1 s1 t1 part, .reference n2 s2 t2 part])).heap[r.heap.length]?
            = some c1
          ∧ c1.trsf = t1 ∧ c1.originalComponent = none
          ∧ (AddSubComponents env sd opt ct r comp (.assembly nameText shape
              [.reference n1 s1 t1 part, .reference n2 s2 t2 part])).heap[a2]? = some c2
          ∧ c2.trsf = t2 ∧ c2.originalComponent = some r.heap.length
          ∧ c2.subComponents = [] ∧ c2.iShapes = []) := by
  have key : ∀ (r : Memory) (c : Component), r.heap[comp]? = some c →
      ∀ nameText shape trsf label_ref, IsEmpty env opt label_ref.shape = false →
        (AddSubComponents env sd opt ct r comp
            (.reference nameText shape trsf label_ref)).heap[comp]?
          = some { c with subComponents := c.subComponents ++ [r.heap.length] }
        ∧ (∃ c', (AddSubComponents env sd opt ct r comp
              (.reference nameText shape trsf label_ref)).heap[r.heap.length]? = some c'
            ∧ c'.shape = label_ref.shape ∧ c'.trsf = trsf)
        ∧ (∀ a, a < r.heap.length → a ≠ comp →
            (AddSubComponents env sd opt ct r comp
              (.reference nameText shape trsf label_ref)).heap[a]? = r.heap[a]?) := by
    intro r c hc nameText shape trsf label_ref hne
    have hcomp := getElem?_lt hc
    rw [AddSubComponents_reference, hne]
    simp only [Bool.false_eq_true, if_false]
    have hlen5 : (IsCopy env (refPrep env r comp trsf label_ref) r.heap.length).2.heap.length
        = r.heap.length + 1 := by rw [IsCopy_length, refPrep_length]
    split
    · obtain ⟨hf, hp, hn, _⟩ := reference_step env r _ comp trsf label_ref hcomp (Frame_refl _ _)
      exact ⟨hp c hc, hn, hf.frame⟩
    · obtain ⟨hf, hp, hn, _⟩ := reference_step env r _ comp trsf label_ref hcomp
        (AddSubComponents_frame env sd opt ct label_ref _ _ (by rw [hlen5]; omega))
      exact ⟨hp c hc, hn, hf.frame⟩
  refine ⟨key r c hc, ?_⟩
  intro nameText shape n1 s1 t1 n2 s2 t2 part hv hne hnone
  have hcomp := getElem?_lt hc
  rw [AddSubComponents_assembly, AddSubComponentsSeq, AddSubComponentsSeq, AddSubComponentsSeq]
  -- the memory after the parent is named
  have hlen0 : (r.SetUniqueName comp (GetName env nameText)).heap.length = r.heap.length := by
    simp [Memory.SetUniqueName, modifyAt_length]
  have hc0 : (r.SetUniqueName comp (GetName env nameText)).heap[comp]?
      = some { c with uniqueName := GetName env nameText } := by
    simp only [Memory.SetUniqueName, modifyAt_getElem?, if_pos, hc, Option.map_some']
  have hv0 : (r.SetUniqueName comp (GetName env nameText)).MapValid :=
    MapValid_of_same r _ rfl (Nat.le_of_eq hlen0.symm) hv
  have hcomp0 : comp < (r.SetUniqueName comp (GetName env nameText)).heap.length := by
    rw [hlen0]; exact hcomp
  -- the first reference
  obtain ⟨hp1, _, _⟩ := key _ _ hc0 n1 s1 t1 part hne
  obtain ⟨hfind1, c1, hc1, _, ht1, ho1⟩ := reference_first_result env sd opt ct
    (r.SetUniqueName comp (GetName env nameText)) comp n1 s1 t1 part hcomp0 hv0 hne hnone
  have post1 := AddSubComponents_mapPost env sd opt ct (.reference n1 s1 t1 part) _ comp hcomp0 hv0
  have hf1 := AddSubComponents_frame env sd opt ct (.reference n1 s1 t1 part) _ comp hcomp0
  rw [hlen0] at hp1 hfind1 hc1
  have hlt1 := getElem?_lt hc1
  have hcomp1 := getElem?_lt hp1
  -- the second reference
  obtain ⟨hp2, _, hold2⟩ := key _ _ hp1 n2 s2 t2 part hne
  have hres2 := reference_copy_result env sd opt ct _ comp r.heap.length n2 s2 t2 part hcomp1
    post1.valid hne hfind1
  refine ⟨_, _, c1, { refComponent env t2 part with originalComponent := some r.heap.length }, hlt1,
    hp2, by simp, ?_, ht1, ho1, ?_, rfl, rfl, rfl, rfl⟩
  · rw [hold2 r.heap.length hlt1 (Nat.ne_of_gt hcomp)]
    exact hc1
  · rw [hres2]
    simp only [Memory.SetOriginalComponent, modifyAt_getElem?, if_pos,
      refPrep_new env _ comp t2 part hcomp1, Option.map_some']

/-- C7 at sample inputs: one reference, and an assembly of two references to one part. -/
theorem C7_instances_attached_witness :
    ((AddSubComponents Env.plain STEP_Data.plain ⟨false, true⟩ sampleColorTool sampleMemory 0
          (.reference [] sampleCompound ⟨7⟩ samplePart)).heap[0]?
        = some { Component.new sampleCompound with subComponents := [1] }
      ∧ (∃ c', (AddSubComponents Env.plain STEP_Data.plain ⟨false, true⟩ sampleColorTool
            sampleMemory 0 (.reference [] sampleCompound ⟨7⟩ samplePart)).heap[1]? = some c'
          ∧ c'.shape = sampleCompound ∧ c'.trsf = ⟨7⟩))
      ∧ ∃ a2 cp c1 c2, 1 < a2
        ∧ (AddSubComponents Env.plain STEP_Data.plain ⟨false, true⟩ sampleColorTool sampleMemory
            0 (.assembly [] sampleCompound [.reference [] sampleCompound ⟨1⟩ samplePart,
              .reference [] sampleCompound ⟨2⟩ samplePart])).heap[0]? = some cp
        ∧ cp.subComponents = [1, a2]
        ∧ (AddSubComponents Env.plain STEP_Data.plain ⟨false, true⟩ sampleColorTool sampleMemory
            0 (.assembly [] sampleCompound [.reference [] sampleCompound ⟨1⟩ samplePart,
              .reference [] sampleCompound ⟨2⟩ samplePart])).heap[1]? = some c1
        ∧ c1.trsf = ⟨1⟩ ∧ c1.originalComponent = none
        ∧ (AddSubComponents Env.plain STEP_Data.plain ⟨false, true⟩ sampleColorTool sampleMemory
            0 (.assembly [] sampleCompound [.reference [] sampleCompound ⟨1⟩ samplePart,
              .reference [] sampleCompound ⟨2⟩ samplePart])).heap[a2]? = some c2
        ∧ c2.trsf = ⟨2⟩ ∧ c2.originalComponent = some 1
        ∧ c2.subComponents = [] ∧ c2.iShapes = [] :=
  ⟨⟨((C7_instances_attached Env.plain STEP_Data.plain ⟨false, true⟩ sampleColorTool sampleMemory
        0 (Component.new sampleCompound) rfl).1 [] sampleCompound ⟨7⟩ samplePart (by decide)).1,
      ((C7_instances_attached Env.plain STEP_Data.plain ⟨false, true⟩ sampleColorTool sampleMemory
        0 (Component.new sampleCompound) rfl).1 [] sampleCompound ⟨7⟩ samplePart (by decide)).2.1⟩,
    (C7_instances_attached Env.plain STEP_Data.plain ⟨false, true⟩ sampleColorTool sampleMemory 0
      (Component.new sampleCompound) rfl).2 [] sampleCompound [] sampleCompound ⟨1⟩ []
      sampleCompound ⟨2⟩ samplePart (fun _ _ h => by cases h) (by decide) rfl⟩
theorem AllUnits_iff (P : IShape → Prop) (r : Memory) :
    r.AllUnits P ↔ ∀ (a : Nat) (c : Component), r.heap[a]? = some c → ∀ u ∈ c.iShapes, P u := by
  unfold Memory.AllUnits
  constructor
  · intro h a c hc
    exact h c (List.getElem?_mem hc)
  · intro h c hc
    obtain ⟨a, ha⟩ := List.mem_iff_getElem?.1 hc
    exact h a c ha

theorem AllUnits_modifyAt (P : IShape → Prop) (r r' : Memory) (a : Nat)
    (f : Component → Component) (hheap : r'.heap = modifyAt r.heap a f)
    (hf : ∀ c, (∀ u ∈ c.iShapes, P u) → ∀ u ∈ (f c).iShapes, P u) (h : r.AllUnits P) :
    r'.AllUnits P := by
  rw [AllUnits_iff] at h ⊢
  intro b c hc
  rw [hheap, modifyAt_getElem?] at hc
  split at hc
  · rename_i hb
    cases hx : r.heap[a]? with
    | none => rw [hx] at hc; cases hc
    | some c0 =>
      rw [hx] at hc
      cases hc
      exact hf c0 (h a c0 hx)
  · exact h b c hc

theorem AllUnits_refPrep (P : IShape → Prop) (env : Env) (r : Memory) (comp : Nat) (trsf : gp_Trsf)
    (label_ref : Label) (h : r.AllUnits P) : (refPrep env r comp trsf label_ref).AllUnits P := by
  apply AllUnits_modifyAt P ⟨r.heap ++ [refComponent env trsf label_ref], r.idComponentMap⟩ _ comp _
    (refPrep_heap env r comp trsf label_ref) (fun c hc => hc)
  intro c hc u hu
  simp only [List.mem_append, List.mem_singleton] at hc
  rcases hc with hc | hc
  · exact h c hc u hu
  · subst hc
    simp [refComponent] at hu

theorem AllUnits_IsCopy (P : IShape → Prop) (env : Env) (r : Memory) (comp : Nat)
    (h : r.AllUnits P) : (IsCopy env r comp).2.AllUnits P := by
  cases hm : mapFind r.idComponentMap (env.GetID (r.GetShape comp)) with
  | none => rw [IsCopy_none env r comp hm]; exact h
  | some o =>
    rw [IsCopy_some env r comp o hm]
    exact AllUnits_modifyAt P r _ comp _ rfl (fun c hc => hc) h

theorem IsEmpty_false_sketch_off (env : Env) (opt : S2X_Option) (shape : Shape)
    (hsketch : opt.Sketch = false) (h : ¬ IsEmpty env opt shape = true) :
    env.HasFace shape = true := by
  unfold IsEmpty at h
  rw [hsketch] at h
  cases hf : env.HasFace shape
  · simp [hf] at h
  · rfl

mutual
/-- With sketch mode off, a run of `AddSubComponents` on a label of the tree under `root` only
attaches units that come from a label of that tree whose whole shape has a face. -/
theorem AddSubComponents_units (env : Env) (sd : STEP_Data) (opt : S2X_Option) (ct : ColorTool)
    (hsketch : opt.Sketch = false) (root : Label) (P : IShape → Prop) :
    ∀ (label : Label) (r : Memory) (comp : Nat), Label.Below root label →
      r.AllUnits (fun u => P u ∨ FromFacedLabel env sd opt root u) →
      (AddSubComponents env sd opt ct r comp label).AllUnits
        (fun u => P u ∨ FromFacedLabel env sd opt root u)
  | .assembly nameText shape comps, r, comp, hl, h => by
    rw [AddSubComponents_assembly]
    exact AddSubComponentsSeq_units env sd opt ct hsketch root P comps _ comp
      (fun m hm => Label.Below.comp nameText shape comps m hl hm)
      (AllUnits_modifyAt _ r _ comp _ rfl (fun c hc => hc) h)
  | .reference nameText shape trsf label_ref, r, comp, hl, h => by
    rw [AddSubComponents_reference]
    split
    · exact h
    · have h5 := AllUnits_IsCopy _ env _ r.heap.length
        (AllUnits_refPrep _ env r comp trsf label_ref h)
      split
      · exact h5
      · exact AddSubComponents_units env sd opt ct hsketch root P label_ref _ _
          (Label.Below.ref nameText shape trsf label_ref hl) h5
  | .simpleShape nameText shape, r, comp, hl, h => by
    rw [AddSubComponents_simpleShape]
    split
    · exact h
    · rename_i hne
      rw [AddIShapes_eq]
      apply AllUnits_modifyAt _ r _ comp _ rfl _ h
      intro c hc u hu
      simp only [List.mem_append] at hu
      rcases hu with hu | hu
      · exact hc u hu
      · unfold newUnits at hu
        simp only [List.mem_map] at hu
        obtain ⟨s, hs, rfl⟩ := hu
        refine Or.inr ⟨nameText, shape, hl,
          IsEmpty_false_sketch_off env opt shape hsketch hne, ?_⟩
        rw [AddColors_shape]
        exact hs
  | .other _ _, r, comp, _, h => by
    rw [AddSubComponents_other]
    exact h
/-- The same for the loop over the component labels of an assembly. -/
theorem AddSubComponentsSeq_units (env : Env) (sd : STEP_Data) (opt : S2X_Option)
    (ct : ColorTool) (hsketch : opt.Sketch = false) (root : Label) (P : IShape → Prop) :
    ∀ (labels : List Label) (r : Memory) (comp : Nat), (∀ m, m ∈ labels → Label.Below root m) →
      r.AllUnits (fun u => P u ∨ FromFacedLabel env sd opt root u) →
      (AddSubComponentsSeq env sd opt ct r comp labels).AllUnits
        (fun u => P u ∨ FromFacedLabel env sd opt root u)
  | [], r, comp, _, h => by
    rw [AddSubComponentsSeq]
    exact h
  | label_comp :: rest, r, comp, hl, h => by
    rw [AddSubComponentsSeq]
    exact AddSubComponentsSeq_units env sd opt ct hsketch root P rest _ comp
      (fun m hm => hl m (List.mem_cons_of_mem _ hm))
      (AddSubComponents_units env sd opt ct hsketch root P label_comp r comp
        (hl label_comp (List.mem_cons_self _ _)) h)
end

/-- C4, as the claim states it, fails: with sketch mode off, the simple shape whose shape is
a compound of a shell with two faces and a shell without faces passes `IsEmpty`, and
`AddSubComponents` attaches the shell without faces as a unit. -/
theorem C4_counterexample :
    IsEmpty Env.plain ⟨false, true⟩ sampleCompound = false
      ∧ ¬ (AddSubComponents Env.plain STEP_Data.plain ⟨false, true⟩ sampleColorTool sampleMemory 0
          (.simpleShape [] sampleCompound)).AllUnits (fun u => Env.plain.HasFace u.shape = true) := by
  refine ⟨by decide, ?_⟩
  intro h
  have h1 := h { Component.new sampleCompound with
      iShapes := newUnits Env.plain ⟨false, true⟩ sampleColorTool [sampleShell, sampleEmptyShell] }
    (by decide) (IShape.new Env.plain sampleEmptyShell) (by decide)
  revert h1
  decide

/-- C4 (emptiness law, amended): with sketch mode off, every unit that a run of
`AddSubComponents` on a label attaches comes from a simple-shape label, the label itself or
one below it in the label tree, whose whole shape has at least one face, and is one of the
sub shapes `GetSubShapes` yields for that shape (the units in the memory before the run are
the ones that satisfy `P`); and a simple shape or a reference whose whole shape has no face
changes nothing. -/
theorem C4_units_from_faced_labels (env : Env) (sd : STEP_Data) (opt : S2X_Option)
    (ct : ColorTool) (r : Memory) (comp : Nat) (hsketch : opt.Sketch = false) :
    (∀ (label : Label) (P : IShape → Prop), r.AllUnits P →
        (AddSubComponents env sd opt ct r comp label).AllUnits
          (fun u => P u ∨ FromFacedLabel env sd opt label u))
      ∧ (∀ nameText shape, env.HasFace shape = false →
        AddSubComponents env sd opt ct r comp (.simpleShape nameText shape) = r)
      ∧ (∀ nameText shape trsf label_ref, env.HasFace label_ref.shape = false →
        AddSubComponents env sd opt ct r comp (.reference nameText shape trsf label_ref) = r) := by
  refine ⟨fun label P h => AddSubComponents_units env sd opt ct hsketch label P label r comp
    Label.Below.here (fun c hc u hu => Or.inl (h c hc u hu)), ?_, ?_⟩
  · intro nameText shape hf
    rw [AddSubComponents_simpleShape]
    have : IsEmpty env opt shape = true := by simp [IsEmpty, hsketch, hf]
    rw [this]; rfl
  · intro nameText shape trsf label_ref hf
    rw [AddSubComponents_reference]
    have : IsEmpty env opt label_ref.shape = true := by simp [IsEmpty, hsketch, hf]
    rw [this]; rfl

/-- C4 (amended) at sample inputs: the sample assembly on a memory without units, where every
unit comes from the part, the simple-shape label below the references, and a simple shape
without faces. -/
theorem C4_units_from_faced_labels_witness :
    (AddSubComponents Env.plain STEP_Data.plain ⟨false, true⟩ sampleColorTool sampleMemory 0
        sampleAssembly).AllUnits
          (fun u => False ∨ FromFacedLabel Env.plain STEP_Data.plain ⟨false, true⟩ sampleAssembly u)
      ∧ AddSubComponents Env.plain STEP_Data.plain ⟨false, true⟩ sampleColorTool sampleMemory 0
        (.simpleShape [] sampleWires) = sampleMemory :=
  ⟨(C4_units_from_faced_labels Env.plain STEP_Data.plain ⟨false, true⟩ sampleColorTool
      sampleMemory 0 rfl).1 sampleAssembly (fun _ => False) (fun c hc u hu => by
        have : c = Component.new sampleCompound := by simpa [sampleMemory] using hc
        subst this
        cases hu),
    (C4_units_from_faced_labels Env.plain STEP_Data.plain ⟨false, true⟩ sampleColorTool
      sampleMemory 0 rfl).2.1 [] sampleWires (by decide)⟩

/-! ## Properties of the read orchestrator -/

/-- The color option after `UpdateColorOption`: it stays on exactly when it was on, the
color tool is set and the document of the color tool defines a color. -/
theorem UpdateColorOption_color (rd : STEP_Reader) :
    (UpdateColorOption rd).opt.Color =
      (rd.opt.Color && match rd.colorTool with
        | none => false
        | some ct => decide (ct.colorCount ≠ 0)) := by
  unfold UpdateColorOption
  cases hc : rd.opt.Color
  · simp [hc]
  · cases ht : rd.colorTool with
    | none => simp
    | some ct =>
      by_cases h0 : ct.colorCount = 0
      · simp [h0]
      · simp [h0, hc]

theorem UpdateColorOption_mem (rd : STEP_Reader) : (UpdateColorOption rd).mem = rd.mem := by
  unfold UpdateColorOption
  split
  · rfl
  · split
    · rfl
    · split <;> rfl

theorem finish_rd (modelIsEmpty : List Component → Model → Bool) (st : ReadState) :
    (ReadSTEP.finish modelIsEmpty st).2.rd = st.rd := by
  unfold ReadSTEP.finish
  simp only
  split <;> rfl

theorem finish_model (modelIsEmpty : List Component → Model → Bool) (st : ReadState) :
    (ReadSTEP.finish modelIsEmpty st).2.model = st.model := by
  unfold ReadSTEP.finish
  simp only
  split <;> rfl

/-- The degraded path, when the plain reader reads the file and transfers its root: the
model holds exactly one root, a component allocated by the handler that wraps the root shape
as one unit without color entries, and the color option is as `UpdateColorOption` leaves
it. -/
theorem catchNumericError_done (env : Env) (plain : PlainRead) (st : ReadState)
    (hread : plain.readFile = .RetDone) (htransfer : plain.transferRoot = true) :
    ∃ st', ReadSTEP.catchNumericError env plain st = .completed st'
      ∧ st'.model.roots = [st.rd.mem.heap.length]
      ∧ st'.rd.mem.heap[st.rd.mem.heap.length]? =
        some { Component.new plain.shape with iShapes := [IShape.new env plain.shape] }
      ∧ (IShape.new env plain.shape).colors = []
      ∧ st'.rd.opt.Color = (UpdateColorOption st.rd).opt.Color := by
  unfold ReadSTEP.catchNumericError
  rw [hread, htransfer]
  refine ⟨_, rfl, ?_, ?_, rfl, rfl⟩
  · simp [Model.Clear, Model.AddRootComponent, Memory.alloc, UpdateColorOption_mem]
  · simp only [Memory.alloc, Memory.AddIShape, UpdateColorOption_mem, modifyAt_getElem?, if_pos]
    simp [Component.new]

/-- C10 fails on the code: the numeric fault is raised on the primary path while the first
free shape of a document with colors is processed (or by the transfer, in a reader whose
color tool is left from an earlier read), the plain reader then reads the file and
transfers its root, and `ReadSTEP` returns with the color option still on; the model
holds one root with one unit without colors. -/
theorem C10_color_option_stays_on (modelIsEmpty : List Component → Model → Bool) :
    ((ReadSTEP Env.plain modelIsEmpty sampleFaultInTree samplePlainRead sampleNewReader).2.rd.opt.Color
        = true
      ∧ (ReadSTEP Env.plain modelIsEmpty sampleFaultInTree samplePlainRead
          sampleNewReader).2.model.roots = [1]
      ∧ (ReadSTEP Env.plain modelIsEmpty sampleFaultInTree samplePlainRead
          sampleNewReader).2.rd.mem.heap[1]? =
        some { Component.new sampleCompound with
          iShapes := [{ shape := sampleCompound, faceSet := true, colors := [] }] })
      ∧ (ReadSTEP Env.plain modelIsEmpty sampleFaultInTransfer samplePlainRead
          sampleUsedReader).2.rd.opt.Color = true := by
  have h1 : ∃ st', ReadSTEP Env.plain modelIsEmpty sampleFaultInTree samplePlainRead
        sampleNewReader = ReadSTEP.finish modelIsEmpty st'
      ∧ st'.rd.opt.Color = true ∧ st'.model.roots = [1]
      ∧ st'.rd.mem.heap[1]? = some { Component.new sampleCompound with
          iShapes := [{ shape := sampleCompound, faceSet := true, colors := [] }] } :=
    ⟨_, rfl, rfl, rfl, rfl⟩
  have h2 : ∃ st', ReadSTEP Env.plain modelIsEmpty sampleFaultInTransfer samplePlainRead
        sampleUsedReader = ReadSTEP.finish modelIsEmpty st'
      ∧ st'.rd.opt.Color = true :=
    ⟨_, rfl, rfl⟩
  obtain ⟨st1, e1, hc1, hr1, hh1⟩ := h1
  obtain ⟨st2, e2, hc2⟩ := h2
  rw [e1, e2]
  simp only [finish_rd, finish_model]
  exact ⟨⟨hc1, hr1, hh1⟩, hc2⟩

/-! ## Further properties of the shape classifier -/

theorem GetSubShapesKids_cons (env : Env) (sd : STEP_Data) (opt : S2X_Option) (k : Shape)
    (rest out : List Shape) :
    GetSubShapesKids env sd opt (k :: rest) out =
      GetSubShapesKids env sd opt rest (GetSubShapes env sd opt k out) := by
  rw [GetSubShapesKids]

/-- The branch of `GetSubShapes` for a shape that is no compound. -/
theorem GetSubShapes_not_compound (env : Env) (sd : STEP_Data) (opt : S2X_Option) (tag : Nat)
    (ty : ShapeEnum) (kids out : List Shape) (hty : ty ≠ .COMPOUND) :
    GetSubShapes env sd opt (.mk tag ty kids) out =
      if ty = .COMPSOLID ∨ ty = .SOLID ∨ ty = .SHELL then out ++ [.mk tag ty kids] else out := by
  rw [GetSubShapes]
  simp only [hty, if_false]

mutual
/-- The units `GetSubShapes` appends do not depend on the units that are already there. -/
theorem GetSubShapes_append (env : Env) (sd : STEP_Data) (opt : S2X_Option) :
    ∀ (s : Shape) (out : List Shape),
      GetSubShapes env sd opt s out = out ++ GetSubShapes env sd opt s []
  | .null, out => by simp [GetSubShapes]
  | .mk tag ty kids, out => by
    by_cases hty : ty = .COMPOUND
    · subst hty
      rw [GetSubShapes_compound, GetSubShapes_compound env sd opt tag kids []]
      split
      · split <;> simp
      · split
        · simp
        · split
          · simp
          · exact GetSubShapesKids_append env sd opt kids out
    · rw [GetSubShapes_not_compound env sd opt tag ty kids out hty,
        GetSubShapes_not_compound env sd opt tag ty kids [] hty]
      split <;> simp
/-- The same for the loop over the children of a compound. -/
theorem GetSubShapesKids_append (env : Env) (sd : STEP_Data) (opt : S2X_Option) :
    ∀ (kids : List Shape) (out : List Shape),
      GetSubShapesKids env sd opt kids out = out ++ GetSubShapesKids env sd opt kids []
  | [], out => by simp [GetSubShapesKids]
  | k :: rest, out => by
    rw [GetSubShapesKids_cons, GetSubShapesKids_cons]
    rw [GetSubShapesKids_append env sd opt rest (GetSubShapes env sd opt k out),
      GetSubShapesKids_append env sd opt rest (GetSubShapes env sd opt k []),
      GetSubShapes_append env sd opt k out]
    simp
end

/-- The loop over the children yields the concatenation of what every child yields. -/
theorem GetSubShapesKids_eq_flatten (env : Env) (sd : STEP_Data) (opt : S2X_Option)
    (kids : List Shape) :
    GetSubShapesKids env sd opt kids [] = (kids.map (fun k => GetSubShapes env sd opt k [])).flatten := by
  induction kids with
  | nil => simp [GetSubShapesKids]
  | cons k rest ih =>
    rw [GetSubShapesKids_cons, GetSubShapesKids_append, ih]
    simp

/-- C17 (order-preserving recursion): for a compound that is neither a free wire/edge group
nor a solid or surface model, `GetSubShapes` keeps the units already in the output in
front, unchanged, and appends, when the compound is no mapped item, the concatenation in
child order of what `GetSubShapes` yields for every immediate child, and nothing when the
compound is a mapped item. -/
theorem C17_order_preserving_recursion (env : Env) (sd : STEP_Data) (opt : S2X_Option)
    (tag : Nat) (kids out : List Shape)
    (hfree : env.IsFreeEdge (.mk tag .COMPOUND kids) = false)
    (hsolid : sd.IsSolidModel (.mk tag .COMPOUND kids) = false)
    (hsurf : sd.IsSurfaceModel (.mk tag .COMPOUND kids) = false) :
    (sd.IsMappedItem (.mk tag .COMPOUND kids) = false →
        GetSubShapes env sd opt (.mk tag .COMPOUND kids) out =
          out ++ (kids.map (fun k => GetSubShapes env sd opt k [])).flatten)
      ∧ (sd.IsMappedItem (.mk tag .COMPOUND kids) = true →
        GetSubShapes env sd opt (.mk tag .COMPOUND kids) out = out) := by
  rw [GetSubShapes_compound, hfree, hsolid, hsurf]
  constructor
  · intro h
    simp only [h, Bool.false_eq_true, if_false, Bool.or_self]
    rw [GetSubShapesKids_append, GetSubShapesKids_eq_flatten]
  · intro h
    simp [h]

/-- C17 at sample inputs: a compound of a solid, a face and a nested compound, as a generic
compound and as a mapped item. -/
theorem C17_order_preserving_recursion_witness :
    GetSubShapes Env.plain STEP_Data.plain ⟨false, true⟩ sampleMixed [sampleEmptyShell] =
        [sampleEmptyShell, sampleSolid, sampleShell]
      ∧ GetSubShapes Env.plain sampleMappedData ⟨false, true⟩ sampleMixed [sampleEmptyShell] =
        [sampleEmptyShell] :=
  ⟨(C17_order_preserving_recursion Env.plain STEP_Data.plain ⟨false, true⟩ 40 _
      [sampleEmptyShell] (by decide) rfl rfl).1 rfl,
    (C17_order_preserving_recursion Env.plain sampleMappedData ⟨false, true⟩ 40 _
      [sampleEmptyShell] (by decide) rfl rfl).2 rfl⟩

theorem GetSubShapes_simple (env : Env) (sd : STEP_Data) (opt : S2X_Option) (s : Shape)
    (out : List Shape) (hs : s.IsSimpleType = true) : GetSubShapes env sd opt s out = out := by
  cases s with
  | null => simp [Shape.IsSimpleType] at hs
  | mk tag ty kids =>
    simp only [Shape.IsSimpleType, decide_eq_true_eq] at hs
    rw [GetSubShapes]
    rcases hs with h | h | h | h <;> subst h <;> simp

mutual
/-- Every unit `GetSubShapes` appends is a compound, a comp-solid, a solid or a shell, and
is the shape itself or is reached from it through compounds. -/
theorem GetSubShapes_mem (env : Env) (sd : STEP_Data) (opt : S2X_Option) (u : Shape) :
    ∀ (s : Shape) (out : List Shape), u ∈ GetSubShapes env sd opt s out →
      u ∈ out ∨ (u.IsUnitType = true ∧ ViaCompounds s u)
  | .null, out, h => by
    rw [GetSubShapes] at h
    exact Or.inl h
  | .mk tag ty kids, out, h => by
    by_cases hty : ty = .COMPOUND
    · subst hty
      have hself : (Shape.mk tag .COMPOUND kids).IsUnitType = true := by simp [Shape.IsUnitType]
      rw [GetSubShapes_compound] at h
      split at h
      · split at h
        · rcases List.mem_append.1 h with h | h
          · exact Or.inl h
          · rw [List.mem_singleton.1 h]; exact Or.inr ⟨hself, .here _⟩
        · exact Or.inl h
      · split at h
        · rcases List.mem_append.1 h with h | h
          · exact Or.inl h
          · rw [List.mem_singleton.1 h]; exact Or.inr ⟨hself, .here _⟩
        · split at h
          · exact Or.inl h
          · rcases GetSubShapesKids_mem env sd opt u kids out h with h | ⟨hu, k, hk, hv⟩
            · exact Or.inl h
            · exact Or.inr ⟨hu, .kid tag kids k u hk hv⟩
    · rw [GetSubShapes_not_compound env sd opt tag ty kids out hty] at h
      split at h
      · rename_i h4
        rcases List.mem_append.1 h with h | h
        · exact Or.inl h
        · rw [List.mem_singleton.1 h]
          refine Or.inr ⟨?_, .here _⟩
          simp only [Shape.IsUnitType, decide_eq_true_eq]
          exact Or.inr h4
      · exact Or.inl h
/-- The same for the loop over the children of a compound. -/
theorem GetSubShapesKids_mem (env : Env) (sd : STEP_Data) (opt : S2X_Option) (u : Shape) :
    ∀ (kids : List Shape) (out : List Shape), u ∈ GetSubShapesKids env sd opt kids out →
      u ∈ out ∨ (u.IsUnitType = true ∧ ∃ k, k ∈ kids ∧ ViaCompounds k u)
  | [], out, h => by
    rw [GetSubShapesKids] at h
    exact Or.inl h
  | k :: rest, out, h => by
    rw [GetSubShapesKids_cons] at h
    rcases GetSubShapesKids_mem env sd opt u rest _ h with h | ⟨hu, k', hk', hv⟩
    · rcases GetSubShapes_mem env sd opt u k out h with h | ⟨hu, hv⟩
      · exact Or.inl h
      · exact Or.inr ⟨hu, k, List.mem_cons_self _ _, hv⟩
    · exact Or.inr ⟨hu, k', List.mem_cons_of_mem _ hk', hv⟩
end
theorem flatten_skip_simple (env : Env) (sd : STEP_Data) (opt : S2X_Option) (kids : List Shape) :
    (kids.map (fun k => GetSubShapes env sd opt k [])).flatten =
      ((kids.filter (fun k => !k.IsSimpleType)).map
        (fun k => GetSubShapes env sd opt k [])).flatten := by
  induction kids with
  | nil => rfl
  | cons k rest ih =>
    cases hk : k.IsSimpleType
    · simp [List.filter_cons, hk, ih]
    · simp [List.filter_cons, hk, ih, GetSubShapes_simple env sd opt k [] hk]

/-- C19 (only compounds, comp-solids, solids and shells are emitted): every unit
`GetSubShapes` yields has one of these four types and is the input shape or is reached from
it through compounds only; a face, wire, edge or vertex yields no unit as the top-level
shape, and none as a direct child of a generic compound, whatever the sketch option; so a
simple-shape label whose shape is a bare wire or edge leaves the memory as it is, also with
sketch mode on and when `IsEmpty` finds the shape not empty. -/
theorem C19_only_four_types (env : Env) (sd : STEP_Data) (opt : S2X_Option) :
    (∀ s u, u ∈ GetSubShapes env sd opt s [] → u.IsUnitType = true ∧ ViaCompounds s u)
      ∧ (∀ s out, s.IsSimpleType = true → GetSubShapes env sd opt s out = out)
      ∧ (∀ tag kids out, env.IsFreeEdge (.mk tag .COMPOUND kids) = false →
        sd.IsSolidModel (.mk tag .COMPOUND kids) = false →
        sd.IsSurfaceModel (.mk tag .COMPOUND kids) = false →
        sd.IsMappedItem (.mk tag .COMPOUND kids) = false →
        GetSubShapes env sd opt (.mk tag .COMPOUND kids) out =
          out ++ ((kids.filter (fun k => !k.IsSimpleType)).map
            (fun k => GetSubShapes env sd opt k [])).flatten)
      ∧ (∀ ct r comp nameText tag ty kids, ty = .WIRE ∨ ty = .EDGE →
        AddSubComponents env sd opt ct r comp (.simpleShape nameText (.mk tag ty kids)) = r) := by
  refine ⟨?_, ?_, ?_, ?_⟩
  · intro s u h
    rcases GetSubShapes_mem env sd opt u s [] h with h | h
    · cases h
    · exact h
  · intro s out hs
    exact GetSubShapes_simple env sd opt s out hs
  · intro tag kids out hfree hsolid hsurf hmapped
    rw [GetSubShapes_compound, hfree, hsolid, hsurf, hmapped]
    simp only [Bool.false_eq_true, if_false, Bool.or_self]
    rw [GetSubShapesKids_append, GetSubShapesKids_eq_flatten, flatten_skip_simple]
  · intro ct r comp nameText tag ty kids hty
    rw [AddSubComponents_simpleShape]
    split
    · rfl
    · have hs : (Shape.mk tag ty kids).IsSimpleType = true := by
        simp only [Shape.IsSimpleType, decide_eq_true_eq]
        rcases hty with h | h
        · exact Or.inr (Or.inl h)
        · exact Or.inr (Or.inr (Or.inl h))
      rw [GetSubShapes_simple env sd opt _ [] hs]
      rfl

/-- C19 at sample inputs, with sketch mode on: the units of the mixed compound, a bare wire
that `IsEmpty` finds not empty and that yields no unit, and the simple shape made of it. -/
theorem C19_only_four_types_witness :
    GetSubShapes Env.plain STEP_Data.plain ⟨true, true⟩ sampleMixed [] = [sampleSolid, sampleShell]
      ∧ IsEmpty Env.plain ⟨true, true⟩ sampleWire = false
      ∧ GetSubShapes Env.plain STEP_Data.plain ⟨true, true⟩ sampleWire [] = []
      ∧ AddSubComponents Env.plain STEP_Data.plain ⟨true, true⟩ sampleColorTool sampleMemory 0
        (.simpleShape [] sampleWire) = sampleMemory :=
  ⟨(C19_only_four_types Env.plain STEP_Data.plain ⟨true, true⟩).2.2.1 40 _ [] (by decide) rfl rfl
      rfl,
    by decide,
    (C19_only_four_types Env.plain STEP_Data.plain ⟨true, true⟩).2.1 sampleWire [] (by decide),
    (C19_only_four_types Env.plain STEP_Data.plain ⟨true, true⟩).2.2.2 sampleColorTool sampleMemory
      0 [] 21 .WIRE _ (Or.inl rfl)⟩

/-! ## Further properties of `AddColors` -/

theorem faceColorOf_eq (ct : ColorTool) (sc : Option Quantity_ColorRGBA) (face : Shape) :
    faceColorOf ct sc face = firstAvailable [ct.GetColor face .ColorSurf, sc] m_defaultFaceColor := by
  unfold faceColorOf
  cases ct.GetColor face .ColorSurf <;> cases sc <;> rfl

theorem wireEdgeColorOf_eq (ct : ColorTool) (wc : Option Quantity_ColorRGBA) (edge : Shape) :
    wireEdgeColorOf ct wc edge =
      firstAvailable [ct.GetColor edge .ColorCurv, wc] m_defaultWireColor := by
  unfold wireEdgeColorOf
  cases ct.GetColor edge .ColorCurv <;> cases wc <;> rfl

theorem freeEdgeColorOf_eq (ct : ColorTool) (edge : Shape) :
    freeEdgeColorOf ct edge = firstAvailable [ct.GetColor edge .ColorCurv] m_defaultWireColor := by
  unfold freeEdgeColorOf
  cases ct.GetColor edge .ColorCurv <;> rfl

/-- The calls of `AddColors` for a face-set unit: one per face the explorer finds. -/
theorem colorWrites_face_iff (opt : S2X_Option) (ct : ColorTool) (shape : Shape)
    (hcolor : opt.Color = true) (w : Shape × Quantity_ColorRGBA) :
    w ∈ colorWrites opt ct shape true ↔
      ∃ face, face ∈ explore .FACE .SHAPE shape
        ∧ w = (face, faceColorOf ct (ct.GetColor shape .ColorSurf) face) := by
  unfold colorWrites
  simp only [hcolor, Bool.not_true, Bool.false_eq_true, if_false, if_true, List.mem_map]
  constructor
  · rintro ⟨f, hf, rfl⟩; exact ⟨f, hf, rfl⟩
  · rintro ⟨f, hf, rfl⟩; exact ⟨f, hf, rfl⟩

/-- The calls of `AddColors` for a wire-set unit: one per wire and edge of the wire, and one
per free edge. -/
theorem colorWrites_wire_iff (opt : S2X_Option) (ct : ColorTool) (shape : Shape)
    (hcolor : opt.Color = true) (w : Shape × Quantity_ColorRGBA) :
    w ∈ colorWrites opt ct shape false ↔
      (∃ wire edge, wire ∈ explore .WIRE .SHAPE shape ∧ edge ∈ explore .EDGE .SHAPE wire
          ∧ w = (edge, wireEdgeColorOf ct (ct.GetColor wire .ColorCurv) edge))
        ∨ (∃ edge, edge ∈ explore .EDGE .WIRE shape ∧ w = (edge, freeEdgeColorOf ct edge)) := by
  unfold colorWrites
  simp only [hcolor, Bool.not_true, Bool.false_eq_true, if_false, List.mem_append,
    List.mem_flatten, List.mem_map]
  constructor
  · rintro (⟨l, ⟨wire, hw, rfl⟩, hl⟩ | ⟨e, he, rfl⟩)
    · unfold wireWrites at hl
      simp only [List.mem_map] at hl
      obtain ⟨e, he, rfl⟩ := hl
      exact Or.inl ⟨wire, e, hw, he, rfl⟩
    · exact Or.inr ⟨e, he, rfl⟩
  · rintro (⟨wire, e, hw, he, rfl⟩ | ⟨e, he, rfl⟩)
    · exact Or.inl ⟨wireWrites ct wire, ⟨wire, hw, rfl⟩, List.mem_map_of_mem _ he⟩
    · exact Or.inr ⟨e, he, rfl⟩

/-- C16 (fall-through chain): with color enabled, `AddColors` calls `AddColor` for every
face of a face-set unit with the first available of the color of the face, the color of the
unit and the default grey, and the mapping ends with that color; for every edge inside a
wire of a wire-set unit it calls `AddColor` with the first available of the color of the
edge, the color of that wire and the default white, and the mapping ends with that color
when the other calls for the edge (it may lie in other wires, or be a free edge too) pass
the same color; for every free edge it calls `AddColor` with the color of the edge if there
is one and the default white otherwise, and the mapping ends with that color when the edge
is inside no wire.  The defaults are grey (0.55, 0.55, 0.6, 1.0) and white (1, 1, 1, 1),
in thousandths.  `AddColors` is total: a missing color is no error. -/
theorem C16_fall_through_chain (opt : S2X_Option) (ct : ColorTool) (sh : IShape)
    (hcolor : opt.Color = true) :
    (sh.faceSet = true → ∀ face, face ∈ explore .FACE .SHAPE sh.shape →
        (face, firstAvailable [ct.GetColor face .ColorSurf, ct.GetColor sh.shape .ColorSurf]
            ⟨550, 550, 600, 1000⟩) ∈ colorWrites opt ct sh.shape sh.faceSet
          ∧ (∀ w ∈ colorWrites opt ct sh.shape sh.faceSet, w.1 = face →
            w.2 = firstAvailable [ct.GetColor face .ColorSurf, ct.GetColor sh.shape .ColorSurf]
              ⟨550, 550, 600, 1000⟩)
          ∧ (AddColors opt ct sh).GetColor face = some
            (firstAvailable [ct.GetColor face .ColorSurf, ct.GetColor sh.shape .ColorSurf]
              ⟨550, 550, 600, 1000⟩))
      ∧ (sh.faceSet = false → ∀ wire edge, wire ∈ explore .WIRE .SHAPE sh.shape →
        edge ∈ explore .EDGE .SHAPE wire →
        (edge, firstAvailable [ct.GetColor edge .ColorCurv, ct.GetColor wire .ColorCurv]
            ⟨1000, 1000, 1000, 1000⟩) ∈ colorWrites opt ct sh.shape sh.faceSet
          ∧ ((∀ wire', wire' ∈ explore .WIRE .SHAPE sh.shape → edge ∈ explore .EDGE .SHAPE wire' →
              firstAvailable [ct.GetColor edge .ColorCurv, ct.GetColor wire' .ColorCurv]
                  ⟨1000, 1000, 1000, 1000⟩
                = firstAvailable [ct.GetColor edge .ColorCurv, ct.GetColor wire .ColorCurv]
                  ⟨1000, 1000, 1000, 1000⟩) →
            (edge ∈ explore .EDGE .WIRE sh.shape →
              firstAvailable [ct.GetColor edge .ColorCurv] ⟨1000, 1000, 1000, 1000⟩
                = firstAvailable [ct.GetColor edge .ColorCurv, ct.GetColor wire .ColorCurv]
                  ⟨1000, 1000, 1000, 1000⟩) →
            (AddColors opt ct sh).GetColor edge = some
              (firstAvailable [ct.GetColor edge .ColorCurv, ct.GetColor wire .ColorCurv]
                ⟨1000, 1000, 1000, 1000⟩)))
      ∧ (sh.faceSet = false → ∀ edge, edge ∈ explore .EDGE .WIRE sh.shape →
        (edge, firstAvailable [ct.GetColor edge .ColorCurv] ⟨1000, 1000, 1000, 1000⟩)
            ∈ colorWrites opt ct sh.shape sh.faceSet
          ∧ ((∀ wire, wire ∈ explore .WIRE .SHAPE sh.shape → edge ∉ explore .EDGE .SHAPE wire) →
            (∀ w ∈ colorWrites opt ct sh.shape sh.faceSet, w.1 = edge →
              w.2 = firstAvailable [ct.GetColor edge .ColorCurv] ⟨1000, 1000, 1000, 1000⟩)
            ∧ (AddColors opt ct sh).GetColor edge = some
              (firstAvailable [ct.GetColor edge .ColorCurv] ⟨1000, 1000, 1000, 1000⟩)))
      ∧ m_defaultFaceColor = ⟨550, 550, 600, 1000⟩
      ∧ m_defaultWireColor = ⟨1000, 1000, 1000, 1000⟩ := by
  refine ⟨?_, ?_, ?_, rfl, rfl⟩
  · intro hf face hmem
    rw [AddColors_eq_applyWrites, hf]
    have h1 : (face, firstAvailable [ct.GetColor face .ColorSurf, ct.GetColor sh.shape .ColorSurf]
        ⟨550, 550, 600, 1000⟩) ∈ colorWrites opt ct sh.shape true :=
      (colorWrites_face_iff opt ct sh.shape hcolor _).2 ⟨face, hmem, by rw [faceColorOf_eq]; rfl⟩
    have h2 : ∀ w ∈ colorWrites opt ct sh.shape true, w.1 = face →
        w.2 = firstAvailable [ct.GetColor face .ColorSurf, ct.GetColor sh.shape .ColorSurf]
          ⟨550, 550, 600, 1000⟩ := by
      intro w hw hk
      obtain ⟨f, _, rfl⟩ := (colorWrites_face_iff opt ct sh.shape hcolor w).1 hw
      simp only at hk
      subst hk
      rw [faceColorOf_eq]; rfl
    exact ⟨h1, h2, applyWrites_GetColor _ sh face _ h2 (Or.inl ⟨_, h1, rfl⟩)⟩
  · intro hf wire edge hw he
    rw [AddColors_eq_applyWrites, hf]
    have h1 : (edge, firstAvailable [ct.GetColor edge .ColorCurv, ct.GetColor wire .ColorCurv]
        ⟨1000, 1000, 1000, 1000⟩) ∈ colorWrites opt ct sh.shape false :=
      (colorWrites_wire_iff opt ct sh.shape hcolor _).2
        (Or.inl ⟨wire, edge, hw, he, by rw [wireEdgeColorOf_eq]; rfl⟩)
    refine ⟨h1, ?_⟩
    intro hwires hfree
    apply applyWrites_GetColor _ sh edge _ _ (Or.inl ⟨_, h1, rfl⟩)
    intro w hwmem hk
    rcases (colorWrites_wire_iff opt ct sh.shape hcolor w).1 hwmem with
      ⟨wire', e, hw', he', rfl⟩ | ⟨e, he', rfl⟩
    · simp only at hk
      subst hk
      rw [wireEdgeColorOf_eq]
      exact hwires wire' hw' he'
    · simp only at hk
      subst hk
      rw [freeEdgeColorOf_eq]
      exact hfree he'
  · intro hf edge he
    rw [AddColors_eq_applyWrites, hf]
    have h1 : (edge, firstAvailable [ct.GetColor edge .ColorCurv] ⟨1000, 1000, 1000, 1000⟩)
        ∈ colorWrites opt ct sh.shape false :=
      (colorWrites_wire_iff opt ct sh.shape hcolor _).2
        (Or.inr ⟨edge, he, by rw [freeEdgeColorOf_eq]; rfl⟩)
    refine ⟨h1, ?_⟩
    intro hnowire
    have h2 : ∀ w ∈ colorWrites opt ct sh.shape false, w.1 = edge →
        w.2 = firstAvailable [ct.GetColor edge .ColorCurv] ⟨1000, 1000, 1000, 1000⟩ := by
      intro w hwmem hk
      rcases (colorWrites_wire_iff opt ct sh.shape hcolor w).1 hwmem with
        ⟨wire', e, hw', he', rfl⟩ | ⟨e, he', rfl⟩
      · simp only at hk
        subst hk
        exact absurd he' (hnowire wire' hw')
      · simp only at hk
        subst hk
        rw [freeEdgeColorOf_eq]; rfl
    exact ⟨h2, applyWrites_GetColor _ sh edge _ h2 (Or.inl ⟨_, h1, rfl⟩)⟩

/-- C16 at sample inputs: face 2 of the blue solid has no color of its own and gets blue;
edge 31 of the yellow wire 21 has none and gets yellow; the free edge 34 gets white. -/
theorem C16_fall_through_chain_witness :
    (AddColors ⟨false, true⟩ sampleColorTool (IShape.new Env.plain sampleSolid)).GetColor
        (sampleFace 2) = some ⟨0, 0, 1000, 1000⟩
      ∧ (AddColors ⟨true, true⟩ sampleWireColors (IShape.new Env.plain sampleWires)).GetColor
        (sampleEdge 31) = some ⟨1000, 1000, 0, 1000⟩
      ∧ (AddColors ⟨true, true⟩ sampleWireColors (IShape.new Env.plain sampleWires)).GetColor
        (sampleEdge 34) = some ⟨1000, 1000, 1000, 1000⟩ :=
  ⟨((C16_fall_through_chain ⟨false, true⟩ sampleColorTool (IShape.new Env.plain sampleSolid)
      rfl).1 (by decide) (sampleFace 2) (by decide)).2.2,
    ((C16_fall_through_chain ⟨true, true⟩ sampleWireColors (IShape.new Env.plain sampleWires)
      rfl).2.1 (by decide) sampleWire (sampleEdge 31) (by decide) (by decide)).2 (by decide)
      (by decide),
    (((C16_fall_through_chain ⟨true, true⟩ sampleWireColors (IShape.new Env.plain sampleWires)
      rfl).2.2.1 (by decide) (sampleEdge 34) (by decide)).2 (by decide)).2⟩

/-! ## Further properties of the read orchestrator -/

theorem CheckReturnStatus_true_iff (status : IFSelect_ReturnStatus) :
    (CheckReturnStatus status).1 = true ↔ status = .RetDone := by
  cases status <;> simp [CheckReturnStatus]

theorem ReadSTEP_of_completed (env : Env) (modelIsEmpty : List Component → Model → Bool)
    (caf : CafRead) (plain : PlainRead) (st s : ReadState)
    (h : ReadSTEP.tryBlock env caf st = .completed s) :
    ReadSTEP env modelIsEmpty caf plain st = ReadSTEP.finish modelIsEmpty s := by
  unfold ReadSTEP
  rw [h]
  rfl

theorem ReadSTEP_of_returned (env : Env) (modelIsEmpty : List Component → Model → Bool)
    (caf : CafRead) (plain : PlainRead) (st s : ReadState) (ret : Bool)
    (h : ReadSTEP.tryBlock env caf st = .returned ret s) :
    ReadSTEP env modelIsEmpty caf plain st = (ret, s) := by
  unfold ReadSTEP
  rw [h]
  rfl

theorem ReadSTEP_of_unknown (env : Env) (modelIsEmpty : List Component → Model → Bool)
    (caf : CafRead) (plain : PlainRead) (st s : ReadState)
    (h : ReadSTEP.tryBlock env caf st = .raised .Unknown s) :
    ReadSTEP env modelIsEmpty caf plain st =
      (false, { s with out := s.out ++ ["Reading has failed."] }) := by
  unfold ReadSTEP
  rw [h]
  rfl

theorem ReadSTEP_of_numeric (env : Env) (modelIsEmpty : List Component → Model → Bool)
    (caf : CafRead) (plain : PlainRead) (st s : ReadState)
    (h : ReadSTEP.tryBlock env caf st = .raised .NumericError s) :
    ReadSTEP env modelIsEmpty caf plain st =
      ReadSTEP.after modelIsEmpty (ReadSTEP.catchNumericError env plain s) := by
  unfold ReadSTEP
  rw [h]

theorem freeShapes_not_returned (env : Env) (doc : Document) (treeFault : Option (Nat × Fault))
    (labels : List Label) :
    ∀ (i : Nat) (st s : ReadState) (ret : Bool),
      ReadSTEP.freeShapes env doc treeFault i labels st ≠ .returned ret s := by
  induction labels with
  | nil => intro i st s ret h; rw [ReadSTEP.freeShapes] at h; cases h
  | cons l rest ih =>
    intro i st s ret h
    unfold ReadSTEP.freeShapes at h
    simp only at h
    split at h
    · split at h
      · cases h
      · exact ih _ _ _ _ h
    · exact ih _ _ _ _ h

theorem tryBlock_returned (env : Env) (caf : CafRead) (st s : ReadState) (ret : Bool)
    (h : ReadSTEP.tryBlock env caf st = .returned ret s) : ret = false := by
  unfold ReadSTEP.tryBlock at h
  split at h
  · cases h
  · split at h
    · cases h; rfl
    · split at h
      · cases h
      · cases h
      · exact absurd h (freeShapes_not_returned env _ _ _ _ _ _ _)

theorem catchNumericError_cases (env : Env) (plain : PlainRead) (st : ReadState) :
    (∃ s, ReadSTEP.catchNumericError env plain st = .completed s)
      ∨ (∃ s, ReadSTEP.catchNumericError env plain st = .returned false s) := by
  unfold ReadSTEP.catchNumericError
  simp only
  split
  · exact Or.inr ⟨_, rfl⟩
  · split
    · exact Or.inl ⟨_, rfl⟩
    · exact Or.inl ⟨_, rfl⟩

theorem finish_true (modelIsEmpty : List Component → Model → Bool) (s : ReadState)
    (h : (ReadSTEP.finish modelIsEmpty s).1 = true) :
    modelIsEmpty (ReadSTEP.finish modelIsEmpty s).2.rd.mem.heap
      (ReadSTEP.finish modelIsEmpty s).2.model = false := by
  unfold ReadSTEP.finish at h ⊢
  simp only at h ⊢
  split
  · rename_i hm
    rw [if_pos hm] at h
    simp [CheckReturnStatus] at h
  · rename_i hm
    simpa [Model.Update] using hm

theorem finish_empty (modelIsEmpty : List Component → Model → Bool) (s : ReadState)
    (h : modelIsEmpty s.rd.mem.heap s.model.Update = true) :
    ReadSTEP.finish modelIsEmpty s =
      (false, { s with model := s.model.Update, out := s.out ++ ["Nothing to translate."] }) := by
  unfold ReadSTEP.finish
  simp only [h, if_true]
  rfl

/-- C12 (success implies geometry): `ReadSTEP` returns true only if `Model::IsEmpty` is
false on the finalized model; and whenever the primary path or the degraded path runs to
its end and `Model::IsEmpty` then holds, `ReadSTEP` returns false and prints the line of
the status `RetVoid`, "Nothing to translate.", although the read status was `RetDone`. -/
theorem C12_success_implies_geometry (env : Env) (modelIsEmpty : List Component → Model → Bool)
    (caf : CafRead) (plain : PlainRead) (st : ReadState) :
    ((ReadSTEP env modelIsEmpty caf plain st).1 = true →
        modelIsEmpty (ReadSTEP env modelIsEmpty caf plain st).2.rd.mem.heap
          (ReadSTEP env modelIsEmpty caf plain st).2.model = false)
      ∧ (∀ s, ReadSTEP.tryBlock env caf st = .completed s →
        modelIsEmpty s.rd.mem.heap s.model.Update = true →
        ReadSTEP env modelIsEmpty caf plain st =
          (false, { s with model := s.model.Update, out := s.out ++ ["Nothing to translate."] }))
      ∧ (∀ s1 s, ReadSTEP.tryBlock env caf st = .raised .NumericError s1 →
        ReadSTEP.catchNumericError env plain s1 = .completed s →
        modelIsEmpty s.rd.mem.heap s.model.Update = true →
        ReadSTEP env modelIsEmpty caf plain st =
          (false, { s with model := s.model.Update, out := s.out ++ ["Nothing to translate."] }))
      ∧ (CheckReturnStatus .RetVoid).2 = ["Nothing to translate."] := by
  refine ⟨?_, ?_, ?_, rfl⟩
  · intro h
    cases ht : ReadSTEP.tryBlock env caf st with
    | completed s =>
      rw [ReadSTEP_of_completed env modelIsEmpty caf plain st s ht] at h ⊢
      exact finish_true modelIsEmpty s h
    | returned ret s =>
      rw [ReadSTEP_of_returned env modelIsEmpty caf plain st s ret ht] at h
      rw [tryBlock_returned env caf st s ret ht] at h
      cases h
    | raised f s =>
      cases f with
      | Unknown =>
        rw [ReadSTEP_of_unknown env modelIsEmpty caf plain st s ht] at h
        cases h
      | NumericError =>
        rw [ReadSTEP_of_numeric env modelIsEmpty caf plain st s ht] at h ⊢
        rcases catchNumericError_cases env plain s with ⟨s2, hc⟩ | ⟨s2, hc⟩
        · rw [hc] at h ⊢
          exact finish_true modelIsEmpty s2 h
        · rw [hc] at h
          cases h
  · intro s ht hm
    rw [ReadSTEP_of_completed env modelIsEmpty caf plain st s ht]
    exact finish_empty modelIsEmpty s hm
  · intro s1 s ht hc hm
    rw [ReadSTEP_of_numeric env modelIsEmpty caf plain st s1 ht, hc]
    exact finish_empty modelIsEmpty s hm

/-- C13 (status mapping): `CheckReturnStatus` returns true exactly for `RetDone`; for each
of `RetError`, `RetFail`, `RetVoid` and `RetStop` it returns false and prints one line, and
the four lines are pairwise distinct; in `ReadSTEP` a status of the read call other than
`RetDone` ends the read with false, with that line printed, nothing else changed and no
other reader tried, on the primary path as well as on the degraded path. -/
theorem C13_status_mapping :
    (∀ status, (CheckReturnStatus status).1 = true ↔ status = .RetDone)
      ∧ CheckReturnStatus .RetError = (false, ["Not a valid STEP file."])
      ∧ CheckReturnStatus .RetFail = (false, ["Reading has failed."])
      ∧ CheckReturnStatus .RetVoid = (false, ["Nothing to translate."])
      ∧ CheckReturnStatus .RetStop = (false, ["Reading has stopped."])
      ∧ ["Not a valid STEP file.", "Reading has failed.", "Nothing to translate.",
          "Reading has stopped."].Nodup
      ∧ (∀ env modelIsEmpty caf plain st status, caf.readFile = .ok status →
        status ≠ .RetDone →
        ReadSTEP env modelIsEmpty caf plain st =
          (false, { st with out := st.out ++ (CheckReturnStatus status).2 }))
      ∧ (∀ env plain st, plain.readFile ≠ .RetDone →
        ∃ s, ReadSTEP.catchNumericError env plain st = .returned false s
          ∧ s.model.roots = []
          ∧ s.out = st.out ++ ["Standard_NumericError occured.", "Color will not be supported."]
            ++ (CheckReturnStatus plain.readFile).2) := by
  refine ⟨CheckReturnStatus_true_iff, rfl, rfl, rfl, rfl, by decide, ?_, ?_⟩
  · intro env modelIsEmpty caf plain st status hread hne
    have h1 : (CheckReturnStatus status).1 = false := by
      cases hc : (CheckReturnStatus status).1
      · rfl
      · exact absurd ((CheckReturnStatus_true_iff status).1 hc) hne
    apply ReadSTEP_of_returned
    unfold ReadSTEP.tryBlock
    rw [hread]
    simp only [h1, Bool.not_false, if_true]
  · intro env plain st hne
    have h1 : (CheckReturnStatus plain.readFile).1 = false := by
      cases hc : (CheckReturnStatus plain.readFile).1
      · rfl
      · exact absurd ((CheckReturnStatus_true_iff plain.readFile).1 hc) hne
    unfold ReadSTEP.catchNumericError
    simp only [h1, Bool.not_false, if_true]
    exact ⟨_, rfl, rfl, rfl⟩

/-- C13 at a sample input: the read call returns `RetVoid`; the read fails, prints
"Nothing to translate." and leaves the model empty. -/
theorem C13_status_mapping_witness :
    ReadSTEP Env.plain Model.IsEmpty sampleVoidRead samplePlainRead sampleNewReader =
      (false, { sampleNewReader with out := ["Nothing to translate."] }) :=
  C13_status_mapping.2.2.2.2.2.2.1 Env.plain Model.IsEmpty sampleVoidRead samplePlainRead
    sampleNewReader .RetVoid rfl (by decide)

/-- C12 at a sample input: the only free shape of the document is a shell without faces;
the read status is `RetDone`, the primary path runs to its end, and the read fails. -/
theorem C12_success_implies_geometry_witness :
    (ReadSTEP Env.plain Model.IsEmpty sampleEmptyRead samplePlainRead sampleNewReader).1 = false
      ∧ (ReadSTEP Env.plain Model.IsEmpty sampleEmptyRead samplePlainRead sampleNewReader).2.out
        = ["Nothing to translate."] := by
  have h := (C12_success_implies_geometry Env.plain Model.IsEmpty sampleEmptyRead samplePlainRead
    sampleNewReader).2.1 _ rfl (by decide)
  rw [h]
  exact ⟨rfl, rfl⟩

/-- C11 fails on the code: an exception other than `Standard_NumericError` is raised on the
primary path while the second free shape is processed, after the first root got its two
units.  `ReadSTEP` returns false, and the model, empty when the read started, holds two
roots, the first one with two units, and is not empty. -/
theorem C11_unknown_fault_keeps_roots (modelIsEmpty : List Component → Model → Bool) :
    Model.IsEmpty sampleNewReader.rd.mem.heap sampleNewReader.model = true
      ∧ (ReadSTEP Env.plain modelIsEmpty sampleUnknownFault samplePlainRead sampleNewReader).1
        = false
      ∧ (ReadSTEP Env.plain modelIsEmpty sampleUnknownFault samplePlainRead
          sampleNewReader).2.model.roots = [0, 1]
      ∧ ((ReadSTEP Env.plain modelIsEmpty sampleUnknownFault samplePlainRead
          sampleNewReader).2.rd.mem.heap.map (fun c => c.iShapes.length)) = [2, 0]
      ∧ Model.IsEmpty
          (ReadSTEP Env.plain modelIsEmpty sampleUnknownFault samplePlainRead
            sampleNewReader).2.rd.mem.heap
          (ReadSTEP Env.plain modelIsEmpty sampleUnknownFault samplePlainRead
            sampleNewReader).2.model = false := by
  refine ⟨by decide, rfl, rfl, rfl, rfl⟩

/-! ## Properties of `IsCopy` -/

theorem split_last {α : Type} (seen pre post : List α) (b x : α)
    (h : seen ++ [b] = pre ++ x :: post) :
    (seen = pre ∧ b = x ∧ post = []) ∨ (∃ post', seen = pre ++ x :: post' ∧ post = post' ++ [b]) := by
  induction post using List.reverseRecOn with
  | nil =>
    have := List.append_inj' h rfl
    exact Or.inl ⟨this.1, by simpa using this.2, rfl⟩
  | append_singleton L y _ =>
    have h' : seen ++ [b] = (pre ++ x :: L) ++ [y] := by rw [h]; simp
    have := List.append_inj' h' rfl
    have hy : b = y := by simpa using this.2
    subst hy
    exact Or.inr ⟨L, this.1, rfl⟩

theorem GetShape_modifyAt (r : Memory) (heap' : List Component) (b : Nat)
    (f : Component → Component) (hf : ∀ c, (f c).shape = c.shape)
    (h : heap' = modifyAt r.heap b f) (m : List (Int × Nat)) (x : Nat) :
    (Memory.mk heap' m).GetShape x = r.GetShape x := by
  unfold Memory.GetShape
  simp only [h, modifyAt_getElem?]
  by_cases hx : x = b
  · subst hx
    simp only [if_pos]
    cases r.heap[x]? <;> simp [hf]
  · simp only [if_neg hx]

theorem IsCopyInv_nil (env : Env) (r : Memory) (hempty : r.idComponentMap = []) :
    IsCopyInv env r [] [] r := by
  refine ⟨fun _ => rfl, fun _ _ => rfl, ?_, ?_, ?_, ?_, rfl⟩
  · intro k a h; rw [hempty] at h; cases h
  · intro b hb; cases hb
  · intro b hb; cases hb
  · intro pre b post h
    have := congrArg List.length h
    simp at this
    omega

theorem IsCopyInv_step (env : Env) (r r1 : Memory) (seen : List Nat) (flags : List Bool)
    (b : Nat) (hinv : IsCopyInv env r seen flags r1) (hb : b ∉ seen)
    (hfresh : ∃ c, r.heap[b]? = some c ∧ c.originalComponent = none) :
    IsCopyInv env r (seen ++ [b]) (flags ++ [(IsCopy env r1 b).1]) (IsCopy env r1 b).2 := by
  obtain ⟨c, hc, hcorig⟩ := hfresh
  have hc1 : r1.heap[b]? = some c := by rw [hinv.frame b hb]; exact hc
  have hk : env.GetID (r1.GetShape b) = env.GetID (r.GetShape b) := by rw [hinv.shape_eq]
  have hflag_old : ∀ pre x post', seen = pre ++ x :: post' → ∀ fb : Bool,
      ∃ f, (flags ++ [fb])[pre.length]? = some f
        ∧ (f = true ↔ ∃ a, a ∈ pre ∧ env.GetID (r.GetShape a) = env.GetID (r.GetShape x)) := by
    intro pre x post' hs fb
    obtain ⟨f, hf, hiff⟩ := hinv.flag pre x post' hs
    refine ⟨f, ?_, hiff⟩
    have hlt : pre.length < flags.length := by
      rw [hinv.flags_len, hs]; simp
    rw [List.getElem?_append_left hlt]
    exact hf
  have hflag_new : ∀ fb : Bool, (flags ++ [fb])[seen.length]? = some fb := by
    intro fb
    rw [← hinv.flags_len]
    simp
  cases hfind : mapFind r1.idComponentMap (env.GetID (r1.GetShape b)) with
  | none =>
    rw [IsCopy_none env r1 b hfind]
    have hnot : ∀ x, x ∈ seen → env.GetID (r.GetShape x) ≠ env.GetID (r.GetShape b) := by
      intro x hx heq
      obtain ⟨a, ha⟩ := hinv.seen x hx
      rw [heq, ← hk, hfind] at ha
      cases ha
    refine ⟨?_, ?_, ?_, ?_, ?_, ?_, ?_⟩
    · intro x
      exact hinv.shape_eq x
    · intro x hx
      exact hinv.frame x (fun h => hx (List.mem_append_left _ h))
    · intro k a h
      simp only [mapFind_append] at h
      cases hold : mapFind r1.idComponentMap k with
      | some v =>
        rw [hold] at h
        have hva : v = a := by simpa using h
        subst hva
        obtain ⟨hnode, hid, pre, post, hs, hfirst⟩ := hinv.entry k v hold
        exact ⟨hnode, hid, pre, post ++ [b], by rw [hs]; simp, hfirst⟩
      | none =>
        rw [hold] at h
        simp only at h
        split at h
        · rename_i hkk
          cases h
          refine ⟨⟨c, hc1, hcorig⟩, by rw [← hkk, hk], seen, [], rfl, ?_⟩
          intro x hx
          rw [← hkk, hk]
          exact hnot x hx
        · cases h
    · intro x hx
      rcases List.mem_append.1 hx with hx | hx
      · obtain ⟨a, ha⟩ := hinv.seen x hx
        exact ⟨a, by simp only [mapFind_append, ha]⟩
      · rw [List.mem_singleton.1 hx]
        refine ⟨b, ?_⟩
        simp only [mapFind_append, ← hk, hfind, if_true]
    · intro x hx cb o hcb horig
      rcases List.mem_append.1 hx with hx | hx
      · obtain ⟨hne, hm⟩ := hinv.copy x hx cb o hcb horig
        exact ⟨hne, by simp only [mapFind_append, hm]⟩
      · rw [List.mem_singleton.1 hx] at hcb
        have hcb' : r1.heap[b]? = some cb := hcb
        rw [hc1] at hcb'
        cases hcb'
        rw [hcorig] at horig
        cases horig
    · intro pre x post h
      rcases split_last seen pre post b x h with ⟨hs, hbx, _⟩ | ⟨post', hs, _⟩
      · subst hs; subst hbx
        refine ⟨false, hflag_new false, ?_⟩
        constructor
        · intro h; cases h
        · rintro ⟨a, ha, heq⟩
          exact absurd heq (hnot a ha)
      · exact hflag_old pre x post' hs false
    · simp [hinv.flags_len]
  | some o =>
    rw [IsCopy_some env r1 b o hfind]
    obtain ⟨hnode_o, hid_o, pre_o, post_o, hs_o, _⟩ := hinv.entry _ o hfind
    have ho_seen : o ∈ seen := by rw [hs_o]; simp
    have hob : o ≠ b := fun h => hb (h ▸ ho_seen)
    have hheap : ∀ x, x ≠ b → (r1.SetOriginalComponent b o).heap[x]? = r1.heap[x]? := by
      intro x hx
      simp only [Memory.SetOriginalComponent, modifyAt_getElem?, if_neg hx]
    have hheapb : (r1.SetOriginalComponent b o).heap[b]?
        = some { c with originalComponent := some o } := by
      simp only [Memory.SetOriginalComponent, modifyAt_getElem?, if_pos, hc1, Option.map_some']
    refine ⟨?_, ?_, ?_, ?_, ?_, ?_, ?_⟩
    · intro x
      rw [← hinv.shape_eq x]
      exact GetShape_modifyAt r1 _ b (fun c => { c with originalComponent := some o })
        (fun _ => rfl) rfl r1.idComponentMap x
    · intro x hx
      have hxb : x ≠ b := fun h => hx (by rw [h]; simp)
      rw [hheap x hxb]
      exact hinv.frame x (fun h => hx (List.mem_append_left _ h))
    · intro k a h
      have h' : mapFind r1.idComponentMap k = some a := h
      obtain ⟨⟨ca, hca, hcao⟩, hid, pre, post, hs, hfirst⟩ := hinv.entry k a h'
      have ha_seen : a ∈ seen := by rw [hs]; simp
      have hab : a ≠ b := fun h => hb (h ▸ ha_seen)
      exact ⟨⟨ca, by rw [hheap a hab]; exact hca, hcao⟩, hid, pre, post ++ [b],
        by rw [hs]; simp, hfirst⟩
    · intro x hx
      rcases List.mem_append.1 hx with hx | hx
      · exact hinv.seen x hx
      · rw [List.mem_singleton.1 hx]
        exact ⟨o, by rw [← hk]; exact hfind⟩
    · intro x hx cb o' hcb horig
      rcases List.mem_append.1 hx with hx | hx
      · have hxb : x ≠ b := fun h => hb (h ▸ hx)
        rw [hheap x hxb] at hcb
        exact hinv.copy x hx cb o' hcb horig
      · rw [List.mem_singleton.1 hx] at hcb ⊢
        rw [hheapb] at hcb
        cases hcb
        simp only at horig
        cases horig
        exact ⟨hob, by rw [← hk]; exact hfind⟩
    · intro pre x post h
      rcases split_last seen pre post b x h with ⟨hs, hbx, _⟩ | ⟨post', hs, _⟩
      · subst hs; subst hbx
        refine ⟨true, hflag_new true, ?_⟩
        constructor
        · intro _
          exact ⟨o, ho_seen, by rw [hid_o, hk]⟩
        · intro _; rfl
      · exact hflag_old pre x post' hs true
    · simp [hinv.flags_len]

/-- A sequence of `IsCopy` calls on distinct new components, from an empty index. -/
theorem IsCopySeq_inv (env : Env) (r : Memory) (hempty : r.idComponentMap = []) :
    ∀ comps : List Nat, comps.Nodup →
      (∀ a, a ∈ comps → ∃ c, r.heap[a]? = some c ∧ c.originalComponent = none) →
      IsCopyInv env r comps (IsCopySeq env r comps).1 (IsCopySeq env r comps).2 := by
  intro comps
  induction comps using List.reverseRecOn with
  | nil => intro _ _; exact IsCopyInv_nil env r hempty
  | append_singleton seen b ih =>
    intro hnd hfresh
    have hnd' : seen.Nodup ∧ b ∉ seen := by
      rw [List.nodup_append] at hnd
      refine ⟨hnd.1, fun h => ?_⟩
      exact hnd.2.2 h (List.mem_singleton_self b)
    have hstep : IsCopySeq env r (seen ++ [b]) =
        ((IsCopySeq env r seen).1 ++ [(IsCopy env (IsCopySeq env r seen).2 b).1],
          (IsCopy env (IsCopySeq env r seen).2 b).2) := by
      unfold IsCopySeq
      rw [List.foldl_append]
      rfl
    rw [hstep]
    exact IsCopyInv_step env r _ seen _ b
      (ih hnd'.1 (fun a ha => hfresh a (List.mem_append_left _ ha))) hnd'.2
      (hfresh b (by simp))
/-! ## Properties of the text helpers -/

theorem find_at (pre rest frm : WString) :
    find (pre ++ rest) frm pre.length = findAux frm rest pre.length := by
  unfold find
  have : ¬ pre.length > (pre ++ rest).length := by simp
  rw [if_neg this, List.drop_left]

theorem find_zero (str frm : WString) : find str frm 0 = findAux frm str 0 :=
  find_at [] str frm

/-- The search either fails or finds an occurrence of the pattern. -/
theorem findAux_cases (frm : WString) : ∀ (s : WString) (i : Nat),
    findAux frm s i = npos ∨ ∃ a b, s = a ++ frm ++ b ∧ findAux frm s i = i + a.length
  | [], i => by
    rw [findAux]
    split
    · rename_i h
      exact Or.inr ⟨[], [], by simp [h], by simp⟩
    · exact Or.inl rfl
  | c :: t, i => by
    rw [findAux]
    split
    · rename_i h
      obtain ⟨b, hb⟩ := List.isPrefixOf_iff_prefix.1 h
      exact Or.inr ⟨[], b, by simp [hb], by simp⟩
    · rcases findAux_cases frm t (i + 1) with h | ⟨a, b, hs, hr⟩
      · exact Or.inl h
      · exact Or.inr ⟨c :: a, b, by simp [hs], by rw [hr]; simp; omega⟩

/-- The search for one character either fails, when the character does not occur, or finds
its first occurrence. -/
theorem findAux_char (c : Char) : ∀ (s : WString) (i : Nat),
    (c ∉ s ∧ findAux [c] s i = npos)
      ∨ ∃ a b, s = a ++ c :: b ∧ c ∉ a ∧ findAux [c] s i = i + a.length
  | [], i => by
    left
    simp [findAux]
  | d :: t, i => by
    rw [findAux]
    by_cases hcd : c = d
    · subst hcd
      right
      exact ⟨[], t, rfl, by simp, by simp [List.isPrefixOf]⟩
    · have hpre : List.isPrefixOf [c] (d :: t) = false := by
        simp [List.isPrefixOf, hcd]
      rw [hpre]
      simp only [Bool.false_eq_true, if_false]
      rcases findAux_char c t (i + 1) with ⟨hn, hr⟩ | ⟨a, b, hs, hna, hr⟩
      · left
        exact ⟨by simp [hcd, hn], hr⟩
      · right
        refine ⟨d :: a, b, by simp [hs], ?_, by rw [hr]; simp; omega⟩
        simp [hcd, hna]
theorem loop_npos (frm to_ : WString) (fuel : Nat) (str : WString) :
    ReplaceCharacter.loop frm to_ fuel str npos = some str := by
  unfold ReplaceCharacter.loop
  simp

theorem loop_succ (frm to_ : WString) (fuel : Nat) (str : WString) (loc : Nat)
    (h : loc ≠ npos) :
    ReplaceCharacter.loop frm to_ (fuel + 1) str loc =
      ReplaceCharacter.loop frm to_ fuel (replace str loc frm.length to_)
        (find (replace str loc frm.length to_) frm ((loc + to_.length) % 2 ^ 64)) := by
  rw [ReplaceCharacter.loop]
  simp only [h, if_false]

theorem replace_at (pre a frm b to_ : WString) :
    replace (pre ++ (a ++ frm ++ b)) (pre.length + a.length) frm.length to_ =
      (pre ++ a ++ to_) ++ b := by
  unfold replace
  have h1 : pre ++ (a ++ frm ++ b) = (pre ++ a) ++ (frm ++ b) := by simp
  have h2 : pre.length + a.length = (pre ++ a).length := by simp
  rw [h1, h2, List.take_left]
  have h3 : (pre ++ a).length + frm.length = (pre ++ a ++ frm).length := by simp [Nat.add_assoc]
  have h4 : (pre ++ a) ++ (frm ++ b) = (pre ++ a ++ frm) ++ b := by simp
  rw [h3, h4, List.drop_left]

/-- The loop of `ReplaceCharacter` ends within `rest.length / frm.length` replacements, when
the search is about to scan `rest` (the text before it is never scanned again), the pattern
is not empty and the lengths stay below `2 ^ 64`. -/
theorem loop_terminates (frm to_ : WString) (hfrm : frm ≠ []) :
    ∀ (fuel : Nat) (pre rest : WString), rest.length / frm.length ≤ fuel →
      pre.length + rest.length + (rest.length / frm.length) * to_.length < 2 ^ 64 →
      (ReplaceCharacter.loop frm to_ fuel (pre ++ rest) (findAux frm rest pre.length)).isSome
        = true := by
  have hpos : 0 < frm.length := List.length_pos.2 hfrm
  intro fuel
  induction fuel with
  | zero =>
    intro pre rest hfuel _
    rcases findAux_cases frm rest pre.length with h | ⟨a, b, hs, _⟩
    · rw [h, loop_npos]; rfl
    · have hlen : frm.length ≤ rest.length := by rw [hs]; simp; omega
      have := Nat.div_pos hlen hpos
      omega
  | succ fuel ih =>
    intro pre rest hfuel hsize
    by_cases hloc : findAux frm rest pre.length = npos
    · rw [hloc, loop_npos]; rfl
    · rcases findAux_cases frm rest pre.length with h | ⟨a, b, hs, hr⟩
      · exact absurd h hloc
      · rw [loop_succ frm to_ fuel _ _ hloc, hr]
        have hrest : rest.length = a.length + frm.length + b.length := by
          rw [hs]; simp [Nat.add_assoc]
        have hq : b.length / frm.length + 1 ≤ rest.length / frm.length := by
          rw [← Nat.add_div_right _ hpos]
          apply Nat.div_le_div_right
          omega
        have hmul : (b.length / frm.length + 1) * to_.length
            ≤ (rest.length / frm.length) * to_.length := Nat.mul_le_mul_right _ hq
        have hmul' : (b.length / frm.length + 1) * to_.length
            = (b.length / frm.length) * to_.length + to_.length := by
          rw [Nat.add_mul, Nat.one_mul]
        have hstr : replace (pre ++ rest) (pre.length + a.length) frm.length to_
            = (pre ++ a ++ to_) ++ b := by rw [hs]; exact replace_at pre a frm b to_
        have hmod : (pre.length + a.length + to_.length) % 2 ^ 64 = (pre ++ a ++ to_).length := by
          rw [Nat.mod_eq_of_lt (by omega)]
          simp [Nat.add_assoc]
        rw [hstr, hmod, find_at]
        apply ih
        · omega
        · simp only [List.length_append]
          omega

/-- C20 (termination of `StrTool::ReplaceCharacter`): for every string, every replacement
and every pattern that is not empty, with lengths that stay below `2 ^ 64` (the range of
`size_t`), the loop ends after at most `length(str) / length(from)` replacements: that
much fuel, one unit per replacement, gives a result.  Nothing is assumed on `to`, which may
contain `from`. -/
theorem C20_ReplaceCharacter_terminates (str frm to_ : WString) (hfrm : frm ≠ [])
    (hsize : str.length + (str.length / frm.length) * to_.length < 2 ^ 64) :
    (ReplaceCharacter (str.length / frm.length) str frm to_).isSome = true := by
  unfold ReplaceCharacter
  rw [find_zero]
  exact loop_terminates frm to_ hfrm _ [] str (Nat.le_refl _) (by simpa using hsize)

set_option maxRecDepth 100000 in
/-- C20 at a sample input: in "aXbXc" the pattern "X" is replaced by "XX", which contains
it; two replacements end the loop, and one does not. -/
theorem C20_ReplaceCharacter_terminates_witness :
    (ReplaceCharacter (['a', 'X', 'b', 'X', 'c'].length / ['X'].length)
        ['a', 'X', 'b', 'X', 'c'] ['X'] ['X', 'X']).isSome = true
      ∧ ReplaceCharacter 2 ['a', 'X', 'b', 'X', 'c'] ['X'] ['X', 'X']
        = some ['a', 'X', 'X', 'b', 'X', 'X', 'c']
      ∧ ReplaceCharacter 1 ['a', 'X', 'b', 'X', 'c'] ['X'] ['X', 'X'] = none :=
  ⟨C20_ReplaceCharacter_terminates ['a', 'X', 'b', 'X', 'c'] ['X'] ['X', 'X'] (by decide)
      (by decide),
    by decide, by decide⟩


/-- The loop of `ReplaceCharacter` that removes one character: what is left of the text the
search is about to scan is the text without the character. -/
theorem loop_remove (c : Char) :
    ∀ (fuel : Nat) (pre rest : WString), rest.length ≤ fuel →
      pre.length + rest.length < npos →
      ReplaceCharacter.loop [c] [] fuel (pre ++ rest) (findAux [c] rest pre.length) =
        some (pre ++ rest.filter (fun ch => decide (ch ≠ c))) := by
  intro fuel
  induction fuel with
  | zero =>
    intro pre rest hfuel _
    have : rest = [] := List.length_eq_zero.1 (Nat.le_zero.1 hfuel)
    subst this
    simp [findAux, loop_npos]
  | succ fuel ih =>
    intro pre rest hfuel hsize
    rcases findAux_char c rest pre.length with ⟨hn, hr⟩ | ⟨a, b, hs, hna, hr⟩
    · rw [hr, loop_npos]
      congr 2
      symm
      rw [List.filter_eq_self]
      intro x hx
      simp only [decide_eq_true_eq]
      intro hxc
      exact hn (hxc ▸ hx)
    · have hrest : rest.length = a.length + b.length + 1 := by rw [hs]; simp; omega
      have hloc : findAux [c] rest pre.length ≠ npos := by rw [hr]; omega
      rw [loop_succ [c] [] fuel _ _ hloc, hr]
      have hstr : replace (pre ++ rest) (pre.length + a.length) [c].length []
          = (pre ++ a ++ []) ++ b := by
        rw [hs]
        have := replace_at pre a [c] b []
        simpa using this
      have hmod : (pre.length + a.length + ([] : WString).length) % 2 ^ 64
          = (pre ++ a ++ []).length := by
        have hn : npos < 2 ^ 64 := by unfold npos; omega
        rw [Nat.mod_eq_of_lt (by simp; omega)]
        simp
      rw [hstr, hmod, find_at, ih _ b (by omega) (by simp; omega)]
      congr 1
      rw [hs, List.filter_append, List.filter_cons]
      have ha : a.filter (fun ch => decide (ch ≠ c)) = a := by
        rw [List.filter_eq_self]
        intro x hx
        simp only [decide_eq_true_eq]
        intro hxc
        exact hna (hxc ▸ hx)
      rw [ha]
      simp

/-- The helper `RemoveCharacter` with a one-character target removes every occurrence of
the character. -/
theorem RemoveCharacter_char (str : WString) (c : Char) (hsize : str.length < npos) :
    RemoveCharacter str [c] = str.filter (fun ch => decide (ch ≠ c)) := by
  unfold RemoveCharacter ReplaceCharacter
  rw [find_zero]
  have := loop_remove c str.length [] str (Nat.le_refl _) (by simpa using hsize)
  simp only [List.nil_append, List.length_nil] at this
  rw [this]
  rfl
theorem s2ws_of_some (env : Env) (s w : List Char) (hconv : env.mbstowcs s = some w)
    (hsize : w.length < npos) : s2ws env s = w := by
  unfold s2ws
  simp only [hconv]
  apply List.take_of_length_le
  unfold npos at hsize
  omega

theorem s2ws_of_none (env : Env) (s : List Char) (hconv : env.mbstowcs s = none) :
    s2ws env s = [] := by
  unfold s2ws
  simp only [hconv]

theorem GetName_stripped (name : WString) (hsize : name.length < npos) :
    RemoveCharacter (RemoveCharacter name ['\r']) ['\n'] = stripLineEnds name := by
  rw [RemoveCharacter_char name '\r' hsize]
  rw [RemoveCharacter_char _ '\n' (Nat.lt_of_le_of_lt (List.length_filter_le _ _) hsize)]
  unfold stripLineEnds
  rw [List.filter_filter]
  simp [Bool.and_comm]

theorem find_prefix_iff (name frm : WString) (hfrm : frm ≠ []) :
    find name frm 0 = 0 ↔ frm <+: name := by
  rw [find_zero]
  cases name with
  | nil =>
    rw [findAux]
    simp only [hfrm, if_false]
    constructor
    · intro h; unfold npos at h; omega
    · intro h; exact absurd (List.prefix_nil.1 h) hfrm
  | cons c t =>
    rw [findAux]
    by_cases hp : frm.isPrefixOf (c :: t) = true
    · simp only [hp, if_true, true_iff]
      exact List.isPrefixOf_iff_prefix.1 hp
    · simp only [hp, if_false]
      constructor
      · intro h
        rcases findAux_cases frm t (0 + 1) with h1 | ⟨a, b, _, h1⟩
        · rw [h1] at h; unfold npos at h; simp at h
        · rw [h1] at h; simp at h
      · intro h
        exact absurd (List.isPrefixOf_iff_prefix.2 h) hp

theorem find_bracket_iff (name : WString) (hlen : name.length < npos) (hpos : 1 ≤ name.length) :
    find name [']'] 0 = (name.length + 2 ^ 64 - 1) % 2 ^ 64 ↔
      ∃ a, name = a ++ [']'] ∧ ']' ∉ a := by
  have hmod : (name.length + 2 ^ 64 - 1) % 2 ^ 64 = name.length - 1 := by
    unfold npos at hlen
    omega
  rw [find_zero, hmod]
  rcases findAux_char ']' name 0 with ⟨hn, hr⟩ | ⟨a, b, hs, hna, hr⟩
  · rw [hr]
    constructor
    · intro h; unfold npos at h hlen; omega
    · rintro ⟨a, ha, _⟩
      exact absurd (by rw [ha]; simp) hn
  · rw [hr]
    have hL : name.length = a.length + b.length + 1 := by rw [hs]; simp; omega
    constructor
    · intro h
      have hb : b = [] := List.length_eq_zero.1 (by omega)
      exact ⟨a, by rw [hs, hb], hna⟩
    · rintro ⟨a', ha', hna'⟩
      have heq : a ++ ']' :: b = a' ++ [']'] := by rw [← hs, ha']
      have hb : b = [] := by
        rcases List.append_eq_append_iff.1 heq with ⟨c, h1, h2⟩ | ⟨c, h1, h2⟩
        · cases c with
          | nil => simpa using h2
          | cons x c' =>
            have hx : ']' = x := by
              have := congrArg List.head? h2
              simpa using this
            exact absurd (by rw [h1, hx]; simp) hna'
        · have := congrArg List.length h2
          simp at this
          exact List.length_eq_zero.1 (by omega)
      rw [hb] at hL
      simp at hL
      omega

theorem IsPlaceholder_length (s : WString) (h : ['=', '>', '['] <+: s) : 3 ≤ s.length := by
  obtain ⟨t, ht⟩ := h
  rw [← ht]
  simp

/-- The method `GetName` in terms of the text `w` that `s2ws` yields, stripped of line ends:
the text is cleared when it is a type word or a placeholder, and is returned as it is
otherwise. -/
theorem GetName_cases (env : Env) (n w : List Char) (hw : s2ws env (n ++ ['\n']) = w)
    (hsize : w.length < npos) :
    ((IsTypeWord (stripLineEnds w) ∨ IsPlaceholder (stripLineEnds w)) → GetName env n = [])
      ∧ (¬ (IsTypeWord (stripLineEnds w) ∨ IsPlaceholder (stripLineEnds w)) →
        GetName env n = stripLineEnds w) := by
  have hs := GetName_stripped w hsize
  have hslen : (stripLineEnds w).length < npos := by
    unfold stripLineEnds
    exact Nat.lt_of_le_of_lt (List.length_filter_le _ _) hsize
  have hcond : (find (stripLineEnds w) ['=', '>', '['] 0 = 0
        ∧ find (stripLineEnds w) [']'] 0 = ((stripLineEnds w).length + 2 ^ 64 - 1) % 2 ^ 64)
      ↔ IsPlaceholder (stripLineEnds w) := by
    unfold IsPlaceholder
    rw [find_prefix_iff _ _ (by simp)]
    constructor
    · rintro ⟨hp, hb⟩
      have := IsPlaceholder_length _ hp
      exact ⟨hp, (find_bracket_iff _ hslen (by omega)).1 hb⟩
    · rintro ⟨hp, hb⟩
      have := IsPlaceholder_length _ hp
      exact ⟨hp, (find_bracket_iff _ hslen (by omega)).2 hb⟩
  unfold GetName
  simp only [hw, hs]
  constructor
  · intro h
    rw [if_pos]
    rcases h with h | h
    · unfold IsTypeWord at h
      rcases h with h | h | h | h
      · exact Or.inl h
      · exact Or.inr (Or.inl h)
      · exact Or.inr (Or.inr (Or.inl h))
      · exact Or.inr (Or.inr (Or.inr (Or.inl h)))
    · exact Or.inr (Or.inr (Or.inr (Or.inr (hcond.2 h))))
  · intro h
    rw [if_neg]
    intro hc
    apply h
    rcases hc with hc | hc | hc | hc | hc
    · exact Or.inl (Or.inl hc)
    · exact Or.inl (Or.inr (Or.inl hc))
    · exact Or.inl (Or.inr (Or.inr (Or.inl hc)))
    · exact Or.inl (Or.inr (Or.inr (Or.inr hc)))
    · exact Or.inr (hcond.1 hc)

/-- When `mbstowcs` reports an invalid multibyte sequence, `GetName` yields the empty name. -/
theorem GetName_of_invalid (env : Env) (n : List Char)
    (hconv : env.mbstowcs (n ++ ['\n']) = none) : GetName env n = [] := by
  have hw := s2ws_of_none env _ hconv
  have h := GetName_cases env n [] hw (by unfold npos; simp)
  by_cases hc : IsTypeWord (stripLineEnds []) ∨ IsPlaceholder (stripLineEnds [])
  · exact h.1 hc
  · rw [h.2 hc]
    rfl
/-- C14, the sentence as written fails.  The text `=>[a]b]` begins with `=>[` and ends with
`]`, yet `GetName` returns it unchanged instead of the empty name, because the closing
bracket that `GetName` looks for is the first `]` of the text.  And the text `café`, stripped
of line ends, is not empty, no type word and no placeholder, yet in the "C" locale `GetName`
returns the empty name for it, because `mbstowcs` does not convert it. -/
theorem C14_counterexample :
    (BeginsAndEnds (stripLineEnds ['=', '>', '[', 'a', ']', 'b', ']'])
      ∧ GetName Env.plain ['=', '>', '[', 'a', ']', 'b', ']']
          = ['=', '>', '[', 'a', ']', 'b', ']']
      ∧ ¬ (GetName Env.plain ['=', '>', '[', 'a', ']', 'b', ']'] = [] ↔
          (stripLineEnds ['=', '>', '[', 'a', ']', 'b', ']'] = []
            ∨ IsTypeWord (stripLineEnds ['=', '>', '[', 'a', ']', 'b', ']'])
            ∨ BeginsAndEnds (stripLineEnds ['=', '>', '[', 'a', ']', 'b', ']']))))
      ∧ (GetName sampleCLocale ['c', 'a', 'f', 'é'] = []
        ∧ ¬ (GetName sampleCLocale ['c', 'a', 'f', 'é'] = [] ↔
          (stripLineEnds ['c', 'a', 'f', 'é'] = []
            ∨ IsTypeWord (stripLineEnds ['c', 'a', 'f', 'é'])
            ∨ BeginsAndEnds (stripLineEnds ['c', 'a', 'f', 'é'])))) := by
  have hb : BeginsAndEnds (stripLineEnds ['=', '>', '[', 'a', ']', 'b', ']']) :=
    ⟨by decide, by decide⟩
  have hg : GetName Env.plain ['=', '>', '[', 'a', ']', 'b', ']']
      = ['=', '>', '[', 'a', ']', 'b', ']'] := by
    decide
  have hc : GetName sampleCLocale ['c', 'a', 'f', 'é'] = [] := by decide
  refine ⟨⟨hb, hg, ?_⟩, hc, ?_⟩
  · intro h
    have := h.2 (Or.inr (Or.inr hb))
    rw [hg] at this
    exact absurd this (by decide)
  · intro h
    rcases h.1 hc with h1 | h1 | h1
    · exact absurd h1 (by decide)
    · revert h1
      unfold IsTypeWord
      decide
    · exact absurd h1.1 (by decide)

/-- C14, amended: for a label text `n` that `mbstowcs` converts, with the line end the
stream appends, to a wide text `w` (shorter than the `size_t` range), let `s` be `w` with
every carriage return and line feed removed; when `n` converts to itself, as an ASCII text
does, `s` is `n` with every carriage return and line feed removed.  `GetName n` is the empty
name exactly when `s` is empty, is one of the bare type words COMPOUND, COMPSOLID, SOLID,
SHELL, or is a placeholder: it begins with `=>[` and its first `]` is its last character.
In every other case `GetName n` is `s` itself, and the returned name never holds a carriage
return or a line feed.  A placeholder begins with `=>[` and ends with `]`, so the amended rule
is the stated one restricted to converted texts with a single closing bracket. -/
theorem C14_name_policy (env : Env) (n w : List Char)
    (hconv : env.mbstowcs (n ++ ['\n']) = some w) (hsize : w.length < 2 ^ 64 - 1) :
    (GetName env n = [] ↔
        (stripLineEnds w = [] ∨ IsTypeWord (stripLineEnds w) ∨ IsPlaceholder (stripLineEnds w)))
      ∧ (¬ (IsTypeWord (stripLineEnds w) ∨ IsPlaceholder (stripLineEnds w)) →
          GetName env n = stripLineEnds w)
      ∧ '\r' ∉ GetName env n ∧ '\n' ∉ GetName env n
      ∧ (IsPlaceholder (stripLineEnds w) → BeginsAndEnds (stripLineEnds w))
      ∧ (w = n ++ ['\n'] → stripLineEnds w = stripLineEnds n) := by
  have hlen : w.length < npos := by unfold npos; exact hsize
  have hc := GetName_cases env n w (s2ws_of_some env _ w hconv hlen) hlen
  have hstrip : '\r' ∉ stripLineEnds w ∧ '\n' ∉ stripLineEnds w := by
    unfold stripLineEnds
    constructor <;> simp [List.mem_filter]
  have hres : GetName env n = [] ∨ GetName env n = stripLineEnds w := by
    by_cases h : IsTypeWord (stripLineEnds w) ∨ IsPlaceholder (stripLineEnds w)
    · exact Or.inl (hc.1 h)
    · exact Or.inr (hc.2 h)
  refine ⟨?_, hc.2, ?_, ?_, ?_, ?_⟩
  · constructor
    · intro hg
      by_cases h : IsTypeWord (stripLineEnds w) ∨ IsPlaceholder (stripLineEnds w)
      · exact Or.inr h
      · rw [hc.2 h] at hg
        exact Or.inl hg
    · rintro (h | h)
      · rcases hres with hr | hr
        · exact hr
        · rw [hr, h]
      · exact hc.1 h
  · rcases hres with hr | hr
    · rw [hr]; simp
    · rw [hr]; exact hstrip.1
  · rcases hres with hr | hr
    · rw [hr]; simp
    · rw [hr]; exact hstrip.2
  · rintro ⟨hp, a, ha, _⟩
    exact ⟨hp, ⟨a, ha.symm⟩⟩
  · intro hw
    rw [hw]
    unfold stripLineEnds
    rw [List.filter_append]
    simp

/-- C14 at concrete texts, which convert to themselves: the placeholder `=>[0:1:1:2]`
followed by a line end is cleared, the bare type word `SOLID` is cleared, and `Part` followed
by a line end comes back as `Part`. -/
theorem C14_name_policy_witness :
    Env.plain.mbstowcs (['=', '>', '[', '0', ':', '1', ':', '1', ':', '2', ']', '\r', '\n']
        ++ ['\n'])
        = some ['=', '>', '[', '0', ':', '1', ':', '1', ':', '2', ']', '\r', '\n', '\n']
      ∧ (['=', '>', '[', '0', ':', '1', ':', '1', ':', '2', ']', '\r', '\n', '\n']
          : List Char).length < 2 ^ 64 - 1
      ∧ GetName Env.plain ['=', '>', '[', '0', ':', '1', ':', '1', ':', '2', ']', '\r', '\n'] = []
      ∧ GetName Env.plain ['S', 'O', 'L', 'I', 'D'] = []
      ∧ GetName Env.plain ['P', 'a', 'r', 't', '\r', '\n'] = ['P', 'a', 'r', 't'] :=
  ⟨rfl, by decide,
   (C14_name_policy Env.plain
      ['=', '>', '[', '0', ':', '1', ':', '1', ':', '2', ']', '\r', '\n'] _ rfl
      (by decide)).1.2
      (Or.inr (Or.inr ⟨by decide,
        ['=', '>', '[', '0', ':', '1', ':', '1', ':', '2'], by decide, by decide⟩)),
   (C14_name_policy Env.plain ['S', 'O', 'L', 'I', 'D'] _ rfl (by decide)).1.2
      (Or.inr (Or.inl (Or.inr (Or.inr (Or.inl rfl))))),
   (C14_name_policy Env.plain ['P', 'a', 'r', 't', '\r', '\n'] _ rfl (by decide)).2.1
      (by
        rintro (h | ⟨hp, _⟩)
        · revert h
          unfold IsTypeWord
          decide
        · revert hp
          decide)⟩
/-! ## Reads after earlier reads -/

theorem Relocated_getElem {H : List Component} {r r' : Memory} (h : Memory.Relocated H r r')
    (a : Nat) : r'.heap[a + H.length]? = (r.heap[a]?).map (Component.shift H.length) := by
  rw [h.1, List.getElem?_append_right (by omega)]
  simp

theorem Relocated_GetShape {H : List Component} {r r' : Memory} (h : Memory.Relocated H r r')
    (a : Nat) : r'.GetShape (a + H.length) = r.GetShape a := by
  unfold Memory.GetShape
  rw [Relocated_getElem h]
  cases r.heap[a]? <;> rfl

theorem Relocated_modifyAt (H heap : List Component) (a : Nat) (f f' : Component → Component)
    (hf : ∀ c, f' (Component.shift H.length c) = Component.shift H.length (f c)) :
    modifyAt (H ++ heap.map (Component.shift H.length)) (a + H.length) f' =
      H ++ (modifyAt heap a f).map (Component.shift H.length) := by
  unfold modifyAt
  rw [List.getElem?_append_right (by omega)]
  simp only [Nat.add_sub_cancel, List.getElem?_map]
  cases hc : heap[a]? with
  | none => simp
  | some c =>
    simp only [Option.map_some']
    rw [List.set_append_right _ _ (by omega)]
    simp [List.map_set, hf]

theorem Relocated_mapFind {H : List Component} {r r' : Memory} (h : Memory.Relocated H r r')
    (k : Int) :
    mapFind r'.idComponentMap k = (mapFind r.idComponentMap k).map (fun a => a + H.length) := by
  unfold mapFind
  rw [h.2, List.find?_map]
  cases hf : List.find? (fun e => decide (e.1 = k)) r.idComponentMap <;>
    simp [Function.comp_def, hf]
theorem Relocated_modify {H : List Component} {r r' : Memory} (h : Memory.Relocated H r r')
    (a : Nat) (f f' : Component → Component)
    (hf : ∀ c, f' (Component.shift H.length c) = Component.shift H.length (f c)) :
    Memory.Relocated H { r with heap := modifyAt r.heap a f }
      { r' with heap := modifyAt r'.heap (a + H.length) f' } := by
  refine ⟨?_, h.2⟩
  show modifyAt r'.heap (a + H.length) f' = H ++ (modifyAt r.heap a f).map (Component.shift H.length)
  rw [h.1]
  exact Relocated_modifyAt H r.heap a f f' hf

theorem Relocated_SetUniqueName {H : List Component} {r r' : Memory}
    (h : Memory.Relocated H r r') (a : Nat) (name : WString) :
    Memory.Relocated H (r.SetUniqueName a name) (r'.SetUniqueName (a + H.length) name) :=
  Relocated_modify h a _ _ (fun _ => rfl)

theorem Relocated_SetTransformation {H : List Component} {r r' : Memory}
    (h : Memory.Relocated H r r') (a : Nat) (trsf : gp_Trsf) :
    Memory.Relocated H (r.SetTransformation a trsf) (r'.SetTransformation (a + H.length) trsf) :=
  Relocated_modify h a _ _ (fun _ => rfl)

theorem Relocated_AddSubComponent {H : List Component} {r r' : Memory}
    (h : Memory.Relocated H r r') (a b : Nat) :
    Memory.Relocated H (r.AddSubComponent a b)
      (r'.AddSubComponent (a + H.length) (b + H.length)) :=
  Relocated_modify h a _ _ (fun c => by simp [Component.shift])

theorem Relocated_AddIShape {H : List Component} {r r' : Memory}
    (h : Memory.Relocated H r r') (a : Nat) (iShape : IShape) :
    Memory.Relocated H (r.AddIShape a iShape) (r'.AddIShape (a + H.length) iShape) :=
  Relocated_modify h a _ _ (fun _ => rfl)

theorem Relocated_SetOriginalComponent {H : List Component} {r r' : Memory}
    (h : Memory.Relocated H r r') (a o : Nat) :
    Memory.Relocated H (r.SetOriginalComponent a o)
      (r'.SetOriginalComponent (a + H.length) (o + H.length)) :=
  Relocated_modify h a _ _ (fun _ => rfl)

theorem Relocated_length {H : List Component} {r r' : Memory} (h : Memory.Relocated H r r') :
    r'.heap.length = r.heap.length + H.length := by
  rw [h.1]
  simp [Nat.add_comm]

theorem Relocated_alloc {H : List Component} {r r' : Memory} (h : Memory.Relocated H r r')
    (shape : Shape) :
    (r'.alloc (Component.new shape)).1 = (r.alloc (Component.new shape)).1 + H.length
      ∧ Memory.Relocated H (r.alloc (Component.new shape)).2
          (r'.alloc (Component.new shape)).2 := by
  refine ⟨Relocated_length h, ?_, h.2⟩
  show r'.heap ++ [Component.new shape] =
    H ++ (r.heap ++ [Component.new shape]).map (Component.shift H.length)
  rw [h.1]
  simp [Component.shift, Component.new]

theorem Relocated_IsCopy (env : Env) {H : List Component} {r r' : Memory}
    (h : Memory.Relocated H r r') (a : Nat) :
    (IsCopy env r' (a + H.length)).1 = (IsCopy env r a).1
      ∧ Memory.Relocated H (IsCopy env r a).2 (IsCopy env r' (a + H.length)).2 := by
  unfold IsCopy
  simp only [Relocated_GetShape h, Relocated_mapFind h]
  cases hm : mapFind r.idComponentMap (env.GetID (r.GetShape a)) with
  | none =>
    refine ⟨rfl, h.1, ?_⟩
    show r'.idComponentMap ++ [(env.GetID (r.GetShape a), a + H.length)] =
      (r.idComponentMap ++ [(env.GetID (r.GetShape a), a)]).map (fun e => (e.1, e.2 + H.length))
    rw [h.2]
    simp
  | some o => exact ⟨rfl, Relocated_SetOriginalComponent h a o⟩

theorem Relocated_AddIShapes (env : Env) (opt : S2X_Option) (ct : ColorTool)
    {H : List Component} (a : Nat) (subShapes : List Shape) :
    ∀ {r r' : Memory}, Memory.Relocated H r r' →
      Memory.Relocated H (AddIShapes env opt ct r a subShapes)
        (AddIShapes env opt ct r' (a + H.length) subShapes) := by
  unfold AddIShapes
  induction subShapes with
  | nil => intro r r' h; exact h
  | cons s rest ih =>
    intro r r' h
    simp only [List.foldl_cons]
    exact ih (Relocated_AddIShape h a _)
theorem Relocated_refPrep (env : Env) {H : List Component} {r r' : Memory} (h : Memory.Relocated H r r')
    (comp : Nat) (trsf : gp_Trsf) (label_ref : Label) :
    Memory.Relocated H (refPrep env r comp trsf label_ref)
      (refPrep env r' (comp + H.length) trsf label_ref) := by
  unfold refPrep
  rw [Relocated_length h]
  exact Relocated_AddSubComponent
    (Relocated_SetTransformation
      (Relocated_SetUniqueName (Relocated_alloc h label_ref.shape).2 _ _) _ _) _ _

mutual
/-- A run of `AddSubComponents` after earlier components builds the same tree, at later
addresses, and leaves the earlier components as they are. -/
theorem AddSubComponents_relocated (env : Env) (sd : STEP_Data) (opt : S2X_Option)
    (ct : ColorTool) (H : List Component) :
    ∀ (label : Label) (r r' : Memory) (comp : Nat), Memory.Relocated H r r' →
      Memory.Relocated H (AddSubComponents env sd opt ct r comp label)
        (AddSubComponents env sd opt ct r' (comp + H.length) label)
  | .assembly nameText _ comps, r, r', comp, h => by
    rw [AddSubComponents_assembly, AddSubComponents_assembly]
    exact AddSubComponentsSeq_relocated env sd opt ct H comps _ _ comp
      (Relocated_SetUniqueName h _ _)
  | .reference _ _ trsf label_ref, r, r', comp, h => by
    rw [AddSubComponents_reference, AddSubComponents_reference]
    have hc := Relocated_IsCopy env (Relocated_refPrep env h comp trsf label_ref) r.heap.length
    rw [Relocated_length h]
    by_cases he : IsEmpty env opt label_ref.shape = true
    · rw [if_pos he, if_pos he]
      exact h
    · rw [if_neg he, if_neg he, hc.1]
      by_cases hcopy : (IsCopy env (refPrep env r comp trsf label_ref) r.heap.length).1 = true
      · rw [if_pos hcopy, if_pos hcopy]
        exact hc.2
      · rw [if_neg hcopy, if_neg hcopy]
        exact AddSubComponents_relocated env sd opt ct H label_ref _ _ _ hc.2
  | .simpleShape _ shape, r, r', comp, h => by
    rw [AddSubComponents_simpleShape, AddSubComponents_simpleShape]
    by_cases he : IsEmpty env opt shape = true
    · rw [if_pos he, if_pos he]
      exact h
    · rw [if_neg he, if_neg he]
      exact Relocated_AddIShapes env opt ct comp _ h
  | .other _ _, r, r', comp, h => by
    rw [AddSubComponents_other, AddSubComponents_other]
    exact h
/-- The same for the loop over the component labels of an assembly. -/
theorem AddSubComponentsSeq_relocated (env : Env) (sd : STEP_Data) (opt : S2X_Option)
    (ct : ColorTool) (H : List Component) :
    ∀ (labels : List Label) (r r' : Memory) (comp : Nat), Memory.Relocated H r r' →
      Memory.Relocated H (AddSubComponentsSeq env sd opt ct r comp labels)
        (AddSubComponentsSeq env sd opt ct r' (comp + H.length) labels)
  | [], r, r', comp, h => by
    rw [AddSubComponentsSeq, AddSubComponentsSeq]
    exact h
  | label_comp :: rest, r, r', comp, h => by
    rw [AddSubComponentsSeq, AddSubComponentsSeq]
    exact AddSubComponentsSeq_relocated env sd opt ct H rest _ _ comp
      (AddSubComponents_relocated env sd opt ct H label_comp r r' comp h)
end
theorem UpdateColorOption_opt_congr (rd rd' : STEP_Reader) (h1 : rd'.opt = rd.opt)
    (h2 : rd'.colorTool = rd.colorTool) :
    (UpdateColorOption rd').opt = (UpdateColorOption rd).opt := by
  unfold UpdateColorOption
  rw [h1, h2]
  by_cases hc : (!rd.opt.Color) = true
  · rw [if_pos hc, if_pos hc]
    exact h1
  · rw [if_neg hc, if_neg hc]
    cases rd.colorTool with
    | none => simp only [h1]
    | some ct =>
      simp only
      by_cases h0 : ct.colorCount = 0
      · rw [if_pos h0, if_pos h0]
      · rw [if_neg h0, if_neg h0]
        exact h1

theorem freeShapes_relocated (env : Env) (doc : Document) (treeFault : Option (Nat × Fault))
    (H : List Component) :
    ∀ (labels : List Label) (i : Nat) (st st' : ReadState), st'.rd.opt = st.rd.opt →
      ReadState.Relocated H st st' →
      Outcome.Relocated H (ReadSTEP.freeShapes env doc treeFault i labels st)
        (ReadSTEP.freeShapes env doc treeFault i labels st')
  | [], i, st, st', _, h => by
    unfold ReadSTEP.freeShapes
    exact h
  | label_shape :: rest, i, st, st', hopt, h => by
    have ha := Relocated_alloc h.1 label_shape.shape
    have hm := Relocated_SetUniqueName ha.2 (st.rd.mem.alloc (Component.new label_shape.shape)).1
      (GetName env label_shape.nameText)
    rw [← ha.1] at hm
    have hr : (st'.model.AddRootComponent (st'.rd.mem.alloc (Component.new label_shape.shape)).1).roots
        = ((st.model.AddRootComponent (st.rd.mem.alloc (Component.new label_shape.shape)).1).roots).map
            (fun a => a + H.length) := by
      unfold Model.AddRootComponent
      simp only [List.map_append, List.map_cons, List.map_nil]
      rw [h.2, ha.1]
    have hsub : Memory.Relocated H
        (AddSubComponents env doc.stepData st.rd.opt doc.colorTool
          (((st.rd.mem.alloc (Component.new label_shape.shape)).2).SetUniqueName
            (st.rd.mem.alloc (Component.new label_shape.shape)).1 (GetName env label_shape.nameText))
          (st.rd.mem.alloc (Component.new label_shape.shape)).1 label_shape)
        (AddSubComponents env doc.stepData st'.rd.opt doc.colorTool
          (((st'.rd.mem.alloc (Component.new label_shape.shape)).2).SetUniqueName
            (st'.rd.mem.alloc (Component.new label_shape.shape)).1 (GetName env label_shape.nameText))
          (st'.rd.mem.alloc (Component.new label_shape.shape)).1 label_shape) := by
      rw [hopt, ha.1]
      rw [ha.1] at hm
      exact AddSubComponents_relocated env doc.stepData st.rd.opt doc.colorTool H label_shape
        _ _ (st.rd.mem.alloc (Component.new label_shape.shape)).1 hm
    have hnext := freeShapes_relocated env doc treeFault H rest (i + 1)
      { st with
        rd := { st.rd with
          mem := AddSubComponents env doc.stepData st.rd.opt doc.colorTool
            (((st.rd.mem.alloc (Component.new label_shape.shape)).2).SetUniqueName
              (st.rd.mem.alloc (Component.new label_shape.shape)).1 (GetName env label_shape.nameText))
            (st.rd.mem.alloc (Component.new label_shape.shape)).1 label_shape },
        model := st.model.AddRootComponent (st.rd.mem.alloc (Component.new label_shape.shape)).1 }
      { st' with
        rd := { st'.rd with
          mem := AddSubComponents env doc.stepData st'.rd.opt doc.colorTool
            (((st'.rd.mem.alloc (Component.new label_shape.shape)).2).SetUniqueName
              (st'.rd.mem.alloc (Component.new label_shape.shape)).1 (GetName env label_shape.nameText))
            (st'.rd.mem.alloc (Component.new label_shape.shape)).1 label_shape },
        model := st'.model.AddRootComponent (st'.rd.mem.alloc (Component.new label_shape.shape)).1 }
      hopt ⟨hsub, hr⟩
    unfold ReadSTEP.freeShapes
    cases treeFault with
    | none => exact hnext
    | some jf =>
      obtain ⟨j, f⟩ := jf
      simp only
      by_cases hj : j = i
      · rw [if_pos hj, if_pos hj]
        exact ⟨rfl, hm, hr⟩
      · rw [if_neg hj, if_neg hj]
        exact hnext

theorem tryBlock_relocated (env : Env) (caf : CafRead) (H : List Component)
    (st st' : ReadState) (hopt : st'.rd.opt = st.rd.opt) (h : ReadState.Relocated H st st') :
    Outcome.Relocated H (ReadSTEP.tryBlock env caf st) (ReadSTEP.tryBlock env caf st') := by
  unfold ReadSTEP.tryBlock
  cases caf.readFile with
  | error f => exact ⟨rfl, h⟩
  | ok status =>
    simp only
    by_cases hs : (!(CheckReturnStatus status).1) = true
    · rw [if_pos hs, if_pos hs]
      exact ⟨rfl, h⟩
    · rw [if_neg hs, if_neg hs]
      cases caf.transfer with
      | error f => exact ⟨rfl, h⟩
      | ok d =>
        cases d with
        | none => exact h
        | some doc =>
          simp only
          apply freeShapes_relocated
          · exact UpdateColorOption_opt_congr _ _ hopt rfl
          · refine ⟨?_, h.2⟩
            show Memory.Relocated H (UpdateColorOption _).mem (UpdateColorOption _).mem
            rw [UpdateColorOption_mem, UpdateColorOption_mem]
            exact h.1

theorem catchNumericError_relocated (env : Env) (plain : PlainRead) (H : List Component)
    (st st' : ReadState) (h : ReadState.Relocated H st st') :
    Outcome.Relocated H (ReadSTEP.catchNumericError env plain st)
      (ReadSTEP.catchNumericError env plain st') := by
  have hmem : Memory.Relocated H (UpdateColorOption st.rd).mem (UpdateColorOption st'.rd).mem := by
    rw [UpdateColorOption_mem, UpdateColorOption_mem]
    exact h.1
  unfold ReadSTEP.catchNumericError
  simp only
  by_cases hs : (!(CheckReturnStatus plain.readFile).1) = true
  · rw [if_pos hs, if_pos hs]
    exact ⟨rfl, hmem, rfl⟩
  · rw [if_neg hs, if_neg hs]
    by_cases ht : plain.transferRoot = true
    · rw [if_pos ht, if_pos ht]
      have ha := Relocated_alloc hmem plain.shape
      have hm := Relocated_AddIShape ha.2 ((UpdateColorOption st.rd).mem.alloc
        (Component.new plain.shape)).1 (IShape.new env plain.shape)
      rw [← ha.1] at hm
      refine ⟨hm, ?_⟩
      show (st'.model.Clear.AddRootComponent _).roots =
        ((st.model.Clear.AddRootComponent _).roots).map (fun a => a + H.length)
      unfold Model.AddRootComponent Model.Clear
      simp only [List.nil_append, List.map_cons, List.map_nil]
      rw [ha.1]
    · rw [if_neg ht, if_neg ht]
      exact ⟨hmem, rfl⟩

theorem after_relocated (m m' : List Component → Model → Bool) (H : List Component)
    (o o' : Outcome) (h : Outcome.Relocated H o o') :
    ReadState.Relocated H (ReadSTEP.after m o).2 (ReadSTEP.after m' o').2 := by
  cases o with
  | completed s =>
    cases o' with
    | completed s' =>
      unfold ReadSTEP.after ReadSTEP.finish Model.Update
      simp only
      split <;> split <;> exact h
    | returned b s' => exact False.elim h
    | raised f s' => exact False.elim h
  | returned b s =>
    cases o' with
    | completed s' => exact False.elim h
    | returned b s' => exact h.2
    | raised f s' => exact False.elim h
  | raised f s =>
    cases o' with
    | completed s' => exact False.elim h
    | returned b s' => exact False.elim h
    | raised f s' => exact h.2

theorem ReadSTEP_relocated (env : Env) (m m' : List Component → Model → Bool) (caf : CafRead)
    (plain : PlainRead) (H : List Component) (st st' : ReadState)
    (hopt : st'.rd.opt = st.rd.opt) (h : ReadState.Relocated H st st') :
    ReadState.Relocated H (ReadSTEP env m caf plain st).2 (ReadSTEP env m' caf plain st').2 := by
  have ht := tryBlock_relocated env caf H st st' hopt h
  unfold ReadSTEP
  cases ho : ReadSTEP.tryBlock env caf st with
  | completed s =>
    cases ho' : ReadSTEP.tryBlock env caf st' with
    | completed s' => rw [ho, ho'] at ht; exact after_relocated m m' H _ _ ht
    | returned b s' => rw [ho, ho'] at ht; exact absurd ht (by simp [Outcome.Relocated])
    | raised f s' => rw [ho, ho'] at ht; exact absurd ht (by simp [Outcome.Relocated])
  | returned b s =>
    cases ho' : ReadSTEP.tryBlock env caf st' with
    | completed s' => rw [ho, ho'] at ht; exact absurd ht (by simp [Outcome.Relocated])
    | returned b s' => rw [ho, ho'] at ht; exact after_relocated m m' H _ _ ht
    | raised f s' => rw [ho, ho'] at ht; exact absurd ht (by simp [Outcome.Relocated])
  | raised f s =>
    cases ho' : ReadSTEP.tryBlock env caf st' with
    | completed s' => rw [ho, ho'] at ht; exact absurd ht (by simp [Outcome.Relocated])
    | returned b s' => rw [ho, ho'] at ht; exact absurd ht (by simp [Outcome.Relocated])
    | raised f' s' =>
      rw [ho, ho'] at ht
      obtain ⟨hf, hs⟩ := ht
      subst hf
      cases f with
      | NumericError =>
        exact after_relocated m m' H _ _ (catchNumericError_relocated env plain H s s' hs)
      | Unknown => exact after_relocated m m' H _ _ ⟨rfl, hs⟩
/-- C15, the sentence as written fails: `ReadSTEP` does not empty the duplicate-instance
index. A new reader reads the assembly document (three placements of one part): the read
succeeds, creates four components, and leaves the identity of the part in the index, at
component 1, which holds the two units of the part. The same reader then reads the same
document into a new empty model: the first placement built by this second read, component 5,
gets component 1 of the first read as its original and no unit, the read reports failure,
and the state it leaves is not the one a new reader builds, moved to later addresses. -/
theorem C15_counterexample :
    sampleFirstRead.1 = true
      ∧ sampleFirstRead.2.rd.mem.heap.length = 4
      ∧ sampleFirstRead.2.rd.mem.idComponentMap = [(21, 1)]
      ∧ (sampleFirstRead.2.rd.mem.heap[1]?).map (fun c => (c.originalComponent, c.iShapes.length))
          = some (none, 2)
      ∧ (sampleSecondRead.2.rd.mem.heap[5]?).map (fun c => (c.originalComponent, c.iShapes.length))
          = some (some 1, 0)
      ∧ sampleSecondRead.1 = false
      ∧ ¬ ReadState.Relocated sampleFirstRead.2.rd.mem.heap sampleFirstRead.2
          sampleSecondRead.2 := by
  refine ⟨by decide, by decide, by decide, by decide, by decide, by decide, ?_⟩
  intro h
  exact absurd h.1.2 (by decide)

/-- C15, amended: the duplicate-instance index lives as long as the reader. It is empty in a
new reader and after `Clear` (which the destructor calls, and which leaves the components as
they are); `ReadSTEP` itself never empties it. When a read starts with an empty index and an
empty model, after any earlier components, then the state it leaves is the state a new reader
with the same options leaves on the same input, built at later addresses: the same
components, units and index entries, every address moved up by the number of earlier
components. Hence every original back-reference of a component built by this read points to a
component built by this read, and the earlier components are unchanged. -/
theorem C15_index_scope (env : Env) (modelIsEmpty : List Component → Model → Bool)
    (caf : CafRead) (plain : PlainRead) (st : ReadState)
    (hindex : st.rd.mem.idComponentMap = []) (hroots : st.model.roots = []) :
    (∀ opt : S2X_Option, (STEP_Reader.new opt).mem.idComponentMap = [])
      ∧ (∀ rd : STEP_Reader, (STEP_Reader.Clear rd).mem.idComponentMap = []
          ∧ (STEP_Reader.Clear rd).mem.heap = rd.mem.heap
          ∧ (STEP_Reader.Clear rd).opt = rd.opt)
      ∧ ReadState.Relocated st.rd.mem.heap
          (ReadSTEP env modelIsEmpty caf plain
            { rd := STEP_Reader.new st.rd.opt, model := { roots := [] }, out := [] }).2
          (ReadSTEP env modelIsEmpty caf plain st).2
      ∧ (∀ a c o, (ReadSTEP env modelIsEmpty caf plain st).2.rd.mem.heap[a]? = some c →
          st.rd.mem.heap.length ≤ a → c.originalComponent = some o →
          st.rd.mem.heap.length ≤ o)
      ∧ (∀ a, a < st.rd.mem.heap.length →
          (ReadSTEP env modelIsEmpty caf plain st).2.rd.mem.heap[a]? = st.rd.mem.heap[a]?) := by
  have hrel : ReadState.Relocated st.rd.mem.heap
      (ReadSTEP env modelIsEmpty caf plain
        { rd := STEP_Reader.new st.rd.opt, model := { roots := [] }, out := [] }).2
      (ReadSTEP env modelIsEmpty caf plain st).2 := by
    apply ReadSTEP_relocated env modelIsEmpty modelIsEmpty caf plain st.rd.mem.heap
    · rfl
    · refine ⟨⟨?_, ?_⟩, ?_⟩
      · show st.rd.mem.heap = st.rd.mem.heap ++ List.map _ []
        simp
      · show st.rd.mem.idComponentMap = List.map _ []
        rw [hindex]
        rfl
      · show st.model.roots = List.map _ []
        rw [hroots]
        rfl
  refine ⟨fun _ => rfl, fun _ => ⟨rfl, rfl, rfl⟩, hrel, ?_, ?_⟩
  · intro a c o hc ha ho
    rw [hrel.1.1, List.getElem?_append_right ha, List.getElem?_map] at hc
    cases hf : (ReadSTEP env modelIsEmpty caf plain
        { rd := STEP_Reader.new st.rd.opt, model := { roots := [] }, out := [] }).2.rd.mem.heap[
          a - st.rd.mem.heap.length]? with
    | none => rw [hf] at hc; simp at hc
    | some c0 =>
      rw [hf] at hc
      simp only [Option.map_some', Option.some.injEq] at hc
      rw [← hc] at ho
      simp only [Component.shift] at ho
      cases ho0 : c0.originalComponent with
      | none => rw [ho0] at ho; simp at ho
      | some o0 =>
        rw [ho0] at ho
        simp only [Option.map_some', Option.some.injEq] at ho
        omega
  · intro a ha
    rw [hrel.1.1, List.getElem?_append_left ha]

/-- C15 at a concrete state: the reader of the first read of the assembly document is
cleared and reads the document again into an empty model; the state is the one a new reader
leaves, four addresses later, and the copies built by this read have component 5, built by
this read, as their original. -/
theorem C15_index_scope_witness :
    sampleClearedReader.rd.mem.idComponentMap = []
      ∧ sampleClearedReader.model.roots = []
      ∧ sampleClearedReader.rd.mem.heap.length = 4
      ∧ ReadState.Relocated sampleClearedReader.rd.mem.heap
          (ReadSTEP Env.plain Model.IsEmpty sampleAssemblyRead samplePlainRead
            { rd := STEP_Reader.new sampleClearedReader.rd.opt, model := { roots := [] },
              out := [] }).2
          (ReadSTEP Env.plain Model.IsEmpty sampleAssemblyRead samplePlainRead
            sampleClearedReader).2
      ∧ ((ReadSTEP Env.plain Model.IsEmpty sampleAssemblyRead samplePlainRead
            sampleClearedReader).2.rd.mem.heap.drop 4).map
              (fun c => (c.originalComponent, c.iShapes.length))
          = [(none, 0), (none, 2), (some 5, 0), (some 5, 0)] :=
  ⟨rfl, rfl, by decide,
    (C15_index_scope Env.plain Model.IsEmpty sampleAssemblyRead samplePlainRead
      sampleClearedReader rfl rfl).2.2.1,
    by decide⟩
theorem ReadPost_nil (env : Env) (r : Memory) (hv : r.MapValid) : ReadPost env [] r r := by
  refine ⟨Nat.le_refl _, ?_, fun _ _ h => h, ?_, ?_, hv⟩
  · intro x hx; cases hx
  · intro k a h1 h2; rw [h1] at h2; cases h2
  · intro b h1 h2; omega

theorem ReadPost_of_same (env : Env) (R : List Nat) (r r1 r2 : Memory)
    (h : ReadPost env R r r1) (hheap : r2.heap = r1.heap)
    (hmap : r2.idComponentMap = r1.idComponentMap) : ReadPost env R r r2 := by
  have hr : r2 = r1 := by
    cases r2; cases r1; simp only at hheap hmap; subst hheap; subst hmap; rfl
  rw [hr]; exact h

/-- One turn of the loop over the free shapes: the root is created and named, and
`AddSubComponents` runs on it. -/
theorem ReadPost_step (env : Env) (sd : STEP_Data) (opt : S2X_Option) (ct : ColorTool)
    (R : List Nat) (r r1 : Memory) (shape : Shape) (name : WString) (label : Label)
    (h : ReadPost env R r r1) :
    ReadPost env (R ++ [r1.heap.length]) r
      (AddSubComponents env sd opt ct
        (((r1.alloc (Component.new shape)).2).SetUniqueName r1.heap.length name)
        r1.heap.length label) := by
  have hlen1 : (((r1.alloc (Component.new shape)).2).SetUniqueName r1.heap.length name).heap.length
      = r1.heap.length + 1 := by
    simp [Memory.SetUniqueName, Memory.alloc, modifyAt_length]
  have hmap1 : (((r1.alloc (Component.new shape)).2).SetUniqueName r1.heap.length
      name).idComponentMap = r1.idComponentMap := rfl
  have hold1 : ∀ a, a < r1.heap.length →
      (((r1.alloc (Component.new shape)).2).SetUniqueName r1.heap.length name).heap[a]?
        = r1.heap[a]? := by
    intro a ha
    simp only [Memory.SetUniqueName, Memory.alloc, modifyAt_getElem?, if_neg (Nat.ne_of_lt ha),
      List.getElem?_append_left ha]
  have hv1 : (((r1.alloc (Component.new shape)).2).SetUniqueName r1.heap.length
      name).MapValid := MapValid_of_same r1 _ hmap1 (by rw [hlen1]; omega) h.valid
  have hP := AddSubComponents_mapPost env sd opt ct label _ r1.heap.length
    (by rw [hlen1]; omega) hv1
  have hF := AddSubComponents_frame env sd opt ct label
    (((r1.alloc (Component.new shape)).2).SetUniqueName r1.heap.length name) r1.heap.length
    (by rw [hlen1]; omega)
  generalize hm1 : ((r1.alloc (Component.new shape)).2).SetUniqueName r1.heap.length name
    = m1 at hlen1 hmap1 hold1 hv1 hP hF
  generalize AddSubComponents env sd opt ct m1 r1.heap.length label = r2 at hP hF
  have hlen2 : r1.heap.length + 1 ≤ r2.heap.length := by rw [← hlen1]; exact hF.len_le
  have hshape : ∀ a, a < r1.heap.length → r2.GetShape a = r1.GetShape a := by
    intro a ha
    rw [Frame_shape_eq hF a (by rw [hlen1]; omega)]
    exact GetShape_congr r1 m1 a (hold1 a ha)
  have hRlt : ∀ x, x ∈ R → x < r1.heap.length := fun x hx => (h.roots x hx).2
  refine ⟨by have := h.len_le; omega, ?_, ?_, ?_, ?_, hP.valid⟩
  · intro x hx
    rcases List.mem_append.1 hx with hx | hx
    · have := h.roots x hx; omega
    · have : x = r1.heap.length := by simpa using hx
      have := h.len_le
      omega
  · intro k a hk
    exact hP.map_mono k a (by rw [hmap1]; exact h.map_mono k a hk)
  · intro k a hk hk2
    cases hk1 : mapFind r1.idComponentMap k with
    | some a1 =>
      have := hP.map_mono k a1 (by rw [hmap1]; exact hk1)
      rw [hk2] at this
      cases this
      obtain ⟨hle, hlt, hR, hid, hfirst⟩ := h.map_new k a hk hk1
      refine ⟨hle, by omega, ?_, ?_, ?_⟩
      · intro hx
        rcases List.mem_append.1 hx with hx | hx
        · exact hR hx
        · have : a = r1.heap.length := by simpa using hx
          omega
      · rw [hshape a hlt]; exact hid
      · intro b hb1 hb2 hb3
        rw [hshape b (by omega)]
        exact hfirst b hb1 hb2 (fun hx => hb3 (List.mem_append_left _ hx))
    | none =>
      obtain ⟨hle, hlt, hid, hfirst⟩ := hP.map_new k a (by rw [hmap1]; exact hk1) hk2
      rw [hlen1] at hle
      refine ⟨by have := h.len_le; omega, hlt, ?_, hid, ?_⟩
      · intro hx
        rcases List.mem_append.1 hx with hx | hx
        · have := hRlt a hx; omega
        · have : a = r1.heap.length := by simpa using hx
          omega
      · intro b hb1 hb2 hb3
        rcases Nat.lt_trichotomy b r1.heap.length with hb | hb | hb
        · obtain ⟨cb, e, hcb, hfind, _⟩ := h.node_new b hb1 hb
            (fun hx => hb3 (List.mem_append_left _ hx))
          rw [hshape b hb, GetShape_of_getElem? r1 b cb hcb]
          intro heq
          rw [heq, hk1] at hfind
          cases hfind
        · exact absurd (List.mem_append_right _ (by simp [hb])) hb3
        · exact hfirst b (by rw [hlen1]; omega) hb2
  · intro b hb1 hb2 hb3
    rcases Nat.lt_trichotomy b r1.heap.length with hb | hb | hb
    · obtain ⟨cb, a, hcb, hfind, hcase⟩ := h.node_new b hb1 hb
        (fun hx => hb3 (List.mem_append_left _ hx))
      refine ⟨cb, a, ?_, hP.map_mono _ a (by rw [hmap1]; exact hfind), hcase⟩
      rw [hF.frame b (by rw [hlen1]; omega) (Nat.ne_of_lt hb), hold1 b hb]
      exact hcb
    · exact absurd (List.mem_append_right _ (by simp [hb])) hb3
    · exact hP.node_new b (by rw [hlen1]; omega) hb2
theorem freeShapes_readPost (env : Env) (doc : Document) (treeFault : Option (Nat × Fault))
    (r0 : Memory) (M : List Nat) :
    ∀ (labels : List Label) (i : Nat) (st : ReadState) (R : List Nat),
      ReadPost env R r0 st.rd.mem → st.model.roots = M ++ R →
      ∃ R', ReadPost env R' r0 (ReadSTEP.freeShapes env doc treeFault i labels st).state.rd.mem
        ∧ (ReadSTEP.freeShapes env doc treeFault i labels st).state.model.roots = M ++ R'
  | [], i, st, R, h, hr => by
    unfold ReadSTEP.freeShapes
    exact ⟨R, h, hr⟩
  | label_shape :: rest, i, st, R, h, hr => by
    have hstep := ReadPost_step env doc.stepData st.rd.opt doc.colorTool R r0 st.rd.mem
      label_shape.shape (GetName env label_shape.nameText) label_shape h
    have hroot := ReadPost_step env doc.stepData st.rd.opt doc.colorTool R r0 st.rd.mem
      label_shape.shape (GetName env label_shape.nameText) (.other [] .null) h
    rw [AddSubComponents_other] at hroot
    have hr1 : (st.model.AddRootComponent st.rd.mem.heap.length).roots
        = M ++ (R ++ [st.rd.mem.heap.length]) := by
      unfold Model.AddRootComponent
      simp only
      rw [hr, List.append_assoc]
    have hnext := freeShapes_readPost env doc treeFault r0 M rest (i + 1)
      { st with
        rd := { st.rd with
          mem := AddSubComponents env doc.stepData st.rd.opt doc.colorTool
            (((st.rd.mem.alloc (Component.new label_shape.shape)).2).SetUniqueName
              (st.rd.mem.alloc (Component.new label_shape.shape)).1
              (GetName env label_shape.nameText))
            (st.rd.mem.alloc (Component.new label_shape.shape)).1 label_shape },
        model := st.model.AddRootComponent (st.rd.mem.alloc (Component.new label_shape.shape)).1 }
      (R ++ [st.rd.mem.heap.length]) hstep hr1
    unfold ReadSTEP.freeShapes
    cases treeFault with
    | none => exact hnext
    | some jf =>
      obtain ⟨j, f⟩ := jf
      simp only
      by_cases hj : j = i
      · rw [if_pos hj]
        exact ⟨R ++ [st.rd.mem.heap.length], hroot, hr1⟩
      · rw [if_neg hj]
        exact hnext

/-- The primary path of a read that starts with a valid index: the roots it attaches and the
components it creates for references. -/
theorem tryBlock_readPost (env : Env) (caf : CafRead) (st : ReadState)
    (hv : st.rd.mem.MapValid) :
    ∃ R, ReadPost env R st.rd.mem (ReadSTEP.tryBlock env caf st).state.rd.mem
      ∧ (ReadSTEP.tryBlock env caf st).state.model.roots = st.model.roots ++ R := by
  have h0 : ∃ R, ReadPost env R st.rd.mem st.rd.mem ∧ st.model.roots = st.model.roots ++ R :=
    ⟨[], ReadPost_nil env _ hv, by simp⟩
  unfold ReadSTEP.tryBlock
  cases caf.readFile with
  | error f => exact h0
  | ok status =>
    simp only
    by_cases hs : (!(CheckReturnStatus status).1) = true
    · rw [if_pos hs]
      exact h0
    · rw [if_neg hs]
      cases caf.transfer with
      | error f => exact h0
      | ok d =>
        cases d with
        | none => exact h0
        | some doc =>
          simp only
          apply freeShapes_readPost env doc caf.treeFault st.rd.mem st.model.roots
            doc.freeShapes 0 _ []
          · show ReadPost env [] st.rd.mem (UpdateColorOption _).mem
            rw [UpdateColorOption_mem]
            exact ReadPost_nil env _ hv
          · simp

/-- The components that exist when the primary path of a read ends are unchanged when
`ReadSTEP` returns. -/
theorem ReadSTEP_keeps (env : Env) (modelIsEmpty : List Component → Model → Bool)
    (caf : CafRead) (plain : PlainRead) (st : ReadState) (x : Nat) (c : Component)
    (h : (ReadSTEP.tryBlock env caf st).state.rd.mem.heap[x]? = some c) :
    (ReadSTEP env modelIsEmpty caf plain st).2.rd.mem.heap[x]? = some c := by
  have hafter : ∀ o : Outcome, (ReadSTEP.after modelIsEmpty o).2.rd.mem = o.state.rd.mem := by
    intro o
    cases o with
    | completed s =>
      unfold ReadSTEP.after ReadSTEP.finish
      simp only
      split <;> rfl
    | returned b s => rfl
    | raised f s => rfl
  unfold ReadSTEP
  cases ho : ReadSTEP.tryBlock env caf st with
  | completed s => rw [ho] at h; simp only; rw [hafter]; exact h
  | returned b s => rw [ho] at h; simp only; rw [hafter]; exact h
  | raised f s =>
    rw [ho] at h
    cases f with
    | Unknown => simp only; rw [hafter]; exact h
    | NumericError =>
      simp only
      rw [hafter]
      have hx : x < s.rd.mem.heap.length := getElem?_lt h
      have hm : (UpdateColorOption s.rd).mem = s.rd.mem := UpdateColorOption_mem _
      unfold ReadSTEP.catchNumericError
      simp only
      split
      · show (UpdateColorOption s.rd).mem.heap[x]? = some c
        rw [hm]; exact h
      · split
        · show (((UpdateColorOption s.rd).mem.alloc (Component.new plain.shape)).2.AddIShape
            ((UpdateColorOption s.rd).mem.alloc (Component.new plain.shape)).1
            (IShape.new env plain.shape)).heap[x]? = some c
          rw [hm]
          simp only [Memory.AddIShape, Memory.alloc, modifyAt_getElem?, if_neg (Nat.ne_of_lt hx),
            List.getElem?_append_left hx]
          exact h
        · show (UpdateColorOption s.rd).mem.heap[x]? = some c
          rw [hm]; exact h
/-- C1 (duplicate law): in one read that starts with an empty duplicate-instance index, the
components the primary path creates are the roots, which it attaches to the model after the
roots the model holds already, and the components `AddSubComponents` creates for
references, in the order the references are met, across all free shapes.  For two reference
components with the same shape identity, `a` the first one of the read with that identity
and `b` a later one: when `ReadSTEP` returns, `a` has no back-reference, and `b` has `a` as
its back-reference and neither children nor units. -/
theorem C1_duplicate_law (env : Env) (modelIsEmpty : List Component → Model → Bool)
    (caf : CafRead) (plain : PlainRead) (st : ReadState) (a b : Nat)
    (hempty : st.rd.mem.idComponentMap = [])
    (ha : st.rd.mem.heap.length ≤ a) (hab : a < b)
    (hb : b < (ReadSTEP.tryBlock env caf st).state.rd.mem.heap.length)
    (hra : a ∉ (ReadSTEP.tryBlock env caf st).state.model.roots.drop st.model.roots.length)
    (hrb : b ∉ (ReadSTEP.tryBlock env caf st).state.model.roots.drop st.model.roots.length)
    (hid : env.GetID ((ReadSTEP.tryBlock env caf st).state.rd.mem.GetShape a)
      = env.GetID ((ReadSTEP.tryBlock env caf st).state.rd.mem.GetShape b))
    (hfirst : ∀ c, st.rd.mem.heap.length ≤ c → c < a →
      c ∉ (ReadSTEP.tryBlock env caf st).state.model.roots.drop st.model.roots.length →
      env.GetID ((ReadSTEP.tryBlock env caf st).state.rd.mem.GetShape c)
        ≠ env.GetID ((ReadSTEP.tryBlock env caf st).state.rd.mem.GetShape a)) :
    (∃ ca, (ReadSTEP env modelIsEmpty caf plain st).2.rd.mem.heap[a]? = some ca
        ∧ ca.originalComponent = none)
      ∧ ∃ cb, (ReadSTEP env modelIsEmpty caf plain st).2.rd.mem.heap[b]? = some cb
        ∧ cb.originalComponent = some a ∧ cb.subComponents = [] ∧ cb.iShapes = [] := by
  have hnone : ∀ k, mapFind st.rd.mem.idComponentMap k = none := by
    intro k; rw [hempty]; rfl
  have hv : st.rd.mem.MapValid := by
    intro k x h; rw [hnone k] at h; cases h
  obtain ⟨R, post, hr⟩ := tryBlock_readPost env caf st hv
  rw [hr, List.drop_left] at hra hrb hfirst
  -- the entry of the identity is the first reference component with it, which is `a`
  have hentry : ∀ (x : Nat) (cx : Component) (e : Nat),
      (ReadSTEP.tryBlock env caf st).state.rd.mem.heap[x]? = some cx →
      env.GetID cx.shape
        = env.GetID ((ReadSTEP.tryBlock env caf st).state.rd.mem.GetShape a) →
      mapFind (ReadSTEP.tryBlock env caf st).state.rd.mem.idComponentMap (env.GetID cx.shape)
        = some e → e = a := by
    intro x cx e _ hk he
    obtain ⟨hle, _, heR, hide, hfe⟩ := post.map_new _ e (hnone _) he
    rcases Nat.lt_trichotomy e a with h | h | h
    · exact absurd (hide.trans hk) (hfirst e hle h heR)
    · exact h
    · exact absurd hk.symm (hfe a ha h hra)
  constructor
  · obtain ⟨ca, e, hca, hfind, hcase⟩ := post.node_new a ha (Nat.lt_trans hab hb) hra
    have he : e = a := hentry a ca e hca (by rw [GetShape_of_getElem? _ a ca hca]) hfind
    subst he
    rcases hcase with ⟨_, horig⟩ | ⟨hlt, _⟩
    · exact ⟨ca, ReadSTEP_keeps env modelIsEmpty caf plain st _ ca hca, horig⟩
    · exact absurd hlt (Nat.lt_irrefl _)
  · obtain ⟨cb, e, hcb, hfind, hcase⟩ :=
      post.node_new b (Nat.le_of_lt (Nat.lt_of_le_of_lt ha hab)) hb hrb
    have he : e = a := hentry b cb e hcb
      (by rw [hid, GetShape_of_getElem? _ b cb hcb]) hfind
    subst he
    rcases hcase with ⟨heq, _⟩ | ⟨_, horig, hsub, hun⟩
    · omega
    · exact ⟨cb, ReadSTEP_keeps env modelIsEmpty caf plain st _ cb hcb, horig, hsub, hun⟩

/-- C1 at a sample input: a new reader reads a document with two free shapes, each an
assembly of three placements of one part.  Components 0 and 4 are the roots; component 5,
created for the first reference of the second free shape, is a copy of component 1, created
for the first reference of the first free shape. -/
theorem C1_duplicate_law_witness :
    (ReadSTEP.tryBlock Env.plain sampleTwoAssembliesRead sampleNewReader).state.model.roots.drop
        sampleNewReader.model.roots.length = [0, 4]
      ∧ (∃ ca, (ReadSTEP Env.plain Model.IsEmpty sampleTwoAssembliesRead samplePlainRead
            sampleNewReader).2.rd.mem.heap[1]? = some ca ∧ ca.originalComponent = none)
      ∧ ∃ cb, (ReadSTEP Env.plain Model.IsEmpty sampleTwoAssembliesRead samplePlainRead
            sampleNewReader).2.rd.mem.heap[5]? = some cb
        ∧ cb.originalComponent = some 1 ∧ cb.subComponents = [] ∧ cb.iShapes = [] :=
  ⟨by decide,
    C1_duplicate_law Env.plain Model.IsEmpty sampleTwoAssembliesRead samplePlainRead
      sampleNewReader 1 5 rfl (by decide) (by decide) (by decide)
      (by decide) (by decide) (by decide)
      (fun c h1 h2 h3 => by
        have hc : c = 0 := by omega
        subst hc
        exact absurd (by decide) h3)⟩
/-- In a read that starts with an empty index: every component stored in the index has a null
back-reference and carries the identity it is stored under, and the back-reference of a
reference component is an earlier component, the entry of its identity. -/
theorem ReadPost_chain (env : Env) (R : List Nat) (r r' : Memory) (post : ReadPost env R r r')
    (hempty : r.idComponentMap = []) :
    (∀ k a, mapFind r'.idComponentMap k = some a →
        ∃ c, r'.heap[a]? = some c ∧ c.originalComponent = none ∧ env.GetID c.shape = k)
      ∧ (∀ b cb o, r.heap.length ≤ b → b ∉ R → r'.heap[b]? = some cb →
        cb.originalComponent = some o →
        o < b ∧ mapFind r'.idComponentMap (env.GetID cb.shape) = some o) := by
  have hnone : ∀ k, mapFind r.idComponentMap k = none := by
    intro k; rw [hempty]; rfl
  constructor
  · intro k a h
    obtain ⟨hle, hlt, haR, hid, _⟩ := post.map_new k a (hnone k) h
    obtain ⟨ca, e, hca, hfind, hcase⟩ := post.node_new a hle hlt haR
    have hk : env.GetID ca.shape = k := by
      rw [← GetShape_of_getElem? r' a ca hca]; exact hid
    rw [hk, h] at hfind
    have he : a = e := by simpa using hfind
    subst he
    rcases hcase with ⟨_, horig⟩ | ⟨hlt', _⟩
    · exact ⟨ca, hca, horig, hk⟩
    · exact absurd hlt' (Nat.lt_irrefl _)
  · intro b cb o hb hbR hcb horig
    obtain ⟨cb', e, hcb', hfind, hcase⟩ := post.node_new b hb (getElem?_lt hcb) hbR
    rw [hcb] at hcb'
    have hc : cb = cb' := by simpa using hcb'
    subst hc
    rcases hcase with ⟨_, hnone'⟩ | ⟨hlt, horig', _⟩
    · rw [hnone'] at horig; cases horig
    · rw [horig'] at horig
      have he : e = o := by simpa using horig
      subst he
      exact ⟨hlt, hfind⟩

/-- C18, the sentence as written fails for a sequence of `IsCopy` calls that passes a
component twice, and for one that passes a component with a back-reference.  Two calls on
component 0 from an empty index: the second call returns true and gives component 0, which
is stored in the index, itself as back-reference.  One call on a component that has a
back-reference already: it is stored in the index with that back-reference. -/
theorem C18_counterexample :
    (sampleFour.idComponentMap = []
      ∧ (IsCopySeq Env.plain sampleFour [0, 0]).1 = [false, true]
      ∧ mapFind (IsCopySeq Env.plain sampleFour [0, 0]).2.idComponentMap
          (Env.plain.GetID sampleSolid) = some 0
      ∧ ((IsCopySeq Env.plain sampleFour [0, 0]).2.heap[0]?).map
          (fun c => c.originalComponent) = some (some 0))
      ∧ (sampleMarked.idComponentMap = []
        ∧ (IsCopySeq Env.plain sampleMarked [1]).1 = [false]
        ∧ mapFind (IsCopySeq Env.plain sampleMarked [1]).2.idComponentMap
            (Env.plain.GetID sampleSolid) = some 1
        ∧ ((IsCopySeq Env.plain sampleMarked [1]).2.heap[1]?).map
            (fun c => c.originalComponent) = some (some 0)) := by
  decide

/-- C18 (back-reference chains have length one), amended.  After a sequence of `IsCopy`
calls that starts from an empty index, each call on a new component (a valid address, passed
once, with a null back-reference when the sequence starts): every component stored in the
index has a null back-reference and is the first component of the sequence with its
identity; the back-reference of a duplicate is another component, the entry of its
identity, which has a null back-reference itself; and a call returns true exactly when an
earlier component of the sequence has the same identity.  `AddSubComponents` calls `IsCopy`
in this way, once on each component it has just created for a reference; hence, when the
primary path of a read that starts with an empty index ends, every component stored in the
index has a null back-reference, and the back-reference of a reference component is an
earlier component, the entry of its identity, which has a null back-reference itself. -/
theorem C18_back_reference_chains (env : Env) :
    (∀ (r : Memory) (comps : List Nat), r.idComponentMap = [] → comps.Nodup →
      (∀ a, a ∈ comps → ∃ c, r.heap[a]? = some c ∧ c.originalComponent = none) →
      (∀ k a, mapFind (IsCopySeq env r comps).2.idComponentMap k = some a →
          (∃ c, (IsCopySeq env r comps).2.heap[a]? = some c ∧ c.originalComponent = none
            ∧ env.GetID c.shape = k)
          ∧ ∃ pre post, comps = pre ++ a :: post
            ∧ ∀ b, b ∈ pre → env.GetID (r.GetShape b) ≠ k)
        ∧ (∀ b cb o, b ∈ comps → (IsCopySeq env r comps).2.heap[b]? = some cb →
          cb.originalComponent = some o →
          o ≠ b
            ∧ mapFind (IsCopySeq env r comps).2.idComponentMap (env.GetID cb.shape) = some o
            ∧ ∃ co, (IsCopySeq env r comps).2.heap[o]? = some co ∧ co.originalComponent = none
              ∧ env.GetID co.shape = env.GetID cb.shape)
        ∧ (∀ pre b post, comps = pre ++ b :: post →
          ∃ f, (IsCopySeq env r comps).1[pre.length]? = some f
            ∧ (f = true ↔
              ∃ a, a ∈ pre ∧ env.GetID (r.GetShape a) = env.GetID (r.GetShape b))))
      ∧ (∀ (caf : CafRead) (st : ReadState), st.rd.mem.idComponentMap = [] →
        (∀ k a, mapFind (ReadSTEP.tryBlock env caf st).state.rd.mem.idComponentMap k = some a →
            ∃ c, (ReadSTEP.tryBlock env caf st).state.rd.mem.heap[a]? = some c
              ∧ c.originalComponent = none ∧ env.GetID c.shape = k)
          ∧ (∀ b cb o, st.rd.mem.heap.length ≤ b →
            b ∉ (ReadSTEP.tryBlock env caf st).state.model.roots →
            (ReadSTEP.tryBlock env caf st).state.rd.mem.heap[b]? = some cb →
            cb.originalComponent = some o →
            o < b
              ∧ mapFind (ReadSTEP.tryBlock env caf st).state.rd.mem.idComponentMap
                  (env.GetID cb.shape) = some o
              ∧ ∃ co, (ReadSTEP.tryBlock env caf st).state.rd.mem.heap[o]? = some co
                ∧ co.originalComponent = none
                ∧ env.GetID co.shape = env.GetID cb.shape)) := by
  constructor
  · intro r comps hempty hnodup hfresh
    have inv := IsCopySeq_inv env r hempty comps hnodup hfresh
    have hentry : ∀ k a, mapFind (IsCopySeq env r comps).2.idComponentMap k = some a →
        (∃ c, (IsCopySeq env r comps).2.heap[a]? = some c ∧ c.originalComponent = none
          ∧ env.GetID c.shape = k)
        ∧ ∃ pre post, comps = pre ++ a :: post
          ∧ ∀ b, b ∈ pre → env.GetID (r.GetShape b) ≠ k := by
      intro k a h
      obtain ⟨⟨c, hc, hco⟩, hid, hfirst⟩ := inv.entry k a h
      refine ⟨⟨c, hc, hco, ?_⟩, hfirst⟩
      rw [← GetShape_of_getElem? _ a c hc, inv.shape_eq a]
      exact hid
    refine ⟨hentry, ?_, inv.flag⟩
    intro b cb o hb hcb horig
    obtain ⟨hne, hfind⟩ := inv.copy b hb cb o hcb horig
    have hshape : env.GetID (r.GetShape b) = env.GetID cb.shape := by
      rw [← inv.shape_eq b, GetShape_of_getElem? _ b cb hcb]
    rw [hshape] at hfind
    obtain ⟨⟨co, hco, hcoo, hcoid⟩, _⟩ := hentry _ o hfind
    exact ⟨hne, hfind, co, hco, hcoo, hcoid⟩
  · intro caf st hempty
    have hv : st.rd.mem.MapValid := by
      intro k x h; rw [hempty] at h; cases h
    obtain ⟨R, post, hr⟩ := tryBlock_readPost env caf st hv
    have hchain := ReadPost_chain env R _ _ post hempty
    refine ⟨hchain.1, ?_⟩
    intro b cb o hb hbroot hcb horig
    have hbR : b ∉ R := fun h => hbroot (by rw [hr]; exact List.mem_append_right _ h)
    obtain ⟨hlt, hfind⟩ := hchain.2 b cb o hb hbR hcb horig
    obtain ⟨co, hco, hcoo, hcoid⟩ := hchain.1 _ o hfind
    exact ⟨hlt, hfind, co, hco, hcoo, hcoid⟩

/-- C18 at sample inputs: four new components, the first, third and fourth with the same
shape; the third call returns true, and the fourth component points to the first, which
has no back-reference; and in the read of two assemblies component 5 points to component
1, which has no back-reference. -/
theorem C18_back_reference_chains_witness :
    (∃ f, (IsCopySeq Env.plain sampleFour [0, 1, 2, 3]).1[2]? = some f
        ∧ (f = true ↔ ∃ a, a ∈ [0, 1] ∧ Env.plain.GetID (sampleFour.GetShape a)
          = Env.plain.GetID (sampleFour.GetShape 2)))
      ∧ (0 ≠ 3 ∧ mapFind (IsCopySeq Env.plain sampleFour [0, 1, 2, 3]).2.idComponentMap
          (Env.plain.GetID sampleSolid) = some 0
        ∧ ∃ co, (IsCopySeq Env.plain sampleFour [0, 1, 2, 3]).2.heap[0]? = some co
          ∧ co.originalComponent = none
          ∧ Env.plain.GetID co.shape = Env.plain.GetID sampleSolid)
      ∧ (1 < 5
        ∧ mapFind (ReadSTEP.tryBlock Env.plain sampleTwoAssembliesRead
            sampleNewReader).state.rd.mem.idComponentMap (Env.plain.GetID sampleCompound)
            = some 1
        ∧ ∃ co, (ReadSTEP.tryBlock Env.plain sampleTwoAssembliesRead
            sampleNewReader).state.rd.mem.heap[1]? = some co
          ∧ co.originalComponent = none
          ∧ Env.plain.GetID co.shape = Env.plain.GetID sampleCompound) :=
  ⟨((C18_back_reference_chains Env.plain).1 sampleFour [0, 1, 2, 3] rfl (by decide)
      (fun a ha => by
        simp only [List.mem_cons, List.mem_singleton, List.not_mem_nil, or_false] at ha
        rcases ha with h | h | h | h <;> subst h <;> exact ⟨_, rfl, rfl⟩)).2.2 [0, 1] 2 [3] rfl,
    ((C18_back_reference_chains Env.plain).1 sampleFour [0, 1, 2, 3] rfl (by decide)
      (fun a ha => by
        simp only [List.mem_cons, List.mem_singleton, List.not_mem_nil, or_false] at ha
        rcases ha with h | h | h | h <;> subst h <;> exact ⟨_, rfl, rfl⟩)).2.1 3
      { Component.new sampleSolid with originalComponent := some 0 } 0 (by decide) (by decide)
      rfl,
    ((C18_back_reference_chains Env.plain).2 sampleTwoAssembliesRead sampleNewReader rfl).2 5
      { refComponent Env.plain ⟨1⟩ samplePart with originalComponent := some 1 } 1 (by decide)
      (by decide) (by decide) rfl⟩
end STP2X3D
